import Mathlib

/-!
Verification of the nodepool allocation module (`nodepool/allocation.py`).

The Python module is a pure, synchronous, in-process computation over a
mutable object graph of providers, requests, sub-requests, grants and
targets.  We embed it shallowly:

* Python floats are modelled as exact rationals (`ℚ`); the Python 2
  builtin `round` (which rounds halves away from zero) is modelled by
  `pyround`, and `int(round(x))` is `pyround x : ℤ`.
* The mutable object graph is modelled as an explicit state (`AState`)
  holding total stores `Nat → entity` together with the lists of live
  ids; object identity becomes id equality and fresh ids come from
  per-store counters.
* Each Python method becomes a state-passing function with the same
  name (`makeRequests`, `makeGrants`, `grant`, `makeAllocations`, ...),
  translated statement by statement from the source.
-/

namespace Alloc

/-- Python 2 `int(round(x))`: round half away from zero, as an integer. -/
def pyround (x : ℚ) : ℤ := if 0 ≤ x then ⌊x + 1/2⌋ else -⌊-x + 1/2⌋

/-- A rational that is (the embedding of) a natural number.  The numeric
inputs the orchestrator feeds to the original module are node counts, so
the integrality hypotheses of several theorems below take this form. -/
def IsNatQ (x : ℚ) : Prop := 0 ≤ x ∧ x.den = 1

instance (x : ℚ) : Decidable (IsNatQ x) := by unfold IsNatQ; infer_instance

/-!
## Grant → target distribution (`AllocationGrant.makeAllocations`)

The loop body of `makeAllocations` reads, for each linked
`AllocationGrantTarget`, the `min_ready` and `current` fields of its
`AllocationRequestTarget`.  When the grant's targets reference pairwise
distinct request targets (the documented registration discipline: one
`addProvider` call per `(request, provider, target)` tuple), those reads
are exactly the values captured below, so the method is the following
pure function from the grant's amount and the list of
`(min_ready, current)` pairs to the list of allocations written.
-/

/-- The per-target data `makeAllocations` reads: the `min_ready` weight
and the running `current` count of the bound `AllocationRequestTarget`. -/
structure TargetRead where
  min_ready : ℚ
  current : ℚ
deriving DecidableEq

/-- The body of one `makeAllocations` loop iteration: the `ratio`,
`desired_count`, `delta` and clamping computations of the source, given
the running `amount`, `total_min_ready` and `total_current`. -/
def allocOf (amount tmr tc : ℚ) (a : TargetRead) : ℚ :=
  -- ratio := min_ready / total_min_ready (0 when the total is 0);
  -- desired_count := int(round(ratio * total_current));
  -- delta := desired_count - current;
  -- allocation := max(min(delta, amount), 0)
  max (min ((pyround ((if tmr ≠ 0 then a.min_ready / tmr else 0) * tc) : ℚ) - a.current) amount) 0

/-- The loop of `AllocationGrant.makeAllocations`, decrementing the
running `amount`, `total_min_ready` and `total_current` at the end of
each iteration exactly as the source does. -/
def makeAllocLoop : ℚ → ℚ → ℚ → List TargetRead → List ℚ
  | _, _, _, [] => []
  | amount, tmr, tc, a :: rest =>
    let allocation : ℚ := allocOf amount tmr tc a
    allocation :: makeAllocLoop (amount - allocation) (tmr - a.min_ready)
      (tc - a.current - allocation) rest

/-- `AllocationGrant.makeAllocations`: totals are computed over all
bindings, the grant's own amount is added to `total_current`, and the
loop distributes.  Returns the allocations in binding order. -/
def makeAllocations (amount : ℚ) (targets : List TargetRead) : List ℚ :=
  let total_min_ready : ℚ := (targets.map TargetRead.min_ready).sum
  let total_current : ℚ := (targets.map TargetRead.current).sum
  makeAllocLoop amount total_min_ready (total_current + amount) targets

/-!
## The object graph as an explicit state

Each Python object lives in a store indexed by `Nat` ids.  Lists keep
the source's iteration orders: a provider's `sub_requests` list, a
request's `sub_requests` dict (an association list provider-id ↦
sub-request-id in insertion order) and `request_targets` dict, and a
sub-request's `targets` list.  Fresh ids come from per-store counters.
-/

/-- `AllocationRequestTarget`: weight and running count for one
(request, target) pair. -/
structure AllocationRequestTarget where
  target : Nat
  request : Nat
  min_ready : ℚ
  current : ℚ
deriving DecidableEq

/-- `AllocationGrantTarget`: the per-(grant, target) output slot. -/
structure AllocationGrantTarget where
  sub_request : Nat
  request_target : Nat
  amount : ℚ
deriving DecidableEq

/-- `AllocationGrant`: the immutable record of a finalized sub-request
with positive amount. -/
structure AllocationGrant where
  request : Nat
  provider : Nat
  amount : ℚ
  targets : List Nat
deriving DecidableEq

/-- `AllocationProvider`: capacity plus the live sub-request list and
the grant list. -/
structure AllocationProvider where
  available : ℚ
  sub_requests : List Nat
  grants : List AllocationGrant
deriving DecidableEq

/-- `AllocationRequest`: remaining amount plus the provider ↦
sub-request and target ↦ request-target dictionaries. -/
structure AllocationRequest where
  amount : ℚ
  sub_requests : List (Nat × Nat)
  request_targets : List (Nat × Nat)
deriving DecidableEq

/-- `AllocationSubRequest`: a provider-scoped share of a request. -/
structure AllocationSubRequest where
  request : Nat
  provider : Nat
  amount : ℚ
  targets : List Nat
deriving DecidableEq

def defaultProvider : AllocationProvider := ⟨0, [], []⟩

def defaultRequest : AllocationRequest := ⟨0, [], []⟩

def defaultSubRequest : AllocationSubRequest := ⟨0, 0, 0, []⟩

def defaultRequestTarget : AllocationRequestTarget := ⟨0, 0, 0, 0⟩

def defaultGrantTarget : AllocationGrantTarget := ⟨0, 0, 0⟩

/-- The whole object graph. -/
structure AState where
  providerIds : List Nat
  requestIds : List Nat
  providers : Nat → AllocationProvider
  requests : Nat → AllocationRequest
  subs : Nat → AllocationSubRequest
  rts : Nat → AllocationRequestTarget
  gts : Nat → AllocationGrantTarget
  nextSub : Nat
  nextRt : Nat
  nextGt : Nat

def initState : AState :=
  ⟨[], [], fun _ => defaultProvider, fun _ => defaultRequest,
    fun _ => defaultSubRequest, fun _ => defaultRequestTarget,
    fun _ => defaultGrantTarget, 0, 0, 0⟩

/-- Dictionary lookup on an association list (Python `d.get(k)`). -/
def lookupA : List (Nat × Nat) → Nat → Option Nat
  | [], _ => none
  | (k', v) :: t, k => if k' = k then some v else lookupA t k

/-- Dictionary write `d[k] = v`: update in place or append. -/
def setA : List (Nat × Nat) → Nat → Nat → List (Nat × Nat)
  | [], k, v => [(k, v)]
  | (k', v') :: t, k, v => if k' = k then (k, v) :: t else (k', v') :: setA t k v

/-- Dictionary delete `del d[k]`. -/
def eraseA : List (Nat × Nat) → Nat → List (Nat × Nat)
  | [], _ => []
  | (k', v') :: t, k => if k' = k then eraseA t k else (k', v') :: eraseA t k

/-- `AllocationRequest.__init__` stores `float(amount)`; `addTarget`
creates an `AllocationRequestTarget` and files it under the target. -/
def newProviderOp (st : AState) (pid : Nat) (available : ℚ) : AState :=
  { st with providerIds := st.providerIds ++ [pid],
            providers := Function.update st.providers pid ⟨available, [], []⟩ }

def newRequestOp (st : AState) (rid : Nat) (amount : ℚ) : AState :=
  { st with requestIds := st.requestIds ++ [rid],
            requests := Function.update st.requests rid ⟨amount, [], []⟩ }

/-- `AllocationRequest.addTarget`. -/
def addTargetOp (st : AState) (rid tid : Nat) (min_ready current : ℚ) : AState :=
  let rtid := st.nextRt
  let r := st.requests rid
  { st with rts := Function.update st.rts rtid ⟨tid, rid, min_ready, current⟩,
            requests := Function.update st.requests rid
              ({ r with request_targets := setA r.request_targets tid rtid }),
            nextRt := st.nextRt + 1 }

/-- `AllocationSubRequest.setAmount`. -/
def setAmount (st : AState) (sid : Nat) (amount : ℚ) : AState :=
  { st with
    subs := Function.update st.subs sid ({ st.subs sid with amount := amount }) }

/-- One iteration of the `makeRequests` loop: compute this sub-request's
ratio from its provider's availability and set its amount. -/
def makeRequestsStep (rid : Nat) (total_available : ℚ) (acc : AState)
    (pr : Nat × Nat) : AState :=
  let ratio : ℚ := if total_available ≠ 0 then
    (acc.providers ((acc.subs pr.2).provider)).available / total_available else 0
  setAmount acc pr.2 (ratio * (acc.requests rid).amount)

/-- The `total_available` computed at the head of `makeRequests`: the
sum of the availability of each live sub-request's provider. -/
def totalAvailable (st : AState) (rid : Nat) : ℚ :=
  (((st.requests rid).sub_requests).map
    (fun pr => (st.providers ((st.subs pr.2).provider)).available)).sum

/-- `AllocationRequest.makeRequests`: re-distribute the request across
its live sub-requests in proportion to each provider's remaining
available capacity (ratio `0` when the total is `0`). -/
def makeRequests (st : AState) (rid : Nat) : AState :=
  let entries := (st.requests rid).sub_requests
  entries.foldl (makeRequestsStep rid (totalAvailable st rid)) st

/-- `AllocationRequest.addProvider`: reuse or create the sub-request for
this provider, register one more grant target on it, file it in both
live collections, then re-distribute. -/
def addProviderOp (st : AState) (rid pid tid : Nat) : AState :=
  let r := st.requests rid
  let rtid := (lookupA r.request_targets tid).getD 0
  match lookupA r.sub_requests pid with
  | some sid =>
    -- existing sub-request: append one more AllocationGrantTarget
    let gtid := st.nextGt
    let st1 := { st with
      gts := Function.update st.gts gtid ⟨sid, rtid, 0⟩,
      subs := Function.update st.subs sid
        ({ st.subs sid with targets := (st.subs sid).targets ++ [gtid] }),
      nextGt := st.nextGt + 1 }
    let st2 := { st1 with
      requests := Function.update st1.requests rid
        ({ st1.requests rid with sub_requests := setA (st1.requests rid).sub_requests pid sid }) }
    let st3 := if sid ∈ (st2.providers pid).sub_requests then st2 else
      { st2 with
        providers := Function.update st2.providers pid
          ({ st2.providers pid with sub_requests := (st2.providers pid).sub_requests ++ [sid] }) }
    makeRequests st3 rid
  | none =>
    -- fresh AllocationSubRequest
    let sid := st.nextSub
    let gtid := st.nextGt
    let st1 := { st with
      subs := Function.update st.subs sid ⟨rid, pid, 0, [gtid]⟩,
      gts := Function.update st.gts gtid ⟨sid, rtid, 0⟩,
      nextSub := st.nextSub + 1,
      nextGt := st.nextGt + 1 }
    let st2 := { st1 with
      requests := Function.update st1.requests rid
        ({ st1.requests rid with sub_requests := setA (st1.requests rid).sub_requests pid sid }) }
    let st3 := if sid ∈ (st2.providers pid).sub_requests then st2 else
      { st2 with
        providers := Function.update st2.providers pid
          ({ st2.providers pid with sub_requests := (st2.providers pid).sub_requests ++ [sid] }) }
    makeRequests st3 rid

/-- The loop of `AllocationGrant.makeAllocations` over the grant's
target ids, reading each bound `AllocationRequestTarget` live and
writing the allocation via `AllocationGrantTarget.allocate` (which also
bumps the request target's `current`). -/
def allocLoop : AState → ℚ → ℚ → ℚ → List Nat → AState
  | st, _, _, _, [] => st
  | st, amount, tmr, tc, gtid :: rest =>
    let gt := st.gts gtid
    let rt := st.rts gt.request_target
    let allocation : ℚ := allocOf amount tmr tc ⟨rt.min_ready, rt.current⟩
    let st' := { st with
      gts := Function.update st.gts gtid { gt with amount := allocation },
      rts := Function.update st.rts gt.request_target
        ({ rt with current := rt.current + allocation }) }
    allocLoop st' (amount - allocation) (tmr - rt.min_ready)
      (tc - rt.current - allocation) rest

/-- `AllocationGrant.makeAllocations` acting on the state. -/
def makeAllocationsOp (st : AState) (g : AllocationGrant) : AState :=
  let total_min_ready : ℚ :=
    (g.targets.map (fun gtid => (st.rts (st.gts gtid).request_target).min_ready)).sum
  let total_current : ℚ :=
    (g.targets.map (fun gtid => (st.rts (st.gts gtid).request_target).current)).sum
  allocLoop st g.amount total_min_ready (total_current + g.amount) g.targets

/-- `AllocationSubRequest.grant`: remove from both live collections,
create and file the `AllocationGrant` when the amount is positive, write
the granted amount back, decrement the request's and provider's
counters, re-distribute the request and distribute the new grant. -/
def grant (st : AState) (sid : Nat) (amount : ℚ) : AState :=
  let s := st.subs sid
  let pid := s.provider
  let rid := s.request
  -- self.provider.sub_requests.remove(self)
  let st1 := { st with
    providers := Function.update st.providers pid
      ({ st.providers pid with sub_requests := (st.providers pid).sub_requests.erase sid }) }
  -- del self.request.sub_requests[self.provider]
  let st2 := { st1 with
    requests := Function.update st1.requests rid
      ({ st1.requests rid with sub_requests := eraseA (st1.requests rid).sub_requests pid }) }
  -- if amount > 0: create the grant and append it
  let g : AllocationGrant := ⟨rid, pid, amount, s.targets⟩
  let st3 := if 0 < amount then
    { st2 with
      providers := Function.update st2.providers pid
        ({ st2.providers pid with grants := (st2.providers pid).grants ++ [g] }) }
    else st2
  -- self.amount = amount
  let st4 := { st3 with
    subs := Function.update st3.subs sid ({ st3.subs sid with amount := amount }) }
  -- self.request.amount -= amount; self.provider.available -= amount
  let st5 := { st4 with
    requests := Function.update st4.requests rid
      ({ st4.requests rid with amount := (st4.requests rid).amount - amount }) }
  let st6 := { st5 with
    providers := Function.update st5.providers pid
      ({ st5.providers pid with available := (st5.providers pid).available - amount }) }
  -- self.request.makeRequests()
  let st7 := makeRequests st6 rid
  -- if grant: grant.makeAllocations()
  if 0 < amount then makeAllocationsOp st7 g else st7

/-- `AllocationSubRequest.getPriority`: the size of the parent request's
live provider ↦ sub-request dictionary. -/
def getPriority (st : AState) (sid : Nat) : Nat :=
  (st.requests (st.subs sid).request).sub_requests.length

/-- Stable insertion (ascending by current priority) used to model the
stable Python `list.sort` with a priority comparator. -/
def insPr (st : AState) (x : Nat) : List Nat → List Nat
  | [] => [x]
  | y :: ys => if getPriority st y ≤ getPriority st x then y :: insPr st x ys
               else x :: y :: ys

/-- `reqs.sort(lambda a, b: cmp(a.getPriority(), b.getPriority()))`:
stable ascending sort by the priorities read in the given state. -/
def sortByPriority (st : AState) (l : List Nat) : List Nat :=
  l.foldl (fun acc x => insPr st x acc) []

/-- One iteration of the `makeGrants` loop: the tier of snapshot entries
whose (live) priority equals this sub-request's, the tier total of their
(live) amounts, the proportional share, rounding, and the cap at the
provider's (live) availability. -/
def grantStepAmount (st : AState) (pid : Nat) (reqs : List Nat) (sid : Nat) : ℚ :=
  let reqs_at_this_level := reqs.filter (fun r => getPriority st r == getPriority st sid)
  let total_requested : ℚ := (reqs_at_this_level.map (fun r => (st.subs r).amount)).sum
  let ratio : ℚ := if total_requested ≠ 0 then (st.subs sid).amount / total_requested else 0
  min ((pyround ((st.subs sid).amount * ratio) : ℚ)) (st.providers pid).available

/-- The `makeGrants` loop over the sorted snapshot. -/
def makeGrantsLoop (pid : Nat) (reqs : List Nat) : AState → List Nat → AState
  | st, [] => st
  | st, sid :: rest =>
    makeGrantsLoop pid reqs (grant st sid (grantStepAmount st pid reqs sid)) rest

/-- `AllocationProvider.makeGrants`: snapshot the pending sub-requests,
sort stably by priority, then grant each in turn. -/
def makeGrants (st : AState) (pid : Nat) : AState :=
  let reqs := sortByPriority st ((st.providers pid).sub_requests)
  makeGrantsLoop pid reqs st reqs

/-- The externally driven operations (§6 of the module's contract). -/
inductive Op where
  | newProvider (pid : Nat) (available : ℚ)
  | newRequest (rid : Nat) (amount : ℚ)
  | addTarget (rid tid : Nat) (min_ready current : ℚ)
  | addProvider (rid pid tid : Nat)
  | makeGrants (pid : Nat)
deriving DecidableEq

def applyOp (st : AState) : Op → AState
  | .newProvider pid a => newProviderOp st pid a
  | .newRequest rid a => newRequestOp st rid a
  | .addTarget rid tid m c => addTargetOp st rid tid m c
  | .addProvider rid pid tid => addProviderOp st rid pid tid
  | .makeGrants pid => makeGrants st pid

def runFrom (st : AState) (ops : List Op) : AState := ops.foldl applyOp st

def runOps (ops : List Op) : AState := runFrom initState ops

/-- Structural validity of one operation: fresh ids for creations,
existing ids (and a registered target) otherwise.  This is exactly the
discipline under which the Python code does not raise. -/
def validOpB (st : AState) : Op → Bool
  | .newProvider pid _ => !(st.providerIds.contains pid)
  | .newRequest rid _ => !(st.requestIds.contains rid)
  | .addTarget rid _ _ _ => st.requestIds.contains rid
  | .addProvider rid pid tid =>
      st.requestIds.contains rid && st.providerIds.contains pid &&
      (lookupA (st.requests rid).request_targets tid).isSome
  | .makeGrants pid => st.providerIds.contains pid

def validTraceB : AState → List Op → Bool
  | _, [] => true
  | st, op :: t => validOpB st op && validTraceB (applyOp st op) t

/-- The capacity/amount inputs are non-negative. -/
def nonnegOpB : Op → Bool
  | .newProvider _ a => decide (0 ≤ a)
  | .newRequest _ a => decide (0 ≤ a)
  | _ => true

/-- The capacity/amount inputs are natural numbers (node counts). -/
def natOpB : Op → Bool
  | .newProvider _ a => decide (IsNatQ a)
  | .newRequest _ a => decide (IsNatQ a)
  | _ => true

/-- Sum of the amounts of all grants filed against request `rid`. -/
def grantSumR (st : AState) (rid : Nat) : ℚ :=
  (st.providerIds.map (fun pid =>
    (((st.providers pid).grants.filter (fun g => g.request == rid)).map
      AllocationGrant.amount).sum)).sum

/-- Sum of the amounts of all grants in provider `pid`'s grant list. -/
def grantSumP (st : AState) (pid : Nat) : ℚ :=
  (((st.providers pid).grants).map AllocationGrant.amount).sum

/-- The state reached inside `grant` right before
`self.request.makeRequests()` runs: both removals, the optional grant
append, the amount write-back and the two decrements, written as one
update per store. -/
def grantMid (st : AState) (sid : Nat) (a : ℚ) : AState :=
  let s := st.subs sid
  let p := st.providers s.provider
  let r := st.requests s.request
  { st with
    providers := Function.update st.providers s.provider
      ({ available := p.available - a,
         sub_requests := p.sub_requests.erase sid,
         grants := p.grants ++ (if 0 < a then [⟨s.request, s.provider, a, s.targets⟩] else []) }),
    requests := Function.update st.requests s.request
      ({ r with amount := r.amount - a, sub_requests := eraseA r.sub_requests s.provider }),
    subs := Function.update st.subs sid ({ s with amount := a }) }

/-!
## Structural well-formedness

`SInv` holds in every state the public operations can reach and is what
Python's object identity and dictionary semantics give for free: live
lists have no duplicates, the provider's pending list and the requests'
dictionaries are two views of the same set of live sub-requests, and
sub-request ids are below the allocation counter.
-/

structure SInv (st : AState) : Prop where
  pNodup : st.providerIds.Nodup
  rNodup : st.requestIds.Nodup
  pendNodup : ∀ pid ∈ st.providerIds, ((st.providers pid).sub_requests).Nodup
  pendLt : ∀ pid ∈ st.providerIds, ∀ sid ∈ (st.providers pid).sub_requests, sid < st.nextSub
  pendSub : ∀ pid ∈ st.providerIds, ∀ sid ∈ (st.providers pid).sub_requests,
    (st.subs sid).provider = pid ∧
    lookupA ((st.requests ((st.subs sid).request)).sub_requests) pid = some sid
  keysNodup : ∀ rid ∈ st.requestIds, (((st.requests rid).sub_requests).map Prod.fst).Nodup
  mapSub : ∀ rid ∈ st.requestIds, ∀ pr ∈ (st.requests rid).sub_requests,
    pr.1 ∈ st.providerIds ∧ (st.subs pr.2).provider = pr.1 ∧
    (st.subs pr.2).request = rid ∧ pr.2 ∈ (st.providers pr.1).sub_requests
  subIds : ∀ sid, sid < st.nextSub →
    (st.subs sid).request ∈ st.requestIds ∧ (st.subs sid).provider ∈ st.providerIds
  provDefault : ∀ pid, pid ∉ st.providerIds → st.providers pid = defaultProvider
  reqDefault : ∀ rid, rid ∉ st.requestIds → st.requests rid = defaultRequest
  grantsReq : ∀ pid ∈ st.providerIds, ∀ g ∈ (st.providers pid).grants,
    g.request ∈ st.requestIds ∧ g.provider = pid

/-- The mid state of `addProvider` when the (request, provider) pair
already has a sub-request: only a fresh grant target is created and
appended. -/
def addProviderMidOld (st : AState) (rid pid tid sid : Nat) : AState :=
  let rtid := (lookupA (st.requests rid).request_targets tid).getD 0
  { st with
    gts := Function.update st.gts st.nextGt ⟨sid, rtid, 0⟩,
    subs := Function.update st.subs sid
      ({ st.subs sid with targets := (st.subs sid).targets ++ [st.nextGt] }),
    nextGt := st.nextGt + 1 }

/-- The mid state of `addProvider` when a fresh sub-request is created
and filed in both live collections. -/
def addProviderMidNew (st : AState) (rid pid tid : Nat) : AState :=
  let rtid := (lookupA (st.requests rid).request_targets tid).getD 0
  { st with
    subs := Function.update st.subs st.nextSub ⟨rid, pid, 0, [st.nextGt]⟩,
    gts := Function.update st.gts st.nextGt ⟨st.nextSub, rtid, 0⟩,
    requests := Function.update st.requests rid
      ({ st.requests rid with
         sub_requests := (st.requests rid).sub_requests ++ [(pid, st.nextSub)] }),
    providers := Function.update st.providers pid
      ({ st.providers pid with
         sub_requests := (st.providers pid).sub_requests ++ [st.nextSub] }),
    nextSub := st.nextSub + 1,
    nextGt := st.nextGt + 1 }

/-!
## Numeric invariants

With natural-number capacities and request amounts, every request amount
and provider availability stays a natural number, all sub-request
amounts are non-negative and bounded by their request's amount, and
every computed grant is a natural number bounded by the request's
amount and the provider's availability.
-/

structure NInv (st : AState) : Prop where
  availNat : ∀ pid ∈ st.providerIds, IsNatQ (st.providers pid).available
  amtNat : ∀ rid ∈ st.requestIds, IsNatQ (st.requests rid).amount
  subNonneg : ∀ sid, 0 ≤ (st.subs sid).amount
  subLe : ∀ rid ∈ st.requestIds, ∀ pr ∈ (st.requests rid).sub_requests,
    (st.subs pr.2).amount ≤ (st.requests rid).amount

/-- The per-provider contribution to `grantSumR`. -/
def provReqSum (st : AState) (rid pid : Nat) : ℚ :=
  (((st.providers pid).grants.filter (fun g => g.request == rid)).map
    AllocationGrant.amount).sum

/-!
## Availability never goes negative

Every granted amount is `min`-clamped by the provider's live
availability, so with non-negative initial capacities the `available`
counter of every provider stays non-negative at every reachable state.
-/

def AvailNonneg (st : AState) : Prop :=
  ∀ pid ∈ st.providerIds, 0 ≤ (st.providers pid).available

/-- The capacity counterexample trace: fractional (but non-negative)
request amounts produce negative grants which inflate provider `2`'s
availability past its initial capacity of `1`, and total granted
amounts of `4`. -/
def cx3ops : List Op := [Op.newRequest 0 (1/2), Op.newProvider 1 1,
  Op.addTarget 0 100 0 0, Op.addProvider 0 1 100, Op.makeGrants 1,
  Op.newProvider 2 1, Op.addProvider 0 2 100,
  Op.newRequest 3 (2/5), Op.addTarget 3 100 0 0, Op.addProvider 3 2 100,
  Op.makeGrants 2,
  Op.newRequest 4 4, Op.addTarget 4 100 0 0, Op.addProvider 4 2 100,
  Op.makeGrants 2]

def c3wops₁ : List Op := [Op.newRequest 1 3, Op.addTarget 1 7 1 0]

def c3wops₂ : List Op := [Op.addProvider 1 0 7, Op.makeGrants 0]

/-!
## Claim C4: the per-sub-request grant formula
-/

/-- The grant-step formula as the specification words it: the tier
total over snapshot entries with the same live priority, the ratio
(zero when the tier total is zero), and `round(amount * ratio)` clamped
to the interval `[0, provider.available]`. -/
def grantStepAmountSpec (st : AState) (pid : Nat) (reqs : List Nat) (sid : Nat) : ℚ :=
  let reqs_at_this_level := reqs.filter (fun r => getPriority st r == getPriority st sid)
  let total_requested : ℚ := (reqs_at_this_level.map (fun r => (st.subs r).amount)).sum
  let ratio : ℚ := if total_requested ≠ 0 then (st.subs sid).amount / total_requested else 0
  max 0 (min ((pyround ((st.subs sid).amount * ratio) : ℚ)) (st.providers pid).available)

/-- The truncation of `cx3ops` that stops right after the grant that
finalizes a negative amount. -/
def cx4ops : List Op := cx3ops.take 11

def w4ops : List Op := [Op.newRequest 0 3, Op.newProvider 1 5,
  Op.addTarget 0 9 1 0, Op.addProvider 0 1 9]

/-!
## Claim C7: finalization effects and permanence

A finalized sub-request id never reappears in any live collection.
-/

def DeadSid (st : AState) (sid : Nat) : Prop :=
  sid < st.nextSub ∧
  (∀ pid ∈ st.providerIds, sid ∉ (st.providers pid).sub_requests) ∧
  (∀ r ∈ st.requestIds, ∀ pr ∈ (st.requests r).sub_requests, pr.2 ≠ sid)

def w6ops : List Op := [Op.newRequest 0 6, Op.newProvider 1 2,
  Op.newProvider 2 1, Op.addTarget 0 9 1 0, Op.addProvider 0 1 9,
  Op.addProvider 0 2 9]

/-- The total availability over the serving providers, read from the
map keys directly. -/
def servedAvailSum (st : AState) (rid : Nat) : ℚ :=
  (((st.requests rid).sub_requests).map
    (fun pr => (st.providers pr.1).available)).sum

/-- The request-conservation counterexample trace: a fractional request
amount of `5/2` is granted `round(2.5) = 3` by its only provider. -/
def cx2ops : List Op := [Op.newRequest 0 (5/2), Op.newProvider 1 10,
  Op.addTarget 0 100 0 0, Op.addProvider 0 1 100, Op.makeGrants 1]

/-- Two competing requests on one provider: the first is rounded down to
`3` of its requested `5` although the provider could cover both. -/
def cx2bops : List Op := [Op.newRequest 0 5, Op.newRequest 1 5,
  Op.newProvider 2 10, Op.addTarget 0 100 0 0, Op.addTarget 1 100 0 0,
  Op.addProvider 0 2 100, Op.addProvider 1 2 100, Op.makeGrants 2]

def w2ops : List Op := [Op.newRequest 0 3, Op.newProvider 1 2,
  Op.newProvider 2 1, Op.addTarget 0 9 1 0, Op.addProvider 0 1 9,
  Op.addProvider 0 2 9]

def w2aops₁ : List Op := [Op.newProvider 0 5]

def w2aops₂ : List Op := [Op.addTarget 1 7 1 0, Op.addProvider 1 0 7, Op.makeGrants 0]

theorem pyround_intCast (n : ℤ) : pyround (n : ℚ) = n := by
  unfold pyround
  rcases le_or_lt 0 (n : ℚ) with h | h
  · rw [if_pos h, Int.floor_int_add]
    norm_num
  · rw [if_neg (not_le.mpr h)]
    rw [show (-(n : ℚ) + 1/2) = ((-n : ℤ) : ℚ) + (1/2 : ℚ) by push_cast; ring]
    rw [Int.floor_int_add]
    norm_num

theorem pyround_natCast (n : ℕ) : pyround (n : ℚ) = n := pyround_intCast (n : ℤ)

theorem pyround_nonneg {x : ℚ} (h : 0 ≤ x) : 0 ≤ pyround x := by
  unfold pyround
  rw [if_pos h, Int.le_floor]
  push_cast
  linarith

theorem pyround_mono {x y : ℚ} (h : x ≤ y) : pyround x ≤ pyround y := by
  unfold pyround
  rcases le_or_lt 0 x with hx | hx
  · rw [if_pos hx, if_pos (le_trans hx h)]
    exact Int.floor_le_floor (by linarith)
  · rcases le_or_lt 0 y with hy | hy
    · rw [if_neg (not_le.mpr hx), if_pos hy]
      have h1 : (0 : ℤ) ≤ ⌊-x + 1/2⌋ := by
        rw [Int.le_floor]; push_cast; linarith
      have h2 : (0 : ℤ) ≤ ⌊y + 1/2⌋ := by
        rw [Int.le_floor]; push_cast; linarith
      omega
    · rw [if_neg (not_le.mpr hx), if_neg (not_le.mpr hy)]
      have : ⌊-y + 1/2⌋ ≤ ⌊-x + 1/2⌋ := Int.floor_le_floor (by linarith)
      omega

theorem lt_pyround_of_nonneg {x : ℚ} (h : 0 ≤ x) : x - 1/2 < (pyround x : ℚ) := by
  unfold pyround
  rw [if_pos h]
  have := Int.sub_one_lt_floor (x + 1/2)
  push_cast at this ⊢
  linarith

theorem pyround_le_of_nonneg {x : ℚ} (h : 0 ≤ x) : (pyround x : ℚ) ≤ x + 1/2 := by
  unfold pyround
  rw [if_pos h]
  exact_mod_cast Int.floor_le (x + 1/2)

theorem isNatQ_iff {x : ℚ} : IsNatQ x ↔ ∃ n : ℕ, x = (n : ℚ) := by
  constructor
  · rintro ⟨h0, hd⟩
    have hx : (x.num : ℚ) = x := by
      conv_rhs => rw [← Rat.num_div_den x]
      rw [hd]; norm_num
    have hnum : 0 ≤ x.num := by
      by_contra hneg
      push_neg at hneg
      have : (x.num : ℚ) < 0 := by exact_mod_cast hneg
      rw [hx] at this; linarith
    refine ⟨x.num.toNat, ?_⟩
    have h3 : ((x.num.toNat : ℕ) : ℤ) = x.num := Int.toNat_of_nonneg hnum
    have h2 : ((x.num.toNat : ℕ) : ℚ) = (x.num : ℚ) := by exact_mod_cast h3
    rw [h2, hx]
  · rintro ⟨n, rfl⟩
    exact ⟨by positivity, Rat.den_natCast n⟩

theorem IsNatQ.nonneg {x : ℚ} (h : IsNatQ x) : 0 ≤ x := h.1

theorem IsNatQ.natCast (n : ℕ) : IsNatQ (n : ℚ) := isNatQ_iff.mpr ⟨n, rfl⟩

theorem IsNatQ.zero : IsNatQ (0 : ℚ) := ⟨le_refl 0, rfl⟩

theorem IsNatQ.add {x y : ℚ} (hx : IsNatQ x) (hy : IsNatQ y) : IsNatQ (x + y) := by
  rw [isNatQ_iff] at hx hy ⊢
  obtain ⟨n, rfl⟩ := hx
  obtain ⟨m, rfl⟩ := hy
  exact ⟨n + m, by push_cast; ring⟩

theorem IsNatQ.sub {x y : ℚ} (hx : IsNatQ x) (hy : IsNatQ y) (h : y ≤ x) :
    IsNatQ (x - y) := by
  rw [isNatQ_iff] at hx hy
  obtain ⟨n, rfl⟩ := hx
  obtain ⟨m, rfl⟩ := hy
  have hmn : m ≤ n := by exact_mod_cast h
  rw [isNatQ_iff]
  exact ⟨n - m, by push_cast [hmn]; ring⟩

theorem IsNatQ.intCast_of_nonneg {n : ℤ} (h : 0 ≤ n) : IsNatQ (n : ℚ) := by
  rw [isNatQ_iff]
  refine ⟨n.toNat, ?_⟩
  have h3 : ((n.toNat : ℕ) : ℤ) = n := Int.toNat_of_nonneg h
  have h2 : ((n.toNat : ℕ) : ℚ) = (n : ℚ) := by exact_mod_cast h3
  rw [h2]

theorem IsNatQ.min {x y : ℚ} (hx : IsNatQ x) (hy : IsNatQ y) : IsNatQ (min x y) := by
  rcases le_total x y with h | h
  · rwa [min_eq_left h]
  · rwa [min_eq_right h]

theorem IsNatQ.pyround_eq {x : ℚ} (hx : IsNatQ x) : (pyround x : ℚ) = x := by
  rw [isNatQ_iff] at hx
  obtain ⟨n, rfl⟩ := hx
  rw [pyround_natCast]
  norm_cast

/-- From `x ≤ y + 1/2` with both sides integral, conclude `x ≤ y`. -/
theorem le_of_le_add_half {x y : ℚ} (hx : IsNatQ x) (hy : IsNatQ y)
    (h : x ≤ y + 1/2) : x ≤ y := by
  rw [isNatQ_iff] at hx hy
  obtain ⟨n, rfl⟩ := hx
  obtain ⟨m, rfl⟩ := hy
  have : (n : ℚ) < (m : ℚ) + 1 := by linarith
  have : n < m + 1 := by exact_mod_cast this
  exact_mod_cast Nat.lt_succ_iff.mp this

theorem allocOf_nonneg (amount tmr tc : ℚ) (a : TargetRead) : 0 ≤ allocOf amount tmr tc a :=
  le_max_right _ _

theorem allocOf_le {amount : ℚ} (h : 0 ≤ amount) (tmr tc : ℚ) (a : TargetRead) :
    allocOf amount tmr tc a ≤ amount :=
  max_le (min_le_right _ _) h

theorem allocOf_nat {amount : ℚ} (tmr tc : ℚ) {a : TargetRead}
    (hc : IsNatQ a.current) (hamt : IsNatQ amount) : IsNatQ (allocOf amount tmr tc a) := by
  unfold allocOf
  obtain ⟨n, hn⟩ := isNatQ_iff.mp hc
  set d : ℤ := pyround ((if tmr ≠ 0 then a.min_ready / tmr else 0) * tc) with hd
  rcases le_total ((d : ℚ) - a.current) amount with h | h
  · rw [min_eq_left h]
    rcases le_total ((d : ℚ) - a.current) 0 with h0 | h0
    · rw [max_eq_right h0]; exact IsNatQ.zero
    · rw [max_eq_left h0]
      have he : (d : ℚ) - a.current = ((d - n : ℤ) : ℚ) := by rw [hn]; push_cast; ring
      rw [he] at h0 ⊢
      exact IsNatQ.intCast_of_nonneg (by exact_mod_cast h0)
  · rw [min_eq_right h, max_eq_left hamt.nonneg]; exact hamt

theorem makeAllocLoop_length (amount tmr tc : ℚ) (ts : List TargetRead) :
    (makeAllocLoop amount tmr tc ts).length = ts.length := by
  induction ts generalizing amount tmr tc with
  | nil => rfl
  | cons a rest ih => simp [makeAllocLoop, ih]

/-- Each allocation lies between `0` and the amount still remaining when
it is computed (the initial amount minus the allocations already made). -/
theorem makeAllocLoop_bounds (ts : List TargetRead) :
    ∀ (amount tmr tc : ℚ), 0 ≤ amount →
      ∀ i (h : i < (makeAllocLoop amount tmr tc ts).length),
        0 ≤ (makeAllocLoop amount tmr tc ts).get ⟨i, h⟩ ∧
        (makeAllocLoop amount tmr tc ts).get ⟨i, h⟩ ≤
          amount - ((makeAllocLoop amount tmr tc ts).take i).sum := by
  induction ts with
  | nil => intro amount tmr tc _ i h; simp [makeAllocLoop] at h
  | cons a rest ih =>
    intro amount tmr tc hamt i h
    match i with
    | 0 =>
      refine ⟨?_, ?_⟩
      · simpa [makeAllocLoop] using allocOf_nonneg amount tmr tc a
      · simpa [makeAllocLoop] using allocOf_le hamt tmr tc a
    | Nat.succ j =>
      have h' : j < (makeAllocLoop (amount - allocOf amount tmr tc a) (tmr - a.min_ready)
          (tc - a.current - allocOf amount tmr tc a) rest).length := by
        have := h
        simp only [makeAllocLoop, List.length_cons] at this
        simpa [makeAllocLoop_length] using Nat.lt_of_succ_lt_succ (by
          simpa [makeAllocLoop_length] using this)
      have hrec := ih (amount - allocOf amount tmr tc a) (tmr - a.min_ready)
        (tc - a.current - allocOf amount tmr tc a)
        (by linarith [allocOf_le hamt tmr tc a]) j h'
      refine ⟨?_, ?_⟩
      · simpa [makeAllocLoop] using hrec.1
      · have h2 := hrec.2
        simp only [makeAllocLoop, List.get_cons_succ, List.take_succ_cons, List.sum_cons]
        linarith [h2]

/-- With remaining amount `0`, every later allocation is `0`. -/
theorem makeAllocLoop_zero (ts : List TargetRead) :
    ∀ (tmr tc : ℚ), makeAllocLoop 0 tmr tc ts = List.replicate ts.length 0 := by
  induction ts with
  | nil => intro tmr tc; rfl
  | cons a rest ih =>
    intro tmr tc
    have hz : allocOf 0 tmr tc a = 0 :=
      le_antisymm (allocOf_le (le_refl 0) tmr tc a) (allocOf_nonneg 0 tmr tc a)
    simp only [makeAllocLoop, List.length_cons, List.replicate_succ, hz, sub_zero]
    rw [ih]

theorem isNatQ_listSum {l : List ℚ} (h : ∀ x ∈ l, IsNatQ x) : IsNatQ l.sum := by
  induction l with
  | nil => exact IsNatQ.zero
  | cons a rest ih =>
    rw [List.sum_cons]
    exact IsNatQ.add (h a (List.mem_cons_self a rest))
      (ih fun x hx => h x (List.mem_cons_of_mem a hx))

theorem nonneg_listSum {l : List ℚ} (h : ∀ x ∈ l, 0 ≤ x) : 0 ≤ l.sum := by
  induction l with
  | nil => simp
  | cons a rest ih =>
    rw [List.sum_cons]
    have := h a (List.mem_cons_self a rest)
    have := ih fun x hx => h x (List.mem_cons_of_mem a hx)
    linarith

/-- Conservation for the loop when called with the consistent totals: if
all weights are non-negative and at least one is positive, and the
amount and all currents are natural numbers, the allocations sum to
exactly the amount.  The last positively-weighted binding sees a ratio
of exactly `1` and absorbs all that remains. -/
theorem makeAllocLoop_sum (ts : List TargetRead) :
    ∀ (amount : ℚ), IsNatQ amount →
      (∀ t ∈ ts, 0 ≤ t.min_ready ∧ IsNatQ t.current) →
      (∃ t ∈ ts, 0 < t.min_ready) →
      (makeAllocLoop amount ((ts.map TargetRead.min_ready).sum)
        ((ts.map TargetRead.current).sum + amount) ts).sum = amount := by
  induction ts with
  | nil => rintro amount _ _ ⟨t, ht, _⟩; simp at ht
  | cons a rest ih =>
    intro amount hamt hts hpos
    have ha := hts a (List.mem_cons_self a rest)
    have hrest : ∀ t ∈ rest, 0 ≤ t.min_ready ∧ IsNatQ t.current :=
      fun t ht => hts t (List.mem_cons_of_mem a ht)
    set tmr : ℚ := ((a :: rest).map TargetRead.min_ready).sum with htmr
    set tc : ℚ := ((a :: rest).map TargetRead.current).sum + amount with htc
    set alloc : ℚ := allocOf amount tmr tc a with halloc
    have halloc_le : alloc ≤ amount := allocOf_le hamt.nonneg tmr tc a
    have halloc_nat : IsNatQ alloc := allocOf_nat tmr tc ha.2 hamt
    have hstep : makeAllocLoop amount tmr tc (a :: rest) =
        alloc :: makeAllocLoop (amount - alloc) (tmr - a.min_ready)
          (tc - a.current - alloc) rest := rfl
    have harr : tmr - a.min_ready = (rest.map TargetRead.min_ready).sum := by
      rw [htmr]; simp only [List.map_cons, List.sum_cons]; ring
    have hcurr : tc - a.current - alloc =
        (rest.map TargetRead.current).sum + (amount - alloc) := by
      rw [htc]; simp only [List.map_cons, List.sum_cons]; ring
    by_cases hrpos : ∃ t ∈ rest, 0 < t.min_ready
    · -- a later binding still has positive weight: recurse
      rw [hstep, List.sum_cons, harr, hcurr,
        ih (amount - alloc) (hamt.sub halloc_nat halloc_le) hrest hrpos]
      ring
    · -- every later weight is zero: the head has the positive weight
      -- and absorbs everything that remains
      push_neg at hrpos
      have hrest0 : (rest.map TargetRead.min_ready).sum = 0 := by
        apply List.sum_eq_zero
        intro x hx
        simp only [List.mem_map] at hx
        obtain ⟨t, ht, rfl⟩ := hx
        exact le_antisymm (hrpos t ht) (hrest t ht).1
      have hapos : 0 < a.min_ready := by
        obtain ⟨t, ht, htpos⟩ := hpos
        rcases List.mem_cons.mp ht with rfl | ht'
        · exact htpos
        · exact absurd htpos (not_lt.mpr (hrpos t ht'))
      have htmr_eq : tmr = a.min_ready := by
        rw [htmr]; simp only [List.map_cons, List.sum_cons, hrest0]; ring
      have htc_nat : IsNatQ tc := by
        rw [htc]
        exact IsNatQ.add (isNatQ_listSum (by
          intro x hx
          simp only [List.mem_map] at hx
          obtain ⟨t, ht, rfl⟩ := hx
          exact (hts t ht).2)) hamt
      have hrest_nonneg : 0 ≤ (rest.map TargetRead.current).sum :=
        nonneg_listSum (by
          intro x hx
          simp only [List.mem_map] at hx
          obtain ⟨t, ht, rfl⟩ := hx
          exact (hrest t ht).2.nonneg)
      -- the head's allocation is exactly the remaining amount
      have halloc_amt : alloc = amount := by
        rw [halloc]
        unfold allocOf
        have hne : tmr ≠ 0 := by rw [htmr_eq]; exact ne_of_gt hapos
        have hone : (if tmr ≠ 0 then a.min_ready / tmr else 0) = 1 := by
          rw [if_pos hne, htmr_eq, div_self (ne_of_gt hapos)]
        rw [hone, one_mul, htc_nat.pyround_eq]
        have hdelta : tc - a.current = (rest.map TargetRead.current).sum + amount := by
          rw [htc]; simp only [List.map_cons, List.sum_cons]; ring
        rw [hdelta]
        rw [min_eq_right (by linarith), max_eq_left hamt.nonneg]
      rw [hstep, List.sum_cons, halloc_amt, sub_self, makeAllocLoop_zero, List.sum_replicate]
      simp

/-- Conservation for `makeAllocations` itself. -/
theorem makeAllocations_sum {amount : ℚ} {ts : List TargetRead}
    (hamt : IsNatQ amount)
    (hts : ∀ t ∈ ts, 0 ≤ t.min_ready ∧ IsNatQ t.current)
    (hpos : ∃ t ∈ ts, 0 < t.min_ready) :
    (makeAllocations amount ts).sum = amount :=
  makeAllocLoop_sum ts amount hamt hts hpos

/-!
## Claims C1, C8, C9: the grant → target distribution
-/

/-- C1 (amended).  For every grant amount (a natural number, as grant
amounts are in the pipeline) and every configuration of non-negative
`minReady` weights and natural-number `current` counts in which at least
one binding has a positive `minReady` weight, the allocations written by
`makeAllocations` sum to exactly the grant's amount. -/
theorem C1_grant_target_conservation {amount : ℚ} {ts : List TargetRead}
    (hamt : IsNatQ amount)
    (hts : ∀ t ∈ ts, 0 ≤ t.min_ready ∧ IsNatQ t.current)
    (hpos : ∃ t ∈ ts, 0 < t.min_ready) :
    (makeAllocations amount ts).sum = amount :=
  makeAllocations_sum hamt hts hpos

/-- C1, as stated, is false: a grant of positive amount `10` over two
bindings whose `minReady` weights are both `0` (a legal non-negative
configuration) gets every ratio defined as `0`, so both allocations are
`0` and their sum is not the grant's amount. -/
theorem C1_counterexample :
    0 < (10 : ℚ) ∧
    (∀ t ∈ [(⟨0, 0⟩ : TargetRead), ⟨0, 0⟩], 0 ≤ t.min_ready ∧ 0 ≤ t.current) ∧
    (makeAllocations 10 [⟨0, 0⟩, ⟨0, 0⟩]).sum = 0 ∧
    (makeAllocations 10 [⟨0, 0⟩, ⟨0, 0⟩]).sum ≠ 10 := by decide!

/-- Witness for C1 at a concrete input. -/
theorem C1_witness :
    IsNatQ (10 : ℚ) ∧
    (∀ t ∈ [(⟨3, 0⟩ : TargetRead), ⟨1, 0⟩], 0 ≤ t.min_ready ∧ IsNatQ t.current) ∧
    (∃ t ∈ [(⟨3, 0⟩ : TargetRead), ⟨1, 0⟩], 0 < t.min_ready) ∧
    (makeAllocations 10 [⟨3, 0⟩, ⟨1, 0⟩]).sum = 10 :=
  ⟨by decide!, by decide!, by decide!,
    C1_grant_target_conservation (by decide!) (by decide!) (by decide!)⟩

/-- C8.  For any non-negative grant amount, every allocation computed by
`makeAllocations` is bounded below by `0` and above by the grant amount
still remaining at its step (the amount minus the allocations already
written), so no allocation exceeds the remaining amount and no
`AllocationGrantTarget` amount is ever negative. -/
theorem C8_allocation_bounds (amount : ℚ) (ts : List TargetRead) (h : 0 ≤ amount) :
    ∀ i (hi : i < (makeAllocations amount ts).length),
      0 ≤ (makeAllocations amount ts).get ⟨i, hi⟩ ∧
      (makeAllocations amount ts).get ⟨i, hi⟩ ≤
        amount - ((makeAllocations amount ts).take i).sum := by
  intro i hi
  exact makeAllocLoop_bounds ts amount _ _ h i hi

/-- Witness for C8 at a concrete input. -/
theorem C8_witness :
    0 ≤ (10 : ℚ) ∧
    (∀ i (hi : i < (makeAllocations 10 [(⟨3, 4⟩ : TargetRead), ⟨1, 2⟩]).length),
      0 ≤ (makeAllocations 10 [(⟨3, 4⟩ : TargetRead), ⟨1, 2⟩]).get ⟨i, hi⟩ ∧
      (makeAllocations 10 [(⟨3, 4⟩ : TargetRead), ⟨1, 2⟩]).get ⟨i, hi⟩ ≤
        10 - ((makeAllocations 10 [(⟨3, 4⟩ : TargetRead), ⟨1, 2⟩]).take i).sum) :=
  ⟨by norm_num, C8_allocation_bounds 10 [⟨3, 4⟩, ⟨1, 2⟩] (by norm_num)⟩

/-- C9.  A grant of amount `10` over two targets with `minReady` weights
`3` and `1` and zero current counts splits as `8` and `2`, and the two
allocations sum to exactly `10`. -/
theorem C9_weighted_split :
    makeAllocations 10 [(⟨3, 0⟩ : TargetRead), ⟨1, 0⟩] = [8, 2] ∧
    (makeAllocations 10 [(⟨3, 0⟩ : TargetRead), ⟨1, 0⟩]).sum = 10 := by decide!

/-!
## Association-list dictionary lemmas
-/

theorem lookupA_eq_none_iff {l : List (Nat × Nat)} {k : Nat} :
    lookupA l k = none ↔ k ∉ l.map Prod.fst := by
  induction l with
  | nil => simp [lookupA]
  | cons p t ih =>
    obtain ⟨k', v⟩ := p
    by_cases h : k' = k
    · subst h
      simp [lookupA]
    · simp [lookupA, h, ih]
      intro hk
      exact fun he => h he.symm

theorem lookupA_isSome_iff {l : List (Nat × Nat)} {k : Nat} :
    (lookupA l k).isSome ↔ k ∈ l.map Prod.fst := by
  rcases ho : lookupA l k with _ | v
  · simp [lookupA_eq_none_iff.mp ho]
  · simp only [Option.isSome_some, true_iff]
    by_contra hk
    rw [lookupA_eq_none_iff.mpr hk] at ho
    exact Option.noConfusion ho

theorem mem_of_lookupA {l : List (Nat × Nat)} {k v : Nat}
    (h : lookupA l k = some v) : (k, v) ∈ l := by
  induction l with
  | nil => exact absurd h (by simp [lookupA])
  | cons p t ih =>
    obtain ⟨k', v'⟩ := p
    by_cases hk : k' = k
    · simp only [lookupA, if_pos hk] at h
      have hv : v' = v := Option.some.inj h
      subst hv
      subst hk
      exact List.mem_cons_self _ _
    · simp only [lookupA, if_neg hk] at h
      exact List.mem_cons_of_mem _ (ih h)

theorem lookupA_of_mem {l : List (Nat × Nat)} {k v : Nat}
    (hnd : (l.map Prod.fst).Nodup) (h : (k, v) ∈ l) : lookupA l k = some v := by
  induction l with
  | nil => simp at h
  | cons p t ih =>
    obtain ⟨k', v'⟩ := p
    simp only [List.map_cons, List.nodup_cons] at hnd
    rcases List.mem_cons.mp h with he | ht
    · have hkv : k' = k ∧ v' = v := by
        have := he
        simp only [Prod.mk.injEq] at this
        exact ⟨this.1.symm, this.2.symm⟩
      obtain ⟨rfl, rfl⟩ := hkv
      simp [lookupA]
    · have hkk : k' ≠ k := by
        intro he'
        subst he'
        exact hnd.1 (List.mem_map_of_mem Prod.fst ht)
      simp only [lookupA, if_neg hkk]
      exact ih hnd.2 ht

theorem lookupA_setA_self (l : List (Nat × Nat)) (k v : Nat) :
    lookupA (setA l k v) k = some v := by
  induction l with
  | nil => simp [setA, lookupA]
  | cons p t ih =>
    obtain ⟨k', v'⟩ := p
    by_cases hk : k' = k
    · subst hk
      simp [setA, lookupA]
    · simp [setA, lookupA, hk, ih]

theorem lookupA_setA_ne (l : List (Nat × Nat)) {k k' : Nat} (v : Nat) (h : k' ≠ k) :
    lookupA (setA l k v) k' = lookupA l k' := by
  have hne : ¬(k = k') := fun he => h he.symm
  induction l with
  | nil => simp [setA, lookupA, hne]
  | cons p t ih =>
    obtain ⟨k0, v0⟩ := p
    by_cases hk : k0 = k
    · subst hk
      simp [setA, lookupA, hne]
    · simp [setA, lookupA, hk, ih]

theorem keys_setA_mem {l : List (Nat × Nat)} {k : Nat} (v : Nat)
    (h : k ∈ l.map Prod.fst) : (setA l k v).map Prod.fst = l.map Prod.fst := by
  induction l with
  | nil => simp at h
  | cons p t ih =>
    obtain ⟨k0, v0⟩ := p
    by_cases hk : k0 = k
    · subst hk
      simp [setA]
    · simp only [List.map_cons, List.mem_cons] at h
      rcases h with he | ht
    
      · exact absurd he.symm hk
      · simp [setA, hk, ih ht]

theorem keys_setA_not_mem {l : List (Nat × Nat)} {k : Nat} (v : Nat)
    (h : k ∉ l.map Prod.fst) : (setA l k v).map Prod.fst = l.map Prod.fst ++ [k] := by
  induction l with
  | nil => simp [setA]
  | cons p t ih =>
    obtain ⟨k0, v0⟩ := p
    simp only [List.map_cons, List.mem_cons] at h
    push_neg at h
    have hk : k0 ≠ k := fun he => h.1 he.symm
    simp [setA, hk, ih h.2]

theorem mem_setA {l : List (Nat × Nat)} {k v : Nat} {pr : Nat × Nat}
    (hnd : (l.map Prod.fst).Nodup) :
    pr ∈ setA l k v ↔ pr = (k, v) ∨ (pr ∈ l ∧ pr.1 ≠ k) := by
  induction l with
  | nil =>
    constructor
    · intro h; simp [setA] at h; exact Or.inl h
    · rintro (rfl | ⟨h, _⟩)
      · simp [setA]
      · simp at h
  | cons p t ih =>
    obtain ⟨k0, v0⟩ := p
    simp only [List.map_cons, List.nodup_cons] at hnd
    by_cases hk : k0 = k
    · subst hk
      simp only [setA, if_pos rfl]
      constructor
      · intro h
        rcases List.mem_cons.mp h with he | ht
        · exact Or.inl he
        · refine Or.inr ⟨List.mem_cons_of_mem _ ht, ?_⟩
          intro hpk
          exact hnd.1 (hpk ▸ List.mem_map_of_mem Prod.fst ht)
      · rintro (rfl | ⟨h, hne⟩)
        · exact List.mem_cons_self _ _
        · rcases List.mem_cons.mp h with he | ht
          · exact absurd (congrArg Prod.fst he) hne
          · exact List.mem_cons_of_mem _ ht
    · simp only [setA, if_neg hk]
      constructor
      · intro h
        rcases List.mem_cons.mp h with he | ht
        · subst he
          exact Or.inr ⟨List.mem_cons_self _ _, fun he' => hk he'⟩
        · rcases (ih hnd.2).mp ht with h1 | h2
          · exact Or.inl h1
          · exact Or.inr ⟨List.mem_cons_of_mem _ h2.1, h2.2⟩
      · rintro (rfl | ⟨h, hne⟩)
        · exact List.mem_cons_of_mem _ ((ih hnd.2).mpr (Or.inl rfl))
        · rcases List.mem_cons.mp h with he | ht
          · subst he
            exact List.mem_cons_self _ _
          · exact List.mem_cons_of_mem _ ((ih hnd.2).mpr (Or.inr ⟨ht, hne⟩))

theorem mem_eraseA {l : List (Nat × Nat)} {k : Nat} {pr : Nat × Nat} :
    pr ∈ eraseA l k ↔ pr ∈ l ∧ pr.1 ≠ k := by
  induction l with
  | nil => simp [eraseA]
  | cons p t ih =>
    obtain ⟨k0, v0⟩ := p
    by_cases hk : k0 = k
    · subst hk
      rw [show eraseA ((k0, v0) :: t) k0 = eraseA t k0 by simp [eraseA]]
      rw [ih]
      simp only [List.mem_cons]
      constructor
      · rintro ⟨h1, h2⟩
        exact ⟨Or.inr h1, h2⟩
      · rintro ⟨h1 | h1, h2⟩
        · exact absurd (congrArg Prod.fst h1) h2
        · exact ⟨h1, h2⟩
    · rw [show eraseA ((k0, v0) :: t) k = (k0, v0) :: eraseA t k by simp [eraseA, hk]]
      simp only [List.mem_cons, ih]
      constructor
      · rintro (rfl | ⟨h1, h2⟩)
        · exact ⟨Or.inl rfl, fun he => hk he⟩
        · exact ⟨Or.inr h1, h2⟩
      · rintro ⟨rfl | h1, h2⟩
        · exact Or.inl rfl
        · exact Or.inr ⟨h1, h2⟩

theorem keys_eraseA (l : List (Nat × Nat)) (k : Nat) :
    (eraseA l k).map Prod.fst = (l.map Prod.fst).filter (fun x => x ≠ k) := by
  induction l with
  | nil => simp [eraseA]
  | cons p t ih =>
    obtain ⟨k0, v0⟩ := p
    by_cases hk : k0 = k
    · subst hk
      simp [eraseA, ih]
    · simp [eraseA, hk, ih]

theorem lookupA_eraseA_self (l : List (Nat × Nat)) (k : Nat) :
    lookupA (eraseA l k) k = none := by
  rw [lookupA_eq_none_iff, keys_eraseA]
  simp

theorem lookupA_eraseA_ne (l : List (Nat × Nat)) {k k' : Nat} (h : k' ≠ k) :
    lookupA (eraseA l k) k' = lookupA l k' := by
  induction l with
  | nil => simp [eraseA]
  | cons p t ih =>
    obtain ⟨k0, v0⟩ := p
    by_cases hk : k0 = k
    · subst hk
      rw [show eraseA ((k0, v0) :: t) k0 = eraseA t k0 by simp [eraseA]]
      rw [ih]
      have hne : ¬(k0 = k') := fun he => h he.symm
      simp [lookupA, hne]
    · rw [show eraseA ((k0, v0) :: t) k = (k0, v0) :: eraseA t k by simp [eraseA, hk]]
      by_cases hk' : k0 = k'
      · subst hk'
        simp [lookupA]
      · simp [lookupA, hk', ih]

theorem keys_eraseA_nodup {l : List (Nat × Nat)} (hnd : (l.map Prod.fst).Nodup) (k : Nat) :
    ((eraseA l k).map Prod.fst).Nodup := by
  rw [keys_eraseA]
  exact hnd.filter _

theorem keys_setA_nodup {l : List (Nat × Nat)} (hnd : (l.map Prod.fst).Nodup) (k v : Nat) :
    ((setA l k v).map Prod.fst).Nodup := by
  by_cases h : k ∈ l.map Prod.fst
  · rw [keys_setA_mem v h]; exact hnd
  · rw [keys_setA_not_mem v h]
    simp only [List.nodup_append, List.nodup_cons, List.nodup_nil]
    refine ⟨hnd, by simp, ?_⟩
    intro a ha
    simp only [List.mem_singleton]
    intro he
    subst he
    exact h ha

/-!
## Frame and characterization lemmas for the operations
-/

theorem setAmount_fields (st : AState) (sid : Nat) (a : ℚ) :
    (setAmount st sid a).providerIds = st.providerIds ∧
    (setAmount st sid a).requestIds = st.requestIds ∧
    (setAmount st sid a).providers = st.providers ∧
    (setAmount st sid a).requests = st.requests ∧
    (setAmount st sid a).rts = st.rts ∧
    (setAmount st sid a).gts = st.gts ∧
    (setAmount st sid a).nextSub = st.nextSub ∧
    (setAmount st sid a).nextRt = st.nextRt ∧
    (setAmount st sid a).nextGt = st.nextGt := by
  unfold setAmount
  exact ⟨rfl, rfl, rfl, rfl, rfl, rfl, rfl, rfl, rfl⟩

theorem setAmount_subs_ne (st : AState) {sid s : Nat} (a : ℚ) (h : s ≠ sid) :
    (setAmount st sid a).subs s = st.subs s := by
  unfold setAmount
  exact Function.update_noteq h _ _

theorem setAmount_subs_self (st : AState) (sid : Nat) (a : ℚ) :
    (setAmount st sid a).subs sid = { st.subs sid with amount := a } := by
  unfold setAmount
  simp

/-- Everything except `subs` is untouched by the `makeRequests` fold. -/
theorem mrFold_frame (rid : Nat) (T : ℚ) (l : List (Nat × Nat)) : ∀ st : AState,
    (l.foldl (makeRequestsStep rid T) st).providerIds = st.providerIds ∧
    (l.foldl (makeRequestsStep rid T) st).requestIds = st.requestIds ∧
    (l.foldl (makeRequestsStep rid T) st).providers = st.providers ∧
    (l.foldl (makeRequestsStep rid T) st).requests = st.requests ∧
    (l.foldl (makeRequestsStep rid T) st).rts = st.rts ∧
    (l.foldl (makeRequestsStep rid T) st).gts = st.gts ∧
    (l.foldl (makeRequestsStep rid T) st).nextSub = st.nextSub ∧
    (l.foldl (makeRequestsStep rid T) st).nextRt = st.nextRt ∧
    (l.foldl (makeRequestsStep rid T) st).nextGt = st.nextGt := by
  induction l with
  | nil => intro st; exact ⟨rfl, rfl, rfl, rfl, rfl, rfl, rfl, rfl, rfl⟩
  | cons pr t ih =>
    intro st
    have hstep := setAmount_fields st pr.2
      ((if T ≠ 0 then (st.providers ((st.subs pr.2).provider)).available / T else 0) *
        (st.requests rid).amount)
    have hrec := ih (makeRequestsStep rid T st pr)
    simp only [List.foldl_cons] at *
    unfold makeRequestsStep
    unfold makeRequestsStep at hrec
    constructor
    · rw [hrec.1]; exact hstep.1
    constructor
    · rw [hrec.2.1]; exact hstep.2.1
    constructor
    · rw [hrec.2.2.1]; exact hstep.2.2.1
    constructor
    · rw [hrec.2.2.2.1]; exact hstep.2.2.2.1
    constructor
    · rw [hrec.2.2.2.2.1]; exact hstep.2.2.2.2.1
    constructor
    · rw [hrec.2.2.2.2.2.1]; exact hstep.2.2.2.2.2.1
    constructor
    · rw [hrec.2.2.2.2.2.2.1]; exact hstep.2.2.2.2.2.2.1
    constructor
    · rw [hrec.2.2.2.2.2.2.2.1]; exact hstep.2.2.2.2.2.2.2.1
    · rw [hrec.2.2.2.2.2.2.2.2]; exact hstep.2.2.2.2.2.2.2.2

theorem makeRequests_frame (st : AState) (rid : Nat) :
    (makeRequests st rid).providerIds = st.providerIds ∧
    (makeRequests st rid).requestIds = st.requestIds ∧
    (makeRequests st rid).providers = st.providers ∧
    (makeRequests st rid).requests = st.requests ∧
    (makeRequests st rid).rts = st.rts ∧
    (makeRequests st rid).gts = st.gts ∧
    (makeRequests st rid).nextSub = st.nextSub ∧
    (makeRequests st rid).nextRt = st.nextRt ∧
    (makeRequests st rid).nextGt = st.nextGt :=
  mrFold_frame rid (totalAvailable st rid) ((st.requests rid).sub_requests) st

/-- The `makeRequests` fold leaves every field of every sub-request
except the amount unchanged. -/
theorem mrFold_subs_fields (rid : Nat) (T : ℚ) (l : List (Nat × Nat)) :
    ∀ (st : AState) (s : Nat),
      ((l.foldl (makeRequestsStep rid T) st).subs s).request = (st.subs s).request ∧
      ((l.foldl (makeRequestsStep rid T) st).subs s).provider = (st.subs s).provider ∧
      ((l.foldl (makeRequestsStep rid T) st).subs s).targets = (st.subs s).targets := by
  induction l with
  | nil => intro st s; exact ⟨rfl, rfl, rfl⟩
  | cons pr t ih =>
    intro st s
    simp only [List.foldl_cons]
    have hrec := ih (makeRequestsStep rid T st pr) s
    have hstep : ((makeRequestsStep rid T st pr).subs s).request = (st.subs s).request ∧
        ((makeRequestsStep rid T st pr).subs s).provider = (st.subs s).provider ∧
        ((makeRequestsStep rid T st pr).subs s).targets = (st.subs s).targets := by
      unfold makeRequestsStep
      by_cases hs : s = pr.2
      · subst hs
        rw [setAmount_subs_self]
        exact ⟨rfl, rfl, rfl⟩
      · rw [setAmount_subs_ne _ _ hs]
        exact ⟨rfl, rfl, rfl⟩
    exact ⟨hrec.1.trans hstep.1, hrec.2.1.trans hstep.2.1, hrec.2.2.trans hstep.2.2⟩

theorem mrFold_subs_not_mem (rid : Nat) (T : ℚ) (l : List (Nat × Nat)) :
    ∀ (st : AState) (s : Nat), s ∉ l.map Prod.snd →
      (l.foldl (makeRequestsStep rid T) st).subs s = st.subs s := by
  induction l with
  | nil => intro st s _; rfl
  | cons pr t ih =>
    intro st s hs
    simp only [List.map_cons, List.mem_cons] at hs
    push_neg at hs
    simp only [List.foldl_cons]
    rw [ih _ s hs.2]
    unfold makeRequestsStep
    rw [setAmount_subs_ne _ _ hs.1]

theorem mrFold_subs_amount (rid : Nat) (T : ℚ) (l : List (Nat × Nat)) :
    ∀ (st : AState) (pid sid : Nat), (l.map Prod.snd).Nodup → (pid, sid) ∈ l →
      ((l.foldl (makeRequestsStep rid T) st).subs sid).amount =
        (if T ≠ 0 then (st.providers ((st.subs sid).provider)).available / T else 0) *
          (st.requests rid).amount := by
  induction l with
  | nil => intro st pid sid _ hm; simp at hm
  | cons pr t ih =>
    intro st pid sid hnd hm
    simp only [List.map_cons, List.nodup_cons] at hnd
    simp only [List.foldl_cons]
    rcases List.mem_cons.mp hm with he | ht
    · -- the head writes this sub-request; the tail never touches it again
      have hsid : pr.2 = sid := by rw [← he]
      have hnotin : sid ∉ t.map Prod.snd := hsid ▸ hnd.1
      rw [mrFold_subs_not_mem rid T t _ sid hnotin]
      unfold makeRequestsStep
      rw [hsid, setAmount_subs_self]
    · -- the head writes a different sub-request
      have hne : pr.2 ≠ sid := by
        intro he'
        exact hnd.1 (he' ▸ List.mem_map_of_mem Prod.snd ht)
      have hsubs : (makeRequestsStep rid T st pr).subs sid = st.subs sid := by
        unfold makeRequestsStep
        exact setAmount_subs_ne _ _ (fun h => hne h.symm)
      have hprov : (makeRequestsStep rid T st pr).providers = st.providers := by
        unfold makeRequestsStep
        exact (setAmount_fields _ _ _).2.2.1
      have hreq : (makeRequestsStep rid T st pr).requests = st.requests := by
        unfold makeRequestsStep
        exact (setAmount_fields _ _ _).2.2.2.1
      rw [ih (makeRequestsStep rid T st pr) pid sid hnd.2 ht, hsubs, hprov, hreq]

/-- The core characterization of `makeRequests`: each live sub-request's
amount is set to its provider's share of the request's amount. -/
theorem makeRequests_subs_amount {st : AState} {rid pid sid : Nat}
    (hnd : (((st.requests rid).sub_requests).map Prod.snd).Nodup)
    (hmem : (pid, sid) ∈ (st.requests rid).sub_requests) :
    ((makeRequests st rid).subs sid).amount =
      (if totalAvailable st rid ≠ 0 then
        (st.providers ((st.subs sid).provider)).available / totalAvailable st rid else 0) *
        (st.requests rid).amount :=
  mrFold_subs_amount rid (totalAvailable st rid) _ st pid sid hnd hmem

theorem makeRequests_subs_not_mem {st : AState} {rid sid : Nat}
    (h : sid ∉ ((st.requests rid).sub_requests).map Prod.snd) :
    (makeRequests st rid).subs sid = st.subs sid :=
  mrFold_subs_not_mem rid (totalAvailable st rid) _ st sid h

theorem makeRequests_subs_fields (st : AState) (rid s : Nat) :
    ((makeRequests st rid).subs s).request = (st.subs s).request ∧
    ((makeRequests st rid).subs s).provider = (st.subs s).provider ∧
    ((makeRequests st rid).subs s).targets = (st.subs s).targets :=
  mrFold_subs_fields rid (totalAvailable st rid) _ st s

theorem allocLoop_frame (l : List Nat) : ∀ (st : AState) (amount tmr tc : ℚ),
    (allocLoop st amount tmr tc l).providerIds = st.providerIds ∧
    (allocLoop st amount tmr tc l).requestIds = st.requestIds ∧
    (allocLoop st amount tmr tc l).providers = st.providers ∧
    (allocLoop st amount tmr tc l).requests = st.requests ∧
    (allocLoop st amount tmr tc l).subs = st.subs ∧
    (allocLoop st amount tmr tc l).nextSub = st.nextSub ∧
    (allocLoop st amount tmr tc l).nextRt = st.nextRt ∧
    (allocLoop st amount tmr tc l).nextGt = st.nextGt := by
  induction l with
  | nil => intro st amount tmr tc; exact ⟨rfl, rfl, rfl, rfl, rfl, rfl, rfl, rfl⟩
  | cons gtid rest ih =>
    intro st amount tmr tc
    simp only [allocLoop]
    exact ih _ _ _ _

theorem makeAllocationsOp_frame (st : AState) (g : AllocationGrant) :
    (makeAllocationsOp st g).providerIds = st.providerIds ∧
    (makeAllocationsOp st g).requestIds = st.requestIds ∧
    (makeAllocationsOp st g).providers = st.providers ∧
    (makeAllocationsOp st g).requests = st.requests ∧
    (makeAllocationsOp st g).subs = st.subs ∧
    (makeAllocationsOp st g).nextSub = st.nextSub ∧
    (makeAllocationsOp st g).nextRt = st.nextRt ∧
    (makeAllocationsOp st g).nextGt = st.nextGt := by
  unfold makeAllocationsOp
  exact allocLoop_frame _ _ _ _ _

/-- `grant` is the mid-state followed by the redistribution and (for a
positive amount) the grant's target distribution. -/
theorem grant_eq (st : AState) (sid : Nat) (a : ℚ) :
    grant st sid a =
      if 0 < a then
        makeAllocationsOp (makeRequests (grantMid st sid a) ((st.subs sid).request))
          ⟨(st.subs sid).request, (st.subs sid).provider, a, (st.subs sid).targets⟩
      else makeRequests (grantMid st sid a) ((st.subs sid).request) := by
  unfold grant grantMid
  by_cases h : 0 < a
  · simp only [if_pos h, Function.update_same, Function.update_idem, List.append_nil]
  · simp only [if_neg h, Function.update_same, Function.update_idem, List.append_nil]

theorem grant_providerIds (st : AState) (sid : Nat) (a : ℚ) :
    (grant st sid a).providerIds = st.providerIds := by
  rw [grant_eq]
  by_cases h : 0 < a
  · rw [if_pos h, (makeAllocationsOp_frame _ _).1, (makeRequests_frame _ _).1]; rfl
  · rw [if_neg h, (makeRequests_frame _ _).1]; rfl

theorem grant_requestIds (st : AState) (sid : Nat) (a : ℚ) :
    (grant st sid a).requestIds = st.requestIds := by
  rw [grant_eq]
  by_cases h : 0 < a
  · rw [if_pos h, (makeAllocationsOp_frame _ _).2.1, (makeRequests_frame _ _).2.1]; rfl
  · rw [if_neg h, (makeRequests_frame _ _).2.1]; rfl

theorem grant_nextSub (st : AState) (sid : Nat) (a : ℚ) :
    (grant st sid a).nextSub = st.nextSub := by
  rw [grant_eq]
  by_cases h : 0 < a
  · rw [if_pos h, (makeAllocationsOp_frame _ _).2.2.2.2.2.1,
      (makeRequests_frame _ _).2.2.2.2.2.2.1]
    rfl
  · rw [if_neg h, (makeRequests_frame _ _).2.2.2.2.2.2.1]; rfl

theorem grant_providers (st : AState) (sid : Nat) (a : ℚ) :
    (grant st sid a).providers = (grantMid st sid a).providers := by
  rw [grant_eq]
  by_cases h : 0 < a
  · rw [if_pos h, (makeAllocationsOp_frame _ _).2.2.1, (makeRequests_frame _ _).2.2.1]
  · rw [if_neg h, (makeRequests_frame _ _).2.2.1]

theorem grant_requests (st : AState) (sid : Nat) (a : ℚ) :
    (grant st sid a).requests = (grantMid st sid a).requests := by
  rw [grant_eq]
  by_cases h : 0 < a
  · rw [if_pos h, (makeAllocationsOp_frame _ _).2.2.2.1, (makeRequests_frame _ _).2.2.2.1]
  · rw [if_neg h, (makeRequests_frame _ _).2.2.2.1]

theorem grant_subs (st : AState) (sid : Nat) (a : ℚ) :
    (grant st sid a).subs =
      (makeRequests (grantMid st sid a) ((st.subs sid).request)).subs := by
  rw [grant_eq]
  by_cases h : 0 < a
  · rw [if_pos h, (makeAllocationsOp_frame _ _).2.2.2.2.1]
  · rw [if_neg h]

theorem grantMid_providers_self (st : AState) (sid : Nat) (a : ℚ) :
    (grantMid st sid a).providers ((st.subs sid).provider) =
      { available := (st.providers ((st.subs sid).provider)).available - a,
        sub_requests := ((st.providers ((st.subs sid).provider)).sub_requests).erase sid,
        grants := (st.providers ((st.subs sid).provider)).grants ++
          (if 0 < a then [⟨(st.subs sid).request, (st.subs sid).provider, a,
            (st.subs sid).targets⟩] else []) } := by
  unfold grantMid
  simp

theorem grantMid_providers_ne (st : AState) (sid : Nat) (a : ℚ) {pid : Nat}
    (h : pid ≠ (st.subs sid).provider) :
    (grantMid st sid a).providers pid = st.providers pid := by
  unfold grantMid
  exact Function.update_noteq h _ _

theorem grantMid_requests_self (st : AState) (sid : Nat) (a : ℚ) :
    (grantMid st sid a).requests ((st.subs sid).request) =
      { amount := (st.requests ((st.subs sid).request)).amount - a,
        sub_requests := eraseA ((st.requests ((st.subs sid).request)).sub_requests)
          ((st.subs sid).provider),
        request_targets := (st.requests ((st.subs sid).request)).request_targets } := by
  unfold grantMid
  simp

theorem grantMid_requests_ne (st : AState) (sid : Nat) (a : ℚ) {rid : Nat}
    (h : rid ≠ (st.subs sid).request) :
    (grantMid st sid a).requests rid = st.requests rid := by
  unfold grantMid
  exact Function.update_noteq h _ _

theorem grantMid_subs_self (st : AState) (sid : Nat) (a : ℚ) :
    (grantMid st sid a).subs sid = { st.subs sid with amount := a } := by
  unfold grantMid
  simp

theorem grantMid_subs_ne (st : AState) (sid : Nat) (a : ℚ) {s : Nat} (h : s ≠ sid) :
    (grantMid st sid a).subs s = st.subs s := by
  unfold grantMid
  exact Function.update_noteq h _ _

theorem grantMid_frame (st : AState) (sid : Nat) (a : ℚ) :
    (grantMid st sid a).providerIds = st.providerIds ∧
    (grantMid st sid a).requestIds = st.requestIds ∧
    (grantMid st sid a).rts = st.rts ∧
    (grantMid st sid a).gts = st.gts ∧
    (grantMid st sid a).nextSub = st.nextSub ∧
    (grantMid st sid a).nextRt = st.nextRt ∧
    (grantMid st sid a).nextGt = st.nextGt := by
  unfold grantMid
  exact ⟨rfl, rfl, rfl, rfl, rfl, rfl, rfl⟩

/-!
## The stable priority sort
-/

theorem insPr_perm (st : AState) (x : Nat) : ∀ l : List Nat, List.Perm (insPr st x l) (x :: l) := by
  intro l
  induction l with
  | nil => exact List.Perm.refl _
  | cons y ys ih =>
    unfold insPr
    by_cases h : getPriority st y ≤ getPriority st x
    · rw [if_pos h]
      exact (List.Perm.cons y ih).trans (List.Perm.swap x y ys)
    · rw [if_neg h]

theorem sortFold_perm (st : AState) : ∀ (l acc : List Nat),
    List.Perm (l.foldl (fun acc x => insPr st x acc) acc) (l ++ acc) := by
  intro l
  induction l with
  | nil => intro acc; simp
  | cons x rest ih =>
    intro acc
    simp only [List.foldl_cons, List.cons_append]
    exact ((ih _).trans ((List.Perm.append_left rest (insPr_perm st x acc)).trans
      List.perm_middle))

theorem sortByPriority_perm (st : AState) (l : List Nat) :
    List.Perm (sortByPriority st l) l := by
  unfold sortByPriority
  have h := sortFold_perm st l []
  rwa [List.append_nil] at h

theorem insPr_pairwise (st : AState) (x : Nat) : ∀ l : List Nat,
    l.Pairwise (fun a b => getPriority st a ≤ getPriority st b) →
    (insPr st x l).Pairwise (fun a b => getPriority st a ≤ getPriority st b) := by
  intro l
  induction l with
  | nil => intro _; simp [insPr]
  | cons y ys ih =>
    intro hp
    rw [List.pairwise_cons] at hp
    unfold insPr
    by_cases h : getPriority st y ≤ getPriority st x
    · rw [if_pos h]
      rw [List.pairwise_cons]
      constructor
      · intro a ha
        rcases List.mem_cons.mp ((insPr_perm st x ys).mem_iff.mp ha) with rfl | ha'
        · exact h
        · exact hp.1 a ha'
      · exact ih hp.2
    · rw [if_neg h]
      rw [List.pairwise_cons]
      push_neg at h
      constructor
      · intro a ha
        rcases List.mem_cons.mp ha with rfl | ha'
        · exact le_of_lt h
        · exact le_trans (le_of_lt h) (hp.1 a ha')
      · exact List.Pairwise.cons hp.1 hp.2

theorem sortFold_pairwise (st : AState) : ∀ (l acc : List Nat),
    acc.Pairwise (fun a b => getPriority st a ≤ getPriority st b) →
    (l.foldl (fun acc x => insPr st x acc) acc).Pairwise
      (fun a b => getPriority st a ≤ getPriority st b) := by
  intro l
  induction l with
  | nil => intro acc h; exact h
  | cons x rest ih =>
    intro acc h
    simp only [List.foldl_cons]
    exact ih _ (insPr_pairwise st x acc h)

/-- The `makeGrants` processing order is ascending in the priorities
read at the start of the call. -/
theorem sortByPriority_pairwise (st : AState) (l : List Nat) :
    (sortByPriority st l).Pairwise (fun a b => getPriority st a ≤ getPriority st b) :=
  sortFold_pairwise st l [] (List.Pairwise.nil)

theorem SInv.valuesNodup {st : AState} (hs : SInv st) {rid : Nat}
    (hr : rid ∈ st.requestIds) :
    (((st.requests rid).sub_requests).map Prod.snd).Nodup := by
  have hk := hs.keysNodup rid hr
  have hl : ((st.requests rid).sub_requests).Nodup := hk.of_map _
  apply List.Nodup.map_on _ hl
  intro x hx y hy hxy
  have hx1 := (hs.mapSub rid hr x hx).2.1
  have hy1 := (hs.mapSub rid hr y hy).2.1
  have h1 : x.1 = y.1 := by rw [← hx1, ← hy1, hxy]
  exact Prod.ext h1 hxy

/-- A live sub-request appears in its request's dictionary under its
provider's key. -/
theorem SInv.pend_mem_map {st : AState} (hs : SInv st) {pid sid : Nat}
    (hp : pid ∈ st.providerIds) (hsid : sid ∈ (st.providers pid).sub_requests) :
    (pid, sid) ∈ (st.requests ((st.subs sid).request)).sub_requests :=
  mem_of_lookupA ((hs.pendSub pid hp sid hsid).2)

theorem SInv_initState : SInv initState := by
  constructor <;> simp [initState]

theorem SInv_newProviderOp {st : AState} (hs : SInv st) {pid : Nat} (a : ℚ)
    (hfresh : pid ∉ st.providerIds) : SInv (newProviderOp st pid a) := by
  have hputs : ∀ q, q ≠ pid →
      (newProviderOp st pid a).providers q = st.providers q := by
    intro q hq
    unfold newProviderOp
    exact Function.update_noteq hq _ _
  have hpid : (newProviderOp st pid a).providers pid = ⟨a, [], []⟩ := by
    unfold newProviderOp
    simp
  have hids : (newProviderOp st pid a).providerIds = st.providerIds ++ [pid] := rfl
  have hmem : ∀ q, q ∈ (newProviderOp st pid a).providerIds ↔
      q ∈ st.providerIds ∨ q = pid := by
    intro q; rw [hids]; simp
  constructor
  · rw [hids]
    simp only [List.nodup_append, List.nodup_cons, List.nodup_nil]
    refine ⟨hs.pNodup, by simp, ?_⟩
    intro b hb
    simp only [List.mem_singleton]
    intro he
    subst he
    exact hfresh hb
  · exact hs.rNodup
  · intro q hq
    rcases (hmem q).mp hq with h | rfl
    · rw [hputs q (fun he => hfresh (he ▸ h))]
      exact hs.pendNodup q h
    · rw [hpid]; exact List.nodup_nil
  · intro q hq sid hsid
    rcases (hmem q).mp hq with h | rfl
    · rw [hputs q (fun he => hfresh (he ▸ h))] at hsid
      exact hs.pendLt q h sid hsid
    · rw [hpid] at hsid; simp at hsid
  · intro q hq sid hsid
    rcases (hmem q).mp hq with h | rfl
    · rw [hputs q (fun he => hfresh (he ▸ h))] at hsid
      exact hs.pendSub q h sid hsid
    · rw [hpid] at hsid; simp at hsid
  · intro rid hr
    exact hs.keysNodup rid hr
  · intro rid hr pr hpr
    have h := hs.mapSub rid hr pr hpr
    refine ⟨(hmem pr.1).mpr (Or.inl h.1), h.2.1, h.2.2.1, ?_⟩
    rw [hputs pr.1 (fun he => hfresh (he ▸ h.1))]
    exact h.2.2.2
  · intro sid hlt
    have h := hs.subIds sid hlt
    exact ⟨h.1, (hmem _).mpr (Or.inl h.2)⟩
  · intro q hq
    rw [hmem q] at hq
    push_neg at hq
    rw [hputs q hq.2]
    exact hs.provDefault q hq.1
  · intro rid hr
    exact hs.reqDefault rid hr
  · intro q hq
    rcases (hmem q).mp hq with h | rfl
    · rw [hputs q (fun he => hfresh (he ▸ h))]
      exact hs.grantsReq q h
    · rw [hpid]
      intro g hg
      simp at hg

theorem SInv_newRequestOp {st : AState} (hs : SInv st) {rid : Nat} (a : ℚ)
    (hfresh : rid ∉ st.requestIds) : SInv (newRequestOp st rid a) := by
  have hputs : ∀ r, r ≠ rid →
      (newRequestOp st rid a).requests r = st.requests r := by
    intro r hr
    unfold newRequestOp
    exact Function.update_noteq hr _ _
  have hrid : (newRequestOp st rid a).requests rid = ⟨a, [], []⟩ := by
    unfold newRequestOp
    simp
  have hids : (newRequestOp st rid a).requestIds = st.requestIds ++ [rid] := rfl
  have hmem : ∀ r, r ∈ (newRequestOp st rid a).requestIds ↔
      r ∈ st.requestIds ∨ r = rid := by
    intro r; rw [hids]; simp
  constructor
  · exact hs.pNodup
  · rw [hids]
    simp only [List.nodup_append, List.nodup_cons, List.nodup_nil]
    refine ⟨hs.rNodup, by simp, ?_⟩
    intro b hb
    simp only [List.mem_singleton]
    intro he
    subst he
    exact hfresh hb
  · exact hs.pendNodup
  · exact hs.pendLt
  · intro pid hp sid hsid
    have h := hs.pendSub pid hp sid hsid
    refine ⟨h.1, ?_⟩
    have hreq : (st.subs sid).request ∈ st.requestIds :=
      (hs.subIds sid (hs.pendLt pid hp sid hsid)).1
    show lookupA ((newRequestOp st rid a).requests ((st.subs sid).request)).sub_requests
      pid = some sid
    rw [hputs _ (fun he => hfresh (he ▸ hreq))]
    exact h.2
  · intro r hr
    rcases (hmem r).mp hr with h | rfl
    · rw [hputs r (fun he => hfresh (he ▸ h))]
      exact hs.keysNodup r h
    · rw [hrid]; exact List.nodup_nil
  · intro r hr pr hpr
    rcases (hmem r).mp hr with h | rfl
    · rw [hputs r (fun he => hfresh (he ▸ h))] at hpr
      exact hs.mapSub r h pr hpr
    · rw [hrid] at hpr; simp at hpr
  · intro sid hlt
    have h := hs.subIds sid hlt
    exact ⟨(hmem _).mpr (Or.inl h.1), h.2⟩
  · exact hs.provDefault
  · intro r hr
    rw [hmem r] at hr
    push_neg at hr
    rw [hputs r hr.2]
    exact hs.reqDefault r hr.1
  · intro pid hp g hg
    have h := hs.grantsReq pid hp g hg
    exact ⟨(hmem _).mpr (Or.inl h.1), h.2⟩

theorem SInv_addTargetOp {st : AState} (hs : SInv st) {rid : Nat} (tid : Nat)
    (m c : ℚ) (hrid : rid ∈ st.requestIds) : SInv (addTargetOp st rid tid m c) := by
  have hputs : ∀ r, r ≠ rid →
      (addTargetOp st rid tid m c).requests r = st.requests r := by
    intro r hr
    unfold addTargetOp
    exact Function.update_noteq hr _ _
  have hrideq : ((addTargetOp st rid tid m c).requests rid).sub_requests =
      (st.requests rid).sub_requests ∧
      ((addTargetOp st rid tid m c).requests rid).amount = (st.requests rid).amount := by
    unfold addTargetOp
    simp
  have hreq : ∀ r, ((addTargetOp st rid tid m c).requests r).sub_requests =
      (st.requests r).sub_requests := by
    intro r
    by_cases hr : r = rid
    · subst hr; exact hrideq.1
    · rw [hputs r hr]
  have hfr : (addTargetOp st rid tid m c).providerIds = st.providerIds ∧
      (addTargetOp st rid tid m c).requestIds = st.requestIds ∧
      (addTargetOp st rid tid m c).providers = st.providers ∧
      (addTargetOp st rid tid m c).subs = st.subs ∧
      (addTargetOp st rid tid m c).nextSub = st.nextSub := by
    unfold addTargetOp
    exact ⟨rfl, rfl, rfl, rfl, rfl⟩
  constructor
  · rw [hfr.1]; exact hs.pNodup
  · rw [hfr.2.1]; exact hs.rNodup
  · rw [hfr.1, hfr.2.2.1]; exact hs.pendNodup
  · rw [hfr.1, hfr.2.2.1, hfr.2.2.2.2]; exact hs.pendLt
  · rw [hfr.1, hfr.2.2.1, hfr.2.2.2.1]
    intro pid hp sid hsid
    rw [hreq]
    exact hs.pendSub pid hp sid hsid
  · rw [hfr.2.1]
    intro r hr
    rw [hreq]
    exact hs.keysNodup r hr
  · rw [hfr.2.1, hfr.1, hfr.2.2.1, hfr.2.2.2.1]
    intro r hr pr hpr
    rw [hreq] at hpr
    exact hs.mapSub r hr pr hpr
  · rw [hfr.2.1, hfr.1, hfr.2.2.2.1, hfr.2.2.2.2]
    exact hs.subIds
  · rw [hfr.1, hfr.2.2.1]; exact hs.provDefault
  · rw [hfr.2.1]
    intro r hr
    rw [hputs r (fun he => hr (he ▸ hrid))]
    exact hs.reqDefault r hr
  · rw [hfr.1, hfr.2.1, hfr.2.2.1]; exact hs.grantsReq

theorem SInv_makeRequests {st : AState} (hs : SInv st) (rid : Nat) :
    SInv (makeRequests st rid) := by
  have hfr := makeRequests_frame st rid
  have hflds := makeRequests_subs_fields st rid
  constructor
  · rw [hfr.1]; exact hs.pNodup
  · rw [hfr.2.1]; exact hs.rNodup
  · rw [hfr.1, hfr.2.2.1]; exact hs.pendNodup
  · rw [hfr.1, hfr.2.2.1, hfr.2.2.2.2.2.2.1]; exact hs.pendLt
  · rw [hfr.1, hfr.2.2.1, hfr.2.2.2.1]
    intro pid hp sid hsid
    rw [(hflds sid).2.1, (hflds sid).1]
    exact hs.pendSub pid hp sid hsid
  · rw [hfr.2.1, hfr.2.2.2.1]; exact hs.keysNodup
  · rw [hfr.2.1, hfr.1, hfr.2.2.1, hfr.2.2.2.1]
    intro r hr pr hpr
    have h := hs.mapSub r hr pr hpr
    rw [(hflds pr.2).2.1, (hflds pr.2).1]
    exact h
  · rw [hfr.2.1, hfr.1, hfr.2.2.2.2.2.2.1]
    intro sid hlt
    rw [(hflds sid).2.1, (hflds sid).1]
    exact hs.subIds sid hlt
  · rw [hfr.1, hfr.2.2.1]; exact hs.provDefault
  · rw [hfr.2.1, hfr.2.2.2.1]; exact hs.reqDefault
  · rw [hfr.1, hfr.2.1, hfr.2.2.1]; exact hs.grantsReq

theorem setA_eq_of_lookupA {l : List (Nat × Nat)} {k v : Nat}
    (h : lookupA l k = some v) : setA l k v = l := by
  induction l with
  | nil => simp [lookupA] at h
  | cons p t ih =>
    obtain ⟨k0, v0⟩ := p
    by_cases hk : k0 = k
    · subst hk
      have h' : v0 = v := by
        rw [show lookupA ((k0, v0) :: t) k0 = some v0 by simp [lookupA]] at h
        exact Option.some.inj h
      subst h'
      simp [setA]
    · simp only [lookupA, if_neg hk] at h
      simp [setA, hk, ih h]

theorem setA_eq_append {l : List (Nat × Nat)} {k : Nat}
    (h : lookupA l k = none) (v : Nat) : setA l k v = l ++ [(k, v)] := by
  induction l with
  | nil => simp [setA]
  | cons p t ih =>
    obtain ⟨k0, v0⟩ := p
    by_cases hk : k0 = k
    · subst hk
      simp [lookupA] at h
    · simp only [lookupA, if_neg hk] at h
      simp [setA, hk, ih h]

theorem lookupA_append_of_some {l l' : List (Nat × Nat)} {k v : Nat}
    (h : lookupA l k = some v) : lookupA (l ++ l') k = some v := by
  induction l with
  | nil => simp [lookupA] at h
  | cons p t ih =>
    obtain ⟨k0, v0⟩ := p
    by_cases hk : k0 = k
    · subst hk
      have h' : v0 = v := by
        rw [show lookupA ((k0, v0) :: t) k0 = some v0 by simp [lookupA]] at h
        exact Option.some.inj h
      subst h'
      simp [lookupA]
    · simp only [lookupA, if_neg hk] at h
      simp only [List.cons_append, lookupA, if_neg hk]
      exact ih h

theorem lookupA_append_of_none {l l' : List (Nat × Nat)} {k : Nat}
    (h : lookupA l k = none) : lookupA (l ++ l') k = lookupA l' k := by
  induction l with
  | nil => simp
  | cons p t ih =>
    obtain ⟨k0, v0⟩ := p
    by_cases hk : k0 = k
    · subst hk
      simp [lookupA] at h
    · simp only [lookupA, if_neg hk] at h
      simp only [List.cons_append, lookupA, if_neg hk]
      exact ih h

theorem addProviderOp_eq_some {st : AState} {rid pid tid sid : Nat}
    (h1 : lookupA (st.requests rid).sub_requests pid = some sid)
    (h2 : sid ∈ (st.providers pid).sub_requests) :
    addProviderOp st rid pid tid =
      makeRequests (addProviderMidOld st rid pid tid sid) rid := by
  unfold addProviderOp addProviderMidOld
  dsimp only
  rw [h1]
  dsimp only
  rw [setA_eq_of_lookupA h1]
  rw [show ({ st.requests rid with
      sub_requests := (st.requests rid).sub_requests } : AllocationRequest) =
      st.requests rid from rfl]
  rw [Function.update_eq_self]
  rw [if_pos h2]

theorem addProviderOp_eq_none {st : AState} {rid pid tid : Nat}
    (h1 : lookupA (st.requests rid).sub_requests pid = none)
    (h2 : st.nextSub ∉ (st.providers pid).sub_requests) :
    addProviderOp st rid pid tid =
      makeRequests (addProviderMidNew st rid pid tid) rid := by
  unfold addProviderOp addProviderMidNew
  dsimp only
  rw [h1]
  dsimp only
  rw [setA_eq_append h1]
  rw [if_neg h2]

theorem SInv_addProviderMidOld {st : AState} (hs : SInv st) (rid pid tid sid : Nat)
    (hlt : sid < st.nextSub) : SInv (addProviderMidOld st rid pid tid sid) := by
  set st' := addProviderMidOld st rid pid tid sid with hst'
  have hfr : st'.providerIds = st.providerIds ∧ st'.requestIds = st.requestIds ∧
      st'.providers = st.providers ∧ st'.requests = st.requests ∧
      st'.nextSub = st.nextSub := by
    rw [hst']; unfold addProviderMidOld
    exact ⟨rfl, rfl, rfl, rfl, rfl⟩
  have hsub_ne : ∀ s, s ≠ sid → st'.subs s = st.subs s := by
    intro s h
    rw [hst']; unfold addProviderMidOld
    exact Function.update_noteq h _ _
  have hsub_sid : st'.subs sid =
      { st.subs sid with targets := (st.subs sid).targets ++ [st.nextGt] } := by
    rw [hst']; unfold addProviderMidOld
    simp
  have hsubs : ∀ s, (st'.subs s).provider = (st.subs s).provider ∧
      (st'.subs s).request = (st.subs s).request ∧
      (st'.subs s).amount = (st.subs s).amount := by
    intro s
    by_cases h : s = sid
    · subst h
      rw [hsub_sid]
      exact ⟨rfl, rfl, rfl⟩
    · rw [hsub_ne s h]
      exact ⟨rfl, rfl, rfl⟩
  constructor
  · rw [hfr.1]; exact hs.pNodup
  · rw [hfr.2.1]; exact hs.rNodup
  · rw [hfr.1, hfr.2.2.1]; exact hs.pendNodup
  · rw [hfr.1, hfr.2.2.1, hfr.2.2.2.2]; exact hs.pendLt
  · rw [hfr.1, hfr.2.2.1]
    intro q hq s hsid
    rw [(hsubs s).1, (hsubs s).2.1, hfr.2.2.2.1]
    exact hs.pendSub q hq s hsid
  · rw [hfr.2.1, hfr.2.2.2.1]; exact hs.keysNodup
  · rw [hfr.2.1, hfr.1, hfr.2.2.1, hfr.2.2.2.1]
    intro r hr pr hpr
    rw [(hsubs pr.2).1, (hsubs pr.2).2.1]
    exact hs.mapSub r hr pr hpr
  · rw [hfr.2.1, hfr.1, hfr.2.2.2.2]
    intro s hslt
    rw [(hsubs s).1, (hsubs s).2.1]
    exact hs.subIds s hslt
  · rw [hfr.1, hfr.2.2.1]; exact hs.provDefault
  · rw [hfr.2.1, hfr.2.2.2.1]; exact hs.reqDefault
  · rw [hfr.1, hfr.2.1, hfr.2.2.1]; exact hs.grantsReq

theorem SInv_addProviderMidNew {st : AState} (hs : SInv st) {rid pid : Nat} (tid : Nat)
    (hrid : rid ∈ st.requestIds) (hpid : pid ∈ st.providerIds)
    (h1 : lookupA (st.requests rid).sub_requests pid = none) :
    SInv (addProviderMidNew st rid pid tid) := by
  set sid := st.nextSub with hsid_def
  set st' := addProviderMidNew st rid pid tid with hst'
  have hids : st'.providerIds = st.providerIds ∧ st'.requestIds = st.requestIds ∧
      st'.nextSub = st.nextSub + 1 := by
    rw [hst']; unfold addProviderMidNew; exact ⟨rfl, rfl, rfl⟩
  have hprov : ∀ q, q ≠ pid → st'.providers q = st.providers q := by
    intro q hq
    rw [hst']; unfold addProviderMidNew
    exact Function.update_noteq hq _ _
  have hprov_pid : st'.providers pid =
      { st.providers pid with
        sub_requests := (st.providers pid).sub_requests ++ [sid] } := by
    rw [hst']; unfold addProviderMidNew; simp
  have hreq : ∀ r, r ≠ rid → st'.requests r = st.requests r := by
    intro r hr
    rw [hst']; unfold addProviderMidNew
    exact Function.update_noteq hr _ _
  have hreq_rid : st'.requests rid =
      { st.requests rid with
        sub_requests := (st.requests rid).sub_requests ++ [(pid, sid)] } := by
    rw [hst']; unfold addProviderMidNew; simp
  have hsub : ∀ s, s ≠ sid → st'.subs s = st.subs s := by
    intro s hssid
    rw [hst']; unfold addProviderMidNew
    exact Function.update_noteq hssid _ _
  have hsub_sid : st'.subs sid = ⟨rid, pid, 0, [st.nextGt]⟩ := by
    rw [hst']; unfold addProviderMidNew; simp
  have hpend_old : ∀ q ∈ st.providerIds, ∀ s ∈ (st.providers q).sub_requests, s ≠ sid :=
    fun q hq s hsmem => Nat.ne_of_lt (hs.pendLt q hq s hsmem)
  have hval_old : ∀ r ∈ st.requestIds, ∀ pr ∈ (st.requests r).sub_requests, pr.2 ≠ sid :=
    fun r hr pr hpr => Nat.ne_of_lt
      (hs.pendLt pr.1 (hs.mapSub r hr pr hpr).1 pr.2 (hs.mapSub r hr pr hpr).2.2.2)
  constructor
  · rw [hids.1]; exact hs.pNodup
  · rw [hids.2.1]; exact hs.rNodup
  · rw [hids.1]
    intro q hq
    by_cases hqp : q = pid
    · subst hqp
      rw [hprov_pid]
      simp only [List.nodup_append, List.nodup_cons, List.nodup_nil]
      refine ⟨hs.pendNodup q hq, by simp, ?_⟩
      intro s hsmem
      simp only [List.mem_singleton]
      intro he
      exact hpend_old q hq s hsmem he
    · rw [hprov q hqp]
      exact hs.pendNodup q hq
  · rw [hids.1, hids.2.2]
    intro q hq s hsmem
    by_cases hqp : q = pid
    · subst hqp
      rw [hprov_pid] at hsmem
      rcases List.mem_append.mp hsmem with hold | hnew
      · exact Nat.lt_succ_of_lt (hs.pendLt q hq s hold)
      · simp only [List.mem_singleton] at hnew
        subst hnew
        exact Nat.lt_succ_self _
    · rw [hprov q hqp] at hsmem
      exact Nat.lt_succ_of_lt (hs.pendLt q hq s hsmem)
  · rw [hids.1]
    intro q hq s hsmem
    by_cases hqp : q = pid
    · subst hqp
      rw [hprov_pid] at hsmem
      rcases List.mem_append.mp hsmem with hold | hnew
      · have hsold := hs.pendSub q hq s hold
        have hne : s ≠ sid := hpend_old q hq s hold
        rw [hsub s hne]
        refine ⟨hsold.1, ?_⟩
        by_cases hrq : (st.subs s).request = rid
        · rw [hrq] at hsold
          rw [hsold.2] at h1
          exact Option.noConfusion h1
        · rw [hreq _ hrq]
          exact hsold.2
      · simp only [List.mem_singleton] at hnew
        subst hnew
        rw [hsub_sid]
        refine ⟨rfl, ?_⟩
        show lookupA (st'.requests rid).sub_requests q = some sid
        rw [hreq_rid]
        show lookupA ((st.requests rid).sub_requests ++ [(q, sid)]) q = some sid
        rw [lookupA_append_of_none h1]
        simp [lookupA]
    · rw [hprov q hqp] at hsmem
      have hsold := hs.pendSub q hq s hsmem
      have hne : s ≠ sid := hpend_old q hq s hsmem
      rw [hsub s hne]
      refine ⟨hsold.1, ?_⟩
      by_cases hrq : (st.subs s).request = rid
      · rw [hrq]
        rw [hrq] at hsold
        rw [hreq_rid]
        show lookupA ((st.requests rid).sub_requests ++ [(pid, sid)]) q = some s
        exact lookupA_append_of_some hsold.2
      · rw [hreq _ hrq]
        exact hsold.2
  · rw [hids.2.1]
    intro r hr
    by_cases hrq : r = rid
    · subst hrq
      rw [hreq_rid]
      show (((st.requests r).sub_requests ++ [(pid, sid)]).map Prod.fst).Nodup
      rw [List.map_append]
      simp only [List.map_cons, List.map_nil]
      rw [List.nodup_append]
      refine ⟨hs.keysNodup r hr, by simp, ?_⟩
      intro x hx
      simp only [List.mem_singleton]
      intro he
      subst he
      exact (lookupA_eq_none_iff.mp h1) hx
    · rw [hreq _ hrq]
      exact hs.keysNodup r hr
  · rw [hids.2.1, hids.1]
    intro r hr pr hpr
    by_cases hrq : r = rid
    · subst hrq
      rw [hreq_rid] at hpr
      rcases List.mem_append.mp (by exact hpr) with hold | hnew
      · have h := hs.mapSub r hr pr hold
        have hne : pr.2 ≠ sid := hval_old r hr pr hold
        rw [hsub _ hne]
        refine ⟨h.1, h.2.1, h.2.2.1, ?_⟩
        by_cases hqp : pr.1 = pid
        · subst hqp
          rw [hprov_pid]
          exact List.mem_append_left _ h.2.2.2
        · rw [hprov _ hqp]
          exact h.2.2.2
      · simp only [List.mem_singleton] at hnew
        subst hnew
        rw [hsub_sid]
        refine ⟨hpid, rfl, rfl, ?_⟩
        rw [hprov_pid]
        exact List.mem_append_right _ (List.mem_singleton.mpr rfl)
    · rw [hreq _ hrq] at hpr
      have h := hs.mapSub r hr pr hpr
      have hne : pr.2 ≠ sid := hval_old r hr pr hpr
      rw [hsub _ hne]
      refine ⟨h.1, h.2.1, h.2.2.1, ?_⟩
      by_cases hqp : pr.1 = pid
      · subst hqp
        rw [hprov_pid]
        exact List.mem_append_left _ h.2.2.2
      · rw [hprov _ hqp]
        exact h.2.2.2
  · rw [hids.1, hids.2.1, hids.2.2]
    intro s hslt
    by_cases hssid : s = sid
    · subst hssid
      rw [hsub_sid]
      exact ⟨hrid, hpid⟩
    · rw [hsub s hssid]
      have : s < st.nextSub := by
        rcases Nat.lt_succ_iff_lt_or_eq.mp hslt with h | h
        · exact h
        · exact absurd h hssid
      exact hs.subIds s this
  · rw [hids.1]
    intro q hq
    have hqp : q ≠ pid := fun he => hq (he ▸ hpid)
    rw [hprov q hqp]
    exact hs.provDefault q hq
  · rw [hids.2.1]
    intro r hr
    have hrq : r ≠ rid := fun he => hr (he ▸ hrid)
    rw [hreq r hrq]
    exact hs.reqDefault r hr
  · rw [hids.1, hids.2.1]
    intro q hq
    by_cases hqp : q = pid
    · subst hqp
      rw [hprov_pid]
      exact hs.grantsReq q hq
    · rw [hprov q hqp]
      exact hs.grantsReq q hq

theorem SInv_addProviderOp {st : AState} (hs : SInv st) {rid pid : Nat} (tid : Nat)
    (hrid : rid ∈ st.requestIds) (hpid : pid ∈ st.providerIds) :
    SInv (addProviderOp st rid pid tid) := by
  rcases hl : lookupA (st.requests rid).sub_requests pid with _ | sid
  · have hfresh : st.nextSub ∉ (st.providers pid).sub_requests :=
      fun hmem => Nat.lt_irrefl _ (hs.pendLt pid hpid _ hmem)
    rw [addProviderOp_eq_none hl hfresh]
    exact SInv_makeRequests (SInv_addProviderMidNew hs tid hrid hpid hl) rid
  · have hmem : (pid, sid) ∈ (st.requests rid).sub_requests := mem_of_lookupA hl
    have h := hs.mapSub rid hrid _ hmem
    rw [addProviderOp_eq_some hl h.2.2.2]
    exact SInv_makeRequests
      (SInv_addProviderMidOld hs rid pid tid sid (hs.pendLt pid hpid sid h.2.2.2)) rid

theorem SInv_makeAllocationsOp {st : AState} (hs : SInv st) (g : AllocationGrant) :
    SInv (makeAllocationsOp st g) := by
  have hfr := makeAllocationsOp_frame st g
  constructor
  · rw [hfr.1]; exact hs.pNodup
  · rw [hfr.2.1]; exact hs.rNodup
  · rw [hfr.1, hfr.2.2.1]; exact hs.pendNodup
  · rw [hfr.1, hfr.2.2.1, hfr.2.2.2.2.2.1]; exact hs.pendLt
  · rw [hfr.1, hfr.2.2.1, hfr.2.2.2.1, hfr.2.2.2.2.1]; exact hs.pendSub
  · rw [hfr.2.1, hfr.2.2.2.1]; exact hs.keysNodup
  · rw [hfr.2.1, hfr.1, hfr.2.2.1, hfr.2.2.2.1, hfr.2.2.2.2.1]; exact hs.mapSub
  · rw [hfr.1, hfr.2.1, hfr.2.2.2.2.1, hfr.2.2.2.2.2.1]; exact hs.subIds
  · rw [hfr.1, hfr.2.2.1]; exact hs.provDefault
  · rw [hfr.2.1, hfr.2.2.2.1]; exact hs.reqDefault
  · rw [hfr.1, hfr.2.1, hfr.2.2.1]; exact hs.grantsReq

theorem SInv_grantMid {st : AState} (hs : SInv st) {sid : Nat} (a : ℚ)
    (hpid : (st.subs sid).provider ∈ st.providerIds)
    (hmem : sid ∈ (st.providers ((st.subs sid).provider)).sub_requests) :
    SInv (grantMid st sid a) := by
  set pid := (st.subs sid).provider with hpid_def
  set rid := (st.subs sid).request with hrid_def
  have hslt : sid < st.nextSub := hs.pendLt pid hpid sid hmem
  have hrid : rid ∈ st.requestIds := (hs.subIds sid hslt).1
  have hlk : lookupA ((st.requests rid).sub_requests) pid = some sid :=
    (hs.pendSub pid hpid sid hmem).2
  set st' := grantMid st sid a with hst'
  have hfr := grantMid_frame st sid a
  have hprov_ne : ∀ q, q ≠ pid → st'.providers q = st.providers q :=
    fun q hq => grantMid_providers_ne st sid a hq
  have hprov_pid : st'.providers pid =
      { available := (st.providers pid).available - a,
        sub_requests := ((st.providers pid).sub_requests).erase sid,
        grants := (st.providers pid).grants ++
          (if 0 < a then [⟨rid, pid, a, (st.subs sid).targets⟩] else []) } :=
    grantMid_providers_self st sid a
  have hreq_ne : ∀ r, r ≠ rid → st'.requests r = st.requests r :=
    fun r hr => grantMid_requests_ne st sid a hr
  have hreq_rid : st'.requests rid =
      { amount := (st.requests rid).amount - a,
        sub_requests := eraseA ((st.requests rid).sub_requests) pid,
        request_targets := (st.requests rid).request_targets } :=
    grantMid_requests_self st sid a
  have hsub_ne : ∀ s, s ≠ sid → st'.subs s = st.subs s :=
    fun s h => grantMid_subs_ne st sid a h
  have hsub_sid : st'.subs sid = { st.subs sid with amount := a } :=
    grantMid_subs_self st sid a
  have hsub_fields : ∀ s, (st'.subs s).provider = (st.subs s).provider ∧
      (st'.subs s).request = (st.subs s).request := by
    intro s
    by_cases h : s = sid
    · subst h; rw [hsub_sid]; exact ⟨rfl, rfl⟩
    · rw [hsub_ne s h]; exact ⟨rfl, rfl⟩
  -- a live sub-request of a provider other than pid is never sid
  have hother_ne : ∀ q, q ∈ st.providerIds → q ≠ pid →
      ∀ s ∈ (st.providers q).sub_requests, s ≠ sid := by
    intro q hq hqp s hsmem he
    subst he
    exact hqp ((hs.pendSub q hq _ hsmem).1).symm
  constructor
  · rw [hfr.1]; exact hs.pNodup
  · rw [hfr.2.1]; exact hs.rNodup
  · rw [hfr.1]
    intro q hq
    by_cases hqp : q = pid
    · subst hqp
      rw [hprov_pid]
      exact (hs.pendNodup pid hpid).erase sid
    · rw [hprov_ne q hqp]
      exact hs.pendNodup q hq
  · rw [hfr.1, hfr.2.2.2.2.1]
    intro q hq s hsmem
    by_cases hqp : q = pid
    · subst hqp
      rw [hprov_pid] at hsmem
      exact hs.pendLt pid hpid s (List.mem_of_mem_erase hsmem)
    · rw [hprov_ne q hqp] at hsmem
      exact hs.pendLt q hq s hsmem
  · rw [hfr.1]
    intro q hq s hsmem
    by_cases hqp : q = pid
    · subst hqp
      rw [hprov_pid] at hsmem
      have hsmem' := (hs.pendNodup pid hpid).mem_erase_iff.mp hsmem
      have hne : s ≠ sid := hsmem'.1
      have hold := hs.pendSub pid hpid s hsmem'.2
      rw [hsub_ne s hne]
      refine ⟨hold.1, ?_⟩
      by_cases hrq : (st.subs s).request = rid
      · -- impossible: the request's dictionary maps q to both s and sid
        rw [hrq] at hold
        rw [hlk] at hold
        exact absurd (Option.some.inj hold.2) (fun he => hne he.symm)
      · rw [hreq_ne _ hrq]
        exact hold.2
    · rw [hprov_ne q hqp] at hsmem
      have hne : s ≠ sid := hother_ne q hq hqp s hsmem
      have hold := hs.pendSub q hq s hsmem
      rw [hsub_ne s hne]
      refine ⟨hold.1, ?_⟩
      by_cases hrq : (st.subs s).request = rid
      · rw [hrq] at hold ⊢
        rw [hreq_rid]
        show lookupA (eraseA ((st.requests rid).sub_requests) pid) q = some s
        rw [lookupA_eraseA_ne _ hqp]
        exact hold.2
      · rw [hreq_ne _ hrq]
        exact hold.2
  · rw [hfr.2.1]
    intro r hr
    by_cases hrq : r = rid
    · subst hrq
      rw [hreq_rid]
      exact keys_eraseA_nodup (hs.keysNodup rid hrid) pid
    · rw [hreq_ne _ hrq]
      exact hs.keysNodup r hr
  · rw [hfr.2.1, hfr.1]
    intro r hr pr hpr
    by_cases hrq : r = rid
    · subst hrq
      rw [hreq_rid] at hpr
      have hpr' := mem_eraseA.mp hpr
      have hold := hs.mapSub rid hrid pr hpr'.1
      have hne : pr.2 ≠ sid := by
        intro he
        exact hpr'.2 (by rw [← hold.2.1, he])
      rw [hsub_ne _ hne]
      refine ⟨hold.1, hold.2.1, hold.2.2.1, ?_⟩
      rw [hprov_ne _ hpr'.2]
      exact hold.2.2.2
    · rw [hreq_ne _ hrq] at hpr
      have hold := hs.mapSub r hr pr hpr
      have hne : pr.2 ≠ sid := by
        intro he
        apply hrq
        rw [← hold.2.2.1, he]
      rw [hsub_ne _ hne]
      refine ⟨hold.1, hold.2.1, hold.2.2.1, ?_⟩
      by_cases hqp : pr.1 = pid
      · rw [hqp, hprov_pid]
        show pr.2 ∈ ((st.providers pid).sub_requests).erase sid
        rw [(hs.pendNodup pid hpid).mem_erase_iff]
        refine ⟨hne, ?_⟩
        rw [← hqp]
        exact hold.2.2.2
      · rw [hprov_ne _ hqp]
        exact hold.2.2.2
  · rw [hfr.2.1, hfr.1, hfr.2.2.2.2.1]
    intro s hslt'
    rw [(hsub_fields s).1, (hsub_fields s).2]
    exact hs.subIds s hslt'
  · rw [hfr.1]
    intro q hq
    have hqp : q ≠ pid := fun he => hq (he ▸ hpid)
    rw [hprov_ne q hqp]
    exact hs.provDefault q hq
  · rw [hfr.2.1]
    intro r hr
    have hrq : r ≠ rid := fun he => hr (he ▸ hrid)
    rw [hreq_ne r hrq]
    exact hs.reqDefault r hr
  · rw [hfr.1, hfr.2.1]
    intro q hq
    by_cases hqp : q = pid
    · subst hqp
      rw [hprov_pid]
      intro g hg
      rcases List.mem_append.mp hg with hold | hnew
      · exact hs.grantsReq pid hpid g hold
      · by_cases ha : 0 < a
        · rw [if_pos ha] at hnew
          simp only [List.mem_singleton] at hnew
          subst hnew
          exact ⟨hrid, rfl⟩
        · rw [if_neg ha] at hnew
          simp at hnew
    · rw [hprov_ne q hqp]
      exact hs.grantsReq q hq

theorem SInv_grant {st : AState} (hs : SInv st) {sid : Nat} (a : ℚ)
    (hpid : (st.subs sid).provider ∈ st.providerIds)
    (hmem : sid ∈ (st.providers ((st.subs sid).provider)).sub_requests) :
    SInv (grant st sid a) := by
  rw [grant_eq]
  by_cases h : 0 < a
  · rw [if_pos h]
    exact SInv_makeAllocationsOp (SInv_makeRequests (SInv_grantMid hs a hpid hmem) _) _
  · rw [if_neg h]
    exact SInv_makeRequests (SInv_grantMid hs a hpid hmem) _

/-- How one grant step inside the loop changes the pending list. -/
theorem grant_pending (st : AState) (sid : Nat) (a : ℚ) :
    ((grant st sid a).providers ((st.subs sid).provider)).sub_requests =
      ((st.providers ((st.subs sid).provider)).sub_requests).erase sid := by
  rw [grant_providers, grantMid_providers_self]

theorem makeGrantsLoop_SInv (pid : Nat) (snapshot : List Nat) :
    ∀ (l : List Nat) (st : AState), SInv st → pid ∈ st.providerIds → l.Nodup →
      (∀ s ∈ l, s ∈ (st.providers pid).sub_requests) →
      SInv (makeGrantsLoop pid snapshot st l) := by
  intro l
  induction l with
  | nil => intro st hs _ _ _; exact hs
  | cons sid rest ih =>
    intro st hs hpid hnd hsub
    have hmem : sid ∈ (st.providers pid).sub_requests := hsub sid (List.mem_cons_self _ _)
    have hp : (st.subs sid).provider = pid := (hs.pendSub pid hpid sid hmem).1
    rw [List.nodup_cons] at hnd
    simp only [makeGrantsLoop]
    set a := grantStepAmount st pid snapshot sid with ha
    have hs' : SInv (grant st sid a) := SInv_grant hs a (hp ▸ hpid) (by rw [hp]; exact hmem)
    apply ih (grant st sid a) hs'
    · rw [grant_providerIds]; exact hpid
    · exact hnd.2
    · intro s hsmem
      have hpend : ((grant st sid a).providers pid).sub_requests =
          ((st.providers pid).sub_requests).erase sid := by
        rw [← hp]
        exact grant_pending st sid a
      rw [hpend, (hs.pendNodup pid hpid).mem_erase_iff]
      exact ⟨fun he => hnd.1 (he ▸ hsmem), hsub s (List.mem_cons_of_mem _ hsmem)⟩

theorem SInv_makeGrants {st : AState} (hs : SInv st) {pid : Nat}
    (hpid : pid ∈ st.providerIds) : SInv (makeGrants st pid) := by
  unfold makeGrants
  apply makeGrantsLoop_SInv pid _ _ st hs hpid
  · exact (sortByPriority_perm st _).nodup_iff.mpr (hs.pendNodup pid hpid)
  · intro s hsmem
    exact (sortByPriority_perm st _).mem_iff.mp hsmem

/-- `SInv` is preserved by every valid operation. -/
theorem SInv_applyOp {st : AState} (hs : SInv st) {op : Op}
    (hv : validOpB st op = true) : SInv (applyOp st op) := by
  cases op with
  | newProvider pid a =>
    simp only [validOpB, Bool.not_eq_true'] at hv
    exact SInv_newProviderOp hs a (by simpa using hv)
  | newRequest rid a =>
    simp only [validOpB, Bool.not_eq_true'] at hv
    exact SInv_newRequestOp hs a (by simpa using hv)
  | addTarget rid tid m c =>
    simp only [validOpB] at hv
    exact SInv_addTargetOp hs tid m c (by simpa using hv)
  | addProvider rid pid tid =>
    simp only [validOpB, Bool.and_eq_true] at hv
    exact SInv_addProviderOp hs tid (by simpa using hv.1.1) (by simpa using hv.1.2)
  | makeGrants pid =>
    simp only [validOpB] at hv
    exact SInv_makeGrants hs (by simpa using hv)

theorem SInv_runFrom {st : AState} (hs : SInv st) : ∀ (ops : List Op),
    validTraceB st ops = true → SInv (runFrom st ops) := by
  intro ops
  induction ops generalizing st with
  | nil => intro _; exact hs
  | cons op t ih =>
    intro hv
    simp only [validTraceB, Bool.and_eq_true] at hv
    exact ih (SInv_applyOp hs hv.1) hv.2

theorem SInv_runOps {ops : List Op} (hv : validTraceB initState ops = true) :
    SInv (runOps ops) :=
  SInv_runFrom SInv_initState ops hv

theorem totalAvailable_nonneg {st : AState} (hs : SInv st) {rid : Nat}
    (hrid : rid ∈ st.requestIds) (hav : ∀ pid ∈ st.providerIds, IsNatQ (st.providers pid).available) :
    0 ≤ totalAvailable st rid := by
  apply nonneg_listSum
  intro x hx
  simp only [List.mem_map] at hx
  obtain ⟨pr, hpr, rfl⟩ := hx
  have h := hs.mapSub rid hrid pr hpr
  rw [h.2.1]
  exact (hav pr.1 h.1).nonneg

theorem avail_le_totalAvailable {st : AState} (hs : SInv st) {rid : Nat}
    (hrid : rid ∈ st.requestIds)
    (hav : ∀ pid ∈ st.providerIds, IsNatQ (st.providers pid).available)
    {pr : Nat × Nat} (hpr : pr ∈ (st.requests rid).sub_requests) :
    (st.providers ((st.subs pr.2).provider)).available ≤ totalAvailable st rid := by
  apply List.single_le_sum
  · intro x hx
    simp only [List.mem_map] at hx
    obtain ⟨pr', hpr', rfl⟩ := hx
    have h := hs.mapSub rid hrid pr' hpr'
    rw [h.2.1]
    exact (hav pr'.1 h.1).nonneg
  · exact List.mem_map_of_mem _ hpr

/-- The ratio a live sub-request receives in `makeRequests`. -/
theorem makeRequests_ratio_bounds {st : AState} (hs : SInv st) {rid : Nat}
    (hrid : rid ∈ st.requestIds)
    (hav : ∀ pid ∈ st.providerIds, IsNatQ (st.providers pid).available)
    {pr : Nat × Nat} (hpr : pr ∈ (st.requests rid).sub_requests) :
    0 ≤ (if totalAvailable st rid ≠ 0 then
      (st.providers ((st.subs pr.2).provider)).available / totalAvailable st rid else 0) ∧
    (if totalAvailable st rid ≠ 0 then
      (st.providers ((st.subs pr.2).provider)).available / totalAvailable st rid else 0) ≤ 1 := by
  by_cases hT : totalAvailable st rid = 0
  · rw [if_neg (by simpa using hT)]
    norm_num
  · rw [if_pos hT]
    have hT0 : 0 < totalAvailable st rid :=
      lt_of_le_of_ne (totalAvailable_nonneg hs hrid hav) (Ne.symm hT)
    have h := hs.mapSub rid hrid pr hpr
    have hnn : 0 ≤ (st.providers ((st.subs pr.2).provider)).available := by
      rw [h.2.1]
      exact (hav pr.1 h.1).nonneg
    constructor
    · positivity
    · rw [div_le_one hT0]
      exact avail_le_totalAvailable hs hrid hav hpr

theorem NInv_makeRequests {st : AState} (hs : SInv st) {rid : Nat}
    (hav : ∀ pid ∈ st.providerIds, IsNatQ (st.providers pid).available)
    (hamt : ∀ r ∈ st.requestIds, IsNatQ (st.requests r).amount)
    (hnn : ∀ sid, 0 ≤ (st.subs sid).amount)
    (hle : ∀ r ∈ st.requestIds, r ≠ rid → ∀ pr ∈ (st.requests r).sub_requests,
      (st.subs pr.2).amount ≤ (st.requests r).amount)
    (hrid : rid ∈ st.requestIds) :
    NInv (makeRequests st rid) := by
  have hfr := makeRequests_frame st rid
  have hvnd := hs.valuesNodup hrid
  constructor
  · rw [hfr.1, hfr.2.2.1]; exact hav
  · rw [hfr.2.1, hfr.2.2.2.1]; exact hamt
  · intro s
    by_cases hm : s ∈ ((st.requests rid).sub_requests).map Prod.snd
    · simp only [List.mem_map] at hm
      obtain ⟨pr, hpr, rfl⟩ := hm
      rw [makeRequests_subs_amount hvnd (by rw [show (pr.1, pr.2) = pr from rfl]; exact hpr)]
      have hb := makeRequests_ratio_bounds hs hrid hav hpr
      have ha := (hamt rid hrid).nonneg
      exact mul_nonneg hb.1 ha
    · rw [makeRequests_subs_not_mem hm]
      exact hnn s
  · intro r hr pr hpr
    rw [hfr.2.1] at hr
    rw [hfr.2.2.2.1] at hpr ⊢
    by_cases hrq : r = rid
    · subst hrq
      rw [makeRequests_subs_amount hvnd (by rw [show (pr.1, pr.2) = pr from rfl]; exact hpr)]
      have hb := makeRequests_ratio_bounds hs hr hav hpr
      have ha := (hamt r hr).nonneg
      calc (if totalAvailable st r ≠ 0 then
            (st.providers ((st.subs pr.2).provider)).available / totalAvailable st r else 0) *
            (st.requests r).amount
          ≤ 1 * (st.requests r).amount := by
            apply mul_le_mul_of_nonneg_right hb.2 ha
        _ = (st.requests r).amount := one_mul _
    · have hne : pr.2 ∉ ((st.requests rid).sub_requests).map Prod.snd := by
        intro hmem
        simp only [List.mem_map] at hmem
        obtain ⟨pr', hpr', he⟩ := hmem
        have h1 := (hs.mapSub rid hrid pr' hpr').2.2.1
        have h2 := (hs.mapSub r hr pr hpr).2.2.1
        rw [he] at h1
        exact hrq (h2 ▸ h1.symm ▸ rfl)
      rw [makeRequests_subs_not_mem hne]
      exact hle r hr hrq pr hpr

theorem NInv_newProviderOp {st : AState} (hs : SInv st) (hn : NInv st) {pid : Nat}
    {a : ℚ} (haN : IsNatQ a) (hfresh : pid ∉ st.providerIds) :
    NInv (newProviderOp st pid a) := by
  have hputs : ∀ q, q ≠ pid →
      (newProviderOp st pid a).providers q = st.providers q := by
    intro q hq
    unfold newProviderOp
    exact Function.update_noteq hq _ _
  have hpid : (newProviderOp st pid a).providers pid = ⟨a, [], []⟩ := by
    unfold newProviderOp; simp
  constructor
  · intro q hq
    rw [show (newProviderOp st pid a).providerIds = st.providerIds ++ [pid] from rfl] at hq
    rcases List.mem_append.mp hq with h | h
    · rw [hputs q (fun he => hfresh (he ▸ h))]
      exact hn.availNat q h
    · simp only [List.mem_singleton] at h
      subst h
      rw [hpid]
      exact haN
  · exact hn.amtNat
  · exact hn.subNonneg
  · exact hn.subLe

theorem NInv_newRequestOp {st : AState} (hn : NInv st) {rid : Nat}
    {a : ℚ} (haN : IsNatQ a) (hfresh : rid ∉ st.requestIds) :
    NInv (newRequestOp st rid a) := by
  have hputs : ∀ r, r ≠ rid →
      (newRequestOp st rid a).requests r = st.requests r := by
    intro r hr
    unfold newRequestOp
    exact Function.update_noteq hr _ _
  have hrid : (newRequestOp st rid a).requests rid = ⟨a, [], []⟩ := by
    unfold newRequestOp; simp
  constructor
  · exact hn.availNat
  · intro r hr
    rw [show (newRequestOp st rid a).requestIds = st.requestIds ++ [rid] from rfl] at hr
    rcases List.mem_append.mp hr with h | h
    · rw [hputs r (fun he => hfresh (he ▸ h))]
      exact hn.amtNat r h
    · simp only [List.mem_singleton] at h
      subst h
      rw [hrid]
      exact haN
  · exact hn.subNonneg
  · intro r hr pr hpr
    rw [show (newRequestOp st rid a).requestIds = st.requestIds ++ [rid] from rfl] at hr
    rcases List.mem_append.mp hr with h | h
    · rw [hputs r (fun he => hfresh (he ▸ h))] at hpr ⊢
      exact hn.subLe r h pr hpr
    · simp only [List.mem_singleton] at h
      subst h
      rw [hrid] at hpr
      simp at hpr

theorem NInv_addTargetOp {st : AState} (hn : NInv st) (rid tid : Nat) (m c : ℚ) :
    NInv (addTargetOp st rid tid m c) := by
  have hputs : ∀ r, r ≠ rid →
      (addTargetOp st rid tid m c).requests r = st.requests r := by
    intro r hr
    unfold addTargetOp
    exact Function.update_noteq hr _ _
  have hrideq : ((addTargetOp st rid tid m c).requests rid).sub_requests =
      (st.requests rid).sub_requests ∧
      ((addTargetOp st rid tid m c).requests rid).amount = (st.requests rid).amount := by
    unfold addTargetOp; simp
  have hreq : ∀ r, ((addTargetOp st rid tid m c).requests r).sub_requests =
      (st.requests r).sub_requests ∧
      ((addTargetOp st rid tid m c).requests r).amount = (st.requests r).amount := by
    intro r
    by_cases hr : r = rid
    · subst hr; exact hrideq
    · rw [hputs r hr]; exact ⟨rfl, rfl⟩
  constructor
  · exact hn.availNat
  · intro r hr
    rw [(hreq r).2]
    exact hn.amtNat r hr
  · exact hn.subNonneg
  · intro r hr pr hpr
    rw [(hreq r).1] at hpr
    rw [(hreq r).2]
    exact hn.subLe r hr pr hpr

theorem NInv_addProviderOp {st : AState} (hs : SInv st) (hn : NInv st)
    {rid pid : Nat} (tid : Nat)
    (hrid : rid ∈ st.requestIds) (hpid : pid ∈ st.providerIds) :
    NInv (addProviderOp st rid pid tid) := by
  rcases hl : lookupA (st.requests rid).sub_requests pid with _ | sid
  · have hfresh : st.nextSub ∉ (st.providers pid).sub_requests :=
      fun hmem => Nat.lt_irrefl _ (hs.pendLt pid hpid _ hmem)
    rw [addProviderOp_eq_none hl hfresh]
    set mid := addProviderMidNew st rid pid tid with hmid
    have hsmid : SInv mid := SInv_addProviderMidNew hs tid hrid hpid hl
    have hprov_ne : ∀ q, q ≠ pid → mid.providers q = st.providers q := by
      intro q hq
      rw [hmid]; unfold addProviderMidNew
      exact Function.update_noteq hq _ _
    have hprov_pid : (mid.providers pid).available = (st.providers pid).available := by
      rw [hmid]; unfold addProviderMidNew; simp
    have hreq_ne : ∀ r, r ≠ rid → mid.requests r = st.requests r := by
      intro r hr
      rw [hmid]; unfold addProviderMidNew
      exact Function.update_noteq hr _ _
    have hreq_rid : (mid.requests rid).amount = (st.requests rid).amount ∧
        (mid.requests rid).sub_requests =
          (st.requests rid).sub_requests ++ [(pid, st.nextSub)] := by
      rw [hmid]; unfold addProviderMidNew
      constructor <;> simp
    have hsub_ne : ∀ s, s ≠ st.nextSub → mid.subs s = st.subs s := by
      intro s h
      rw [hmid]; unfold addProviderMidNew
      exact Function.update_noteq h _ _
    have hsub_new : (mid.subs st.nextSub).amount = 0 := by
      rw [hmid]; unfold addProviderMidNew
      simp
    have hids : mid.providerIds = st.providerIds ∧ mid.requestIds = st.requestIds := by
      rw [hmid]; unfold addProviderMidNew; exact ⟨rfl, rfl⟩
    apply NInv_makeRequests hsmid
    · rw [hids.1]
      intro q hq
      by_cases hqp : q = pid
      · subst hqp
        rw [hprov_pid]
        exact hn.availNat q hq
      · rw [hprov_ne q hqp]
        exact hn.availNat q hq
    · rw [hids.2]
      intro r hr
      by_cases hrq : r = rid
      · subst hrq
        rw [hreq_rid.1]
        exact hn.amtNat r hr
      · rw [hreq_ne r hrq]
        exact hn.amtNat r hr
    · intro s
      by_cases h : s = st.nextSub
      · subst h
        rw [hsub_new]
      · rw [hsub_ne s h]
        exact hn.subNonneg s
    · rw [hids.2]
      intro r hr hrq pr hpr
      rw [hreq_ne r hrq] at hpr ⊢
      have hne : pr.2 ≠ st.nextSub := by
        intro he
        have h := hs.mapSub r hr pr hpr
        exact Nat.lt_irrefl _ (he ▸ hs.pendLt pr.1 h.1 pr.2 h.2.2.2)
      rw [hsub_ne _ hne]
      exact hn.subLe r hr pr hpr
    · rw [hids.2]
      exact hrid
  · have hmem : (pid, sid) ∈ (st.requests rid).sub_requests := mem_of_lookupA hl
    have h := hs.mapSub rid hrid _ hmem
    rw [addProviderOp_eq_some hl h.2.2.2]
    set mid := addProviderMidOld st rid pid tid sid with hmid
    have hslt : sid < st.nextSub := hs.pendLt pid hpid sid h.2.2.2
    have hsmid : SInv mid := SInv_addProviderMidOld hs rid pid tid sid hslt
    have hfr : mid.providerIds = st.providerIds ∧ mid.requestIds = st.requestIds ∧
        mid.providers = st.providers ∧ mid.requests = st.requests := by
      rw [hmid]; unfold addProviderMidOld; exact ⟨rfl, rfl, rfl, rfl⟩
    have hsub_amt : ∀ s, (mid.subs s).amount = (st.subs s).amount := by
      intro s
      by_cases hss : s = sid
      · subst hss
        rw [hmid]; unfold addProviderMidOld
        simp
      · have : mid.subs s = st.subs s := by
          rw [hmid]; unfold addProviderMidOld
          exact Function.update_noteq hss _ _
        rw [this]
    apply NInv_makeRequests hsmid
    · rw [hfr.1, hfr.2.2.1]; exact hn.availNat
    · rw [hfr.2.1, hfr.2.2.2]; exact hn.amtNat
    · intro s
      rw [hsub_amt s]
      exact hn.subNonneg s
    · rw [hfr.2.1, hfr.2.2.2]
      intro r hr _ pr hpr
      rw [hsub_amt pr.2]
      exact hn.subLe r hr pr hpr
    · rw [hfr.2.1]; exact hrid

theorem NInv_makeAllocationsOp {st : AState} (hn : NInv st) (g : AllocationGrant) :
    NInv (makeAllocationsOp st g) := by
  have hfr := makeAllocationsOp_frame st g
  constructor
  · rw [hfr.1, hfr.2.2.1]; exact hn.availNat
  · rw [hfr.2.1, hfr.2.2.2.1]; exact hn.amtNat
  · rw [hfr.2.2.2.2.1]; exact hn.subNonneg
  · rw [hfr.2.1, hfr.2.2.2.1, hfr.2.2.2.2.1]; exact hn.subLe

theorem NInv_grant {st : AState} (hs : SInv st) (hn : NInv st) {sid : Nat} {a : ℚ}
    (hpid : (st.subs sid).provider ∈ st.providerIds)
    (hmem : sid ∈ (st.providers ((st.subs sid).provider)).sub_requests)
    (ha0 : 0 ≤ a) (haN : IsNatQ a)
    (haR : a ≤ (st.requests ((st.subs sid).request)).amount)
    (haA : a ≤ (st.providers ((st.subs sid).provider)).available) :
    NInv (grant st sid a) := by
  set pid := (st.subs sid).provider with hpid_def
  set rid := (st.subs sid).request with hrid_def
  have hslt : sid < st.nextSub := hs.pendLt pid hpid sid hmem
  have hrid : rid ∈ st.requestIds := (hs.subIds sid hslt).1
  have hsmid : SInv (grantMid st sid a) := SInv_grantMid hs a hpid hmem
  have hmid_ids : (grantMid st sid a).providerIds = st.providerIds ∧
      (grantMid st sid a).requestIds = st.requestIds := by
    exact ⟨(grantMid_frame st sid a).1, (grantMid_frame st sid a).2.1⟩
  have hnmid : NInv (makeRequests (grantMid st sid a) rid) := by
    apply NInv_makeRequests hsmid
    · rw [hmid_ids.1]
      intro q hq
      by_cases hqp : q = pid
      · subst hqp
        rw [show (grantMid st sid a).providers pid = _ from grantMid_providers_self st sid a]
        exact IsNatQ.sub (hn.availNat pid hpid) haN haA
      · rw [grantMid_providers_ne st sid a hqp]
        exact hn.availNat q hq
    · rw [hmid_ids.2]
      intro r hr
      by_cases hrq : r = rid
      · subst hrq
        rw [show (grantMid st sid a).requests rid = _ from grantMid_requests_self st sid a]
        exact IsNatQ.sub (hn.amtNat rid hrid) haN haR
      · rw [grantMid_requests_ne st sid a hrq]
        exact hn.amtNat r hr
    · intro s
      by_cases hss : s = sid
      · subst hss
        rw [grantMid_subs_self st s a]
        exact ha0
      · rw [grantMid_subs_ne st sid a hss]
        exact hn.subNonneg s
    · rw [hmid_ids.2]
      intro r hr hrq pr hpr
      rw [grantMid_requests_ne st sid a hrq] at hpr ⊢
      have hne : pr.2 ≠ sid := by
        intro he
        apply hrq
        rw [← (hs.mapSub r hr pr hpr).2.2.1, he]
      rw [grantMid_subs_ne st sid a hne]
      exact hn.subLe r hr pr hpr
    · rw [hmid_ids.2]
      exact hrid
  rw [grant_eq]
  by_cases h : 0 < a
  · rw [if_pos h]
    exact NInv_makeAllocationsOp hnmid _
  · rw [if_neg h]
    exact hnmid

/-- The tier total computed inside `makeGrants` is at least this
sub-request's own amount and non-negative. -/
theorem grantStepAmount_bounds {st : AState} (hs : SInv st) (hn : NInv st)
    {pid sid : Nat} (snapshot : List Nat)
    (hpid : pid ∈ st.providerIds)
    (hmem : sid ∈ (st.providers pid).sub_requests)
    (hsnap : sid ∈ snapshot) :
    0 ≤ grantStepAmount st pid snapshot sid ∧
    IsNatQ (grantStepAmount st pid snapshot sid) ∧
    grantStepAmount st pid snapshot sid ≤
      (st.requests ((st.subs sid).request)).amount ∧
    grantStepAmount st pid snapshot sid ≤ (st.providers pid).available := by
  have hp : (st.subs sid).provider = pid := (hs.pendSub pid hpid sid hmem).1
  have hslt : sid < st.nextSub := hs.pendLt pid hpid sid hmem
  have hrid : (st.subs sid).request ∈ st.requestIds := (hs.subIds sid hslt).1
  have hmap : (pid, sid) ∈ (st.requests ((st.subs sid).request)).sub_requests :=
    hs.pend_mem_map hpid hmem
  have hsuble : (st.subs sid).amount ≤ (st.requests ((st.subs sid).request)).amount :=
    hn.subLe _ hrid (pid, sid) hmap
  unfold grantStepAmount
  set tier := snapshot.filter (fun r => getPriority st r == getPriority st sid) with htier
  set total := ((tier.map (fun r => (st.subs r).amount)).sum : ℚ) with htotal
  have htier_mem : sid ∈ tier := by
    rw [htier]
    exact List.mem_filter.mpr ⟨hsnap, by simp⟩
  have htot_nonneg : 0 ≤ total := by
    rw [htotal]
    apply nonneg_listSum
    intro x hx
    simp only [List.mem_map] at hx
    obtain ⟨r, _, rfl⟩ := hx
    exact hn.subNonneg r
  have hown_le : (st.subs sid).amount ≤ total := by
    rw [htotal]
    apply List.single_le_sum
    · intro x hx
      simp only [List.mem_map] at hx
      obtain ⟨r, _, rfl⟩ := hx
      exact hn.subNonneg r
    · exact List.mem_map_of_mem _ htier_mem
  set ratio := (if total ≠ 0 then (st.subs sid).amount / total else 0) with hratio
  have hx_bounds : 0 ≤ (st.subs sid).amount * ratio ∧
      (st.subs sid).amount * ratio ≤ (st.subs sid).amount := by
    rw [hratio]
    by_cases hT : total = 0
    · rw [if_neg (not_not_intro hT)]
      constructor
      · simp
      · rw [mul_zero]
        exact hn.subNonneg sid
    · rw [if_pos hT]
      have hT0 : 0 < total := lt_of_le_of_ne htot_nonneg (Ne.symm hT)
      have hr0 : 0 ≤ (st.subs sid).amount / total :=
        div_nonneg (hn.subNonneg sid) htot_nonneg
      have hr1 : (st.subs sid).amount / total ≤ 1 := by
        rw [div_le_one hT0]
        exact hown_le
      constructor
      · exact mul_nonneg (hn.subNonneg sid) hr0
      · calc (st.subs sid).amount * ((st.subs sid).amount / total)
            ≤ (st.subs sid).amount * 1 :=
              mul_le_mul_of_nonneg_left hr1 (hn.subNonneg sid)
          _ = (st.subs sid).amount := mul_one _
  set g : ℤ := pyround ((st.subs sid).amount * ratio) with hg
  have hg0 : 0 ≤ g := pyround_nonneg hx_bounds.1
  have hgle : (g : ℚ) ≤ (st.requests ((st.subs sid).request)).amount := by
    have h1 : g ≤ pyround ((st.requests ((st.subs sid).request)).amount) :=
      pyround_mono (le_trans hx_bounds.2 hsuble)
    have h2 : (g : ℚ) ≤ (pyround ((st.requests ((st.subs sid).request)).amount) : ℚ) := by
      exact_mod_cast h1
    rwa [(hn.amtNat _ hrid).pyround_eq] at h2
  have hgQ0 : (0 : ℚ) ≤ (g : ℚ) := by exact_mod_cast hg0
  refine ⟨?_, ?_, ?_, ?_⟩
  · exact le_min hgQ0 (hn.availNat pid hpid).nonneg
  · exact IsNatQ.min (IsNatQ.intCast_of_nonneg hg0) (hn.availNat pid hpid)
  · exact le_trans (min_le_left _ _) hgle
  · exact min_le_right _ _

theorem makeGrantsLoop_SNInv (pid : Nat) (snapshot : List Nat) :
    ∀ (l : List Nat) (st : AState), SInv st → NInv st → pid ∈ st.providerIds →
      l.Nodup → (∀ s ∈ l, s ∈ (st.providers pid).sub_requests) →
      (∀ s ∈ l, s ∈ snapshot) →
      SInv (makeGrantsLoop pid snapshot st l) ∧ NInv (makeGrantsLoop pid snapshot st l) := by
  intro l
  induction l with
  | nil => intro st hs hn _ _ _ _; exact ⟨hs, hn⟩
  | cons sid rest ih =>
    intro st hs hn hpid hnd hsub hsnap
    have hmem : sid ∈ (st.providers pid).sub_requests := hsub sid (List.mem_cons_self _ _)
    have hp : (st.subs sid).provider = pid := (hs.pendSub pid hpid sid hmem).1
    rw [List.nodup_cons] at hnd
    simp only [makeGrantsLoop]
    set a := grantStepAmount st pid snapshot sid with ha
    have hb := grantStepAmount_bounds hs hn snapshot hpid hmem
      (hsnap sid (List.mem_cons_self _ _))
    have hs' : SInv (grant st sid a) :=
      SInv_grant hs a (hp ▸ hpid) (by rw [hp]; exact hmem)
    have hn' : NInv (grant st sid a) := by
      apply NInv_grant hs hn (hp ▸ hpid) (by rw [hp]; exact hmem) hb.1 hb.2.1 hb.2.2.1
      rw [hp]
      exact hb.2.2.2
    apply ih (grant st sid a) hs' hn'
    · rw [grant_providerIds]; exact hpid
    · exact hnd.2
    · intro s hsmem
      have hpend : ((grant st sid a).providers pid).sub_requests =
          ((st.providers pid).sub_requests).erase sid := by
        rw [← hp]
        exact grant_pending st sid a
      rw [hpend, (hs.pendNodup pid hpid).mem_erase_iff]
      exact ⟨fun he => hnd.1 (he ▸ hsmem), hsub s (List.mem_cons_of_mem _ hsmem)⟩
    · intro s hsmem
      exact hsnap s (List.mem_cons_of_mem _ hsmem)

theorem NInv_makeGrants {st : AState} (hs : SInv st) (hn : NInv st) {pid : Nat}
    (hpid : pid ∈ st.providerIds) : NInv (makeGrants st pid) := by
  unfold makeGrants
  refine (makeGrantsLoop_SNInv pid _ _ st hs hn hpid ?_ ?_ ?_).2
  · exact (sortByPriority_perm st _).nodup_iff.mpr (hs.pendNodup pid hpid)
  · intro s hsmem
    exact (sortByPriority_perm st _).mem_iff.mp hsmem
  · intro s hsmem
    exact hsmem

theorem NInv_initState : NInv initState := by
  constructor <;> simp [initState, defaultSubRequest]

theorem NInv_applyOp {st : AState} (hs : SInv st) (hn : NInv st) {op : Op}
    (hv : validOpB st op = true) (hnat : natOpB op = true) : NInv (applyOp st op) := by
  cases op with
  | newProvider pid a =>
    simp only [validOpB, Bool.not_eq_true'] at hv
    simp only [natOpB, decide_eq_true_eq] at hnat
    exact NInv_newProviderOp hs hn hnat (by simpa using hv)
  | newRequest rid a =>
    simp only [validOpB, Bool.not_eq_true'] at hv
    simp only [natOpB, decide_eq_true_eq] at hnat
    exact NInv_newRequestOp hn hnat (by simpa using hv)
  | addTarget rid tid m c =>
    exact NInv_addTargetOp hn rid tid m c
  | addProvider rid pid tid =>
    simp only [validOpB, Bool.and_eq_true] at hv
    exact NInv_addProviderOp hs hn tid (by simpa using hv.1.1) (by simpa using hv.1.2)
  | makeGrants pid =>
    simp only [validOpB] at hv
    exact NInv_makeGrants hs hn (by simpa using hv)

theorem SNInv_runFrom {st : AState} (hs : SInv st) (hn : NInv st) : ∀ (ops : List Op),
    validTraceB st ops = true → (∀ op ∈ ops, natOpB op = true) →
    SInv (runFrom st ops) ∧ NInv (runFrom st ops) := by
  intro ops
  induction ops generalizing st with
  | nil => intro _ _; exact ⟨hs, hn⟩
  | cons op t ih =>
    intro hv hnat
    simp only [validTraceB, Bool.and_eq_true] at hv
    exact ih (SInv_applyOp hs hv.1)
      (NInv_applyOp hs hn hv.1 (hnat op (List.mem_cons_self _ _))) hv.2
      (fun o ho => hnat o (List.mem_cons_of_mem _ ho))

theorem NInv_runOps {ops : List Op} (hv : validTraceB initState ops = true)
    (hnat : ∀ op ∈ ops, natOpB op = true) : NInv (runOps ops) :=
  (SNInv_runFrom SInv_initState NInv_initState ops hv hnat).2

/-!
## Conservation accounting

For every request, the sum of grant amounts filed against it plus its
remaining amount is invariant under every operation; for every provider,
the sum of its grant amounts plus its availability is invariant.
-/

theorem sum_map_congr {ids : List Nat} {f f' : Nat → ℚ}
    (h : ∀ q ∈ ids, f' q = f q) : (ids.map f').sum = (ids.map f).sum := by
  induction ids with
  | nil => rfl
  | cons x xs ih =>
    simp only [List.map_cons, List.sum_cons]
    rw [h x (List.mem_cons_self _ _), ih (fun q hq => h q (List.mem_cons_of_mem _ hq))]

theorem sum_map_update {ids : List Nat} (hnd : ids.Nodup) {f f' : Nat → ℚ} {k : Nat}
    (hk : k ∈ ids) (hagree : ∀ q ∈ ids, q ≠ k → f' q = f q) :
    (ids.map f').sum = (ids.map f).sum - f k + f' k := by
  induction ids with
  | nil => simp at hk
  | cons h t ih =>
    rw [List.nodup_cons] at hnd
    rcases List.mem_cons.mp hk with rfl | hkt
    · have ht : (t.map f').sum = (t.map f).sum :=
        sum_map_congr (fun q hq =>
          hagree q (List.mem_cons_of_mem _ hq) (fun he => hnd.1 (he ▸ hq)))
      simp only [List.map_cons, List.sum_cons]
      rw [ht]
      ring
    · have hhk : h ≠ k := fun he => hnd.1 (he ▸ hkt)
      simp only [List.map_cons, List.sum_cons]
      rw [hagree h (List.mem_cons_self _ _) hhk,
        ih hnd.2 hkt (fun q hq hne => hagree q (List.mem_cons_of_mem _ hq) hne)]
      ring

theorem grantSumR_eq (st : AState) (rid : Nat) :
    grantSumR st rid = (st.providerIds.map (provReqSum st rid)).sum := rfl

/-- In a state where no grant names `rid`, the sum is `0`. -/
theorem grantSumR_eq_zero {st : AState} (hs : SInv st) {rid : Nat}
    (hr : rid ∉ st.requestIds) : grantSumR st rid = 0 := by
  rw [grantSumR_eq]
  apply List.sum_eq_zero
  intro x hx
  simp only [List.mem_map] at hx
  obtain ⟨pid, hpid, rfl⟩ := hx
  unfold provReqSum
  apply List.sum_eq_zero
  intro y hy
  simp only [List.mem_map, List.mem_filter] at hy
  obtain ⟨g, ⟨hg, hgr⟩, rfl⟩ := hy
  exfalso
  have := (hs.grantsReq pid hpid g hg).1
  have hgr' : g.request = rid := by simpa using hgr
  exact hr (hgr' ▸ this)

/-- One `grant` call conserves both accounting quantities. -/
theorem grant_cons {st : AState} (hs : SInv st) {sid : Nat} {a : ℚ}
    (hpid : (st.subs sid).provider ∈ st.providerIds)
    (hmem : sid ∈ (st.providers ((st.subs sid).provider)).sub_requests)
    (ha : 0 ≤ a) :
    (∀ rid ∈ st.requestIds,
      grantSumR (grant st sid a) rid + ((grant st sid a).requests rid).amount =
        grantSumR st rid + (st.requests rid).amount) ∧
    (∀ q ∈ st.providerIds,
      grantSumP (grant st sid a) q + ((grant st sid a).providers q).available =
        grantSumP st q + (st.providers q).available) := by
  set spid := (st.subs sid).provider with hspid
  set srid := (st.subs sid).request with hsrid
  have hslt : sid < st.nextSub := hs.pendLt spid hpid sid hmem
  have hsr : srid ∈ st.requestIds := (hs.subIds sid hslt).1
  have hprov := grant_providers st sid a
  have hreqs := grant_requests st sid a
  have hids : (grant st sid a).providerIds = st.providerIds := grant_providerIds st sid a
  have hprov_self := grantMid_providers_self st sid a
  have hextra : ∀ rid : Nat,
      (((grantMid st sid a).providers spid).grants.filter
        (fun g => g.request == rid)).map AllocationGrant.amount =
      ((st.providers spid).grants.filter (fun g => g.request == rid)).map
        AllocationGrant.amount ++
      (if 0 < a then
        (if srid = rid then [a] else [])
       else []) := by
    intro rid
    rw [hprov_self]
    show ((((st.providers spid).grants ++ _).filter _).map _) = _
    rw [List.filter_append, List.map_append]
    congr 1
    by_cases hpos : 0 < a
    · rw [if_pos hpos, if_pos hpos]
      by_cases hr : srid = rid
      · rw [if_pos hr]
        simp only [List.filter_cons]
        rw [if_pos (by simpa using hr)]
        simp
      · rw [if_neg hr]
        simp only [List.filter_cons]
        rw [if_neg (by simpa using hr)]
        simp
    · rw [if_neg hpos, if_neg hpos]
      simp
  constructor
  · intro rid hrid
    have hagree : ∀ q ∈ st.providerIds, q ≠ spid →
        provReqSum (grant st sid a) rid q = provReqSum st rid q := by
      intro q _ hq
      unfold provReqSum
      rw [hprov, grantMid_providers_ne st sid a hq]
    rw [grantSumR_eq, grantSumR_eq, hids]
    rw [sum_map_update hs.pNodup hpid hagree]
    have hself : provReqSum (grant st sid a) rid spid =
        provReqSum st rid spid + (if 0 < a then (if srid = rid then a else 0) else 0) := by
      unfold provReqSum
      rw [hprov, hextra rid, List.sum_append]
      congr 1
      by_cases hpos : 0 < a
      · rw [if_pos hpos, if_pos hpos]
        by_cases hr : srid = rid
        · rw [if_pos hr, if_pos hr]; simp
        · rw [if_neg hr, if_neg hr]; simp
      · rw [if_neg hpos, if_neg hpos]; simp
    rw [hself]
    have hamt : ((grant st sid a).requests rid).amount =
        (st.requests rid).amount - (if srid = rid then a else 0) := by
      rw [hreqs]
      by_cases hr : srid = rid
      · rw [if_pos hr]
        rw [← hr, grantMid_requests_self st sid a]
      · rw [if_neg hr]
        rw [grantMid_requests_ne st sid a (fun he => hr he.symm)]
        simp
    rw [hamt]
    by_cases hpos : 0 < a
    · rw [if_pos hpos]
      by_cases hr : srid = rid
      · rw [if_pos hr]; ring
      · rw [if_neg hr]; ring
    · have ha0 : a = 0 := le_antisymm (not_lt.mp hpos) ha
      rw [if_neg hpos]
      subst ha0
      by_cases hr : srid = rid
      · rw [if_pos hr]; ring
      · rw [if_neg hr]; ring
  · intro q hq
    by_cases hqp : q = spid
    · subst hqp
      unfold grantSumP
      rw [hprov, hprov_self]
      show ((((st.providers spid).grants ++ _).map _).sum) + _ = _
      rw [List.map_append, List.sum_append]
      by_cases hpos : 0 < a
      · rw [if_pos hpos]
        simp only [List.map_cons, List.map_nil, List.sum_cons, List.sum_nil]
        ring
      · have ha0 : a = 0 := le_antisymm (not_lt.mp hpos) ha
        rw [if_neg hpos]
        subst ha0
        simp
    · unfold grantSumP
      rw [hprov, grantMid_providers_ne st sid a hqp]

theorem grantSumR_congr {st st' : AState}
    (h1 : st'.providerIds = st.providerIds)
    (h2 : ∀ q ∈ st.providerIds, (st'.providers q).grants = (st.providers q).grants)
    (rid : Nat) : grantSumR st' rid = grantSumR st rid := by
  rw [grantSumR_eq, grantSumR_eq, h1]
  exact sum_map_congr (fun q hq => by unfold provReqSum; rw [h2 q hq])

/-- Conservation along the `makeGrants` loop. -/
theorem makeGrantsLoop_cons (pid : Nat) (snapshot : List Nat) :
    ∀ (l : List Nat) (st : AState), SInv st → NInv st → pid ∈ st.providerIds →
      l.Nodup → (∀ s ∈ l, s ∈ (st.providers pid).sub_requests) →
      (∀ s ∈ l, s ∈ snapshot) →
      (∀ rid ∈ st.requestIds,
        grantSumR (makeGrantsLoop pid snapshot st l) rid +
          ((makeGrantsLoop pid snapshot st l).requests rid).amount =
        grantSumR st rid + (st.requests rid).amount) ∧
      (∀ q ∈ st.providerIds,
        grantSumP (makeGrantsLoop pid snapshot st l) q +
          ((makeGrantsLoop pid snapshot st l).providers q).available =
        grantSumP st q + (st.providers q).available) := by
  intro l
  induction l with
  | nil => intro st _ _ _ _ _ _; exact ⟨fun _ _ => rfl, fun _ _ => rfl⟩
  | cons sid rest ih =>
    intro st hs hn hpid hnd hsub hsnap
    have hmem : sid ∈ (st.providers pid).sub_requests := hsub sid (List.mem_cons_self _ _)
    have hp : (st.subs sid).provider = pid := (hs.pendSub pid hpid sid hmem).1
    rw [List.nodup_cons] at hnd
    simp only [makeGrantsLoop]
    set a := grantStepAmount st pid snapshot sid with ha
    have hb := grantStepAmount_bounds hs hn snapshot hpid hmem
      (hsnap sid (List.mem_cons_self _ _))
    have hs' : SInv (grant st sid a) :=
      SInv_grant hs a (hp ▸ hpid) (by rw [hp]; exact hmem)
    have hn' : NInv (grant st sid a) := by
      apply NInv_grant hs hn (hp ▸ hpid) (by rw [hp]; exact hmem) hb.1 hb.2.1 hb.2.2.1
      rw [hp]
      exact hb.2.2.2
    have hstep := grant_cons hs (hp ▸ hpid) (by rw [hp]; exact hmem) hb.1
    have hrec := ih (grant st sid a) hs' hn'
      (by rw [grant_providerIds]; exact hpid)
      hnd.2
      (by
        intro s hsmem
        have hpend : ((grant st sid a).providers pid).sub_requests =
            ((st.providers pid).sub_requests).erase sid := by
          rw [← hp]
          exact grant_pending st sid a
        rw [hpend, (hs.pendNodup pid hpid).mem_erase_iff]
        exact ⟨fun he => hnd.1 (he ▸ hsmem), hsub s (List.mem_cons_of_mem _ hsmem)⟩)
      (fun s hsmem => hsnap s (List.mem_cons_of_mem _ hsmem))
    constructor
    · intro rid hrid
      have hrid' : rid ∈ (grant st sid a).requestIds := by
        rw [grant_requestIds]; exact hrid
      rw [hrec.1 rid hrid', hstep.1 rid hrid]
    · intro q hq
      have hq' : q ∈ (grant st sid a).providerIds := by
        rw [grant_providerIds]; exact hq
      rw [hrec.2 q hq', hstep.2 q hq]

theorem makeGrants_cons {st : AState} (hs : SInv st) (hn : NInv st) {pid : Nat}
    (hpid : pid ∈ st.providerIds) :
    (∀ rid ∈ st.requestIds,
      grantSumR (makeGrants st pid) rid + ((makeGrants st pid).requests rid).amount =
        grantSumR st rid + (st.requests rid).amount) ∧
    (∀ q ∈ st.providerIds,
      grantSumP (makeGrants st pid) q + ((makeGrants st pid).providers q).available =
        grantSumP st q + (st.providers q).available) := by
  unfold makeGrants
  refine makeGrantsLoop_cons pid _ _ st hs hn hpid ?_ ?_ ?_
  · exact (sortByPriority_perm st _).nodup_iff.mpr (hs.pendNodup pid hpid)
  · intro s hsmem
    exact (sortByPriority_perm st _).mem_iff.mp hsmem
  · intro s hsmem
    exact hsmem

/-- Conservation under one valid operation with natural inputs. -/
theorem applyOp_cons {st : AState} {op : Op} (hs : SInv st) (hn : NInv st)
    (hv : validOpB st op = true) (hnat : natOpB op = true) :
    (∀ rid ∈ st.requestIds,
      grantSumR (applyOp st op) rid + ((applyOp st op).requests rid).amount =
        grantSumR st rid + (st.requests rid).amount) ∧
    (∀ q ∈ st.providerIds,
      grantSumP (applyOp st op) q + ((applyOp st op).providers q).available =
        grantSumP st q + (st.providers q).available) := by
  cases op with
  | newProvider pid a =>
    simp only [validOpB, Bool.not_eq_true'] at hv
    have hfresh : pid ∉ st.providerIds := by simpa using hv
    constructor
    · intro rid _
      show grantSumR (newProviderOp st pid a) rid +
          ((newProviderOp st pid a).requests rid).amount = _
      have hreq : (newProviderOp st pid a).requests rid = st.requests rid := rfl
      rw [hreq]
      congr 1
      rw [grantSumR_eq, grantSumR_eq]
      show ((st.providerIds ++ [pid]).map _).sum = _
      rw [List.map_append, List.sum_append]
      have h1 : (st.providerIds.map (provReqSum (newProviderOp st pid a) rid)).sum =
          (st.providerIds.map (provReqSum st rid)).sum := by
        apply sum_map_congr
        intro q hq
        unfold provReqSum
        show ((((Function.update st.providers pid ⟨a, [], []⟩) q).grants.filter _).map _).sum = _
        rw [Function.update_noteq (show q ≠ pid from fun he => hfresh (he ▸ hq)) _ _]
      have h2 : ([pid].map (provReqSum (newProviderOp st pid a) rid)).sum = 0 := by
        simp only [List.map_cons, List.map_nil, List.sum_cons, List.sum_nil]
        unfold provReqSum
        show ((((Function.update st.providers pid ⟨a, [], []⟩) pid).grants.filter _).map _).sum + 0 = 0
        rw [Function.update_same]
        simp
      rw [h1, h2, add_zero]
    · intro q hq
      show grantSumP (newProviderOp st pid a) q +
          ((newProviderOp st pid a).providers q).available = _
      have hprov : (newProviderOp st pid a).providers q = st.providers q := by
        show Function.update st.providers pid ⟨a, [], []⟩ q = _
        exact Function.update_noteq (show q ≠ pid from fun he => hfresh (he ▸ hq)) _ _
      unfold grantSumP
      rw [hprov]
  | newRequest rid' a =>
    simp only [validOpB, Bool.not_eq_true'] at hv
    have hfresh : rid' ∉ st.requestIds := by simpa using hv
    constructor
    · intro rid hrid
      show grantSumR (newRequestOp st rid' a) rid +
          ((newRequestOp st rid' a).requests rid).amount = _
      have hreq : (newRequestOp st rid' a).requests rid = st.requests rid := by
        show Function.update st.requests rid' _ rid = _
        exact Function.update_noteq (show rid ≠ rid' from fun he => hfresh (he ▸ hrid)) _ _
      rw [hreq]
      exact congrArg (fun z => z + (st.requests rid).amount)
        (grantSumR_congr rfl (fun q _ => rfl) rid)
    · intro q _
      rfl
  | addTarget rid' tid m c =>
    constructor
    · intro rid hrid
      show grantSumR (addTargetOp st rid' tid m c) rid +
          ((addTargetOp st rid' tid m c).requests rid).amount = _
      have hreq : ((addTargetOp st rid' tid m c).requests rid).amount =
          (st.requests rid).amount := by
        show (Function.update st.requests rid' _ rid).amount = _
        by_cases h : rid = rid'
        · subst h; rw [Function.update_same]
        · rw [Function.update_noteq h _ _]
      rw [hreq]
      exact congrArg (fun z => z + (st.requests rid).amount)
        (grantSumR_congr rfl (fun q _ => rfl) rid)
    · intro q _
      rfl
  | addProvider rid' pid tid =>
    simp only [validOpB, Bool.and_eq_true] at hv
    have hrid' : rid' ∈ st.requestIds := by simpa using hv.1.1
    have hpid : pid ∈ st.providerIds := by simpa using hv.1.2
    show (∀ rid ∈ st.requestIds,
        grantSumR (addProviderOp st rid' pid tid) rid +
          ((addProviderOp st rid' pid tid).requests rid).amount =
        grantSumR st rid + (st.requests rid).amount) ∧
      (∀ q ∈ st.providerIds,
        grantSumP (addProviderOp st rid' pid tid) q +
          ((addProviderOp st rid' pid tid).providers q).available =
        grantSumP st q + (st.providers q).available)
    rcases hl : lookupA (st.requests rid').sub_requests pid with _ | sid
    · have hfresh : st.nextSub ∉ (st.providers pid).sub_requests :=
        fun hmem => Nat.lt_irrefl _ (hs.pendLt pid hpid _ hmem)
      rw [addProviderOp_eq_none hl hfresh]
      have hfr := makeRequests_frame (addProviderMidNew st rid' pid tid) rid'
      set mid := addProviderMidNew st rid' pid tid with hmid
      have hmids : mid.providerIds = st.providerIds ∧ mid.requestIds = st.requestIds := by
        rw [hmid]; unfold addProviderMidNew; exact ⟨rfl, rfl⟩
      have hmp : mid.providers = Function.update st.providers pid
          ({ st.providers pid with
             sub_requests := (st.providers pid).sub_requests ++ [st.nextSub] }) := by
        rw [hmid]; unfold addProviderMidNew; rfl
      have hmr : mid.requests = Function.update st.requests rid'
          ({ st.requests rid' with
             sub_requests := (st.requests rid').sub_requests ++ [(pid, st.nextSub)] }) := by
        rw [hmid]; unfold addProviderMidNew; rfl
      have hmidg : ∀ q, (mid.providers q).grants = (st.providers q).grants ∧
          (mid.providers q).available = (st.providers q).available := by
        intro q
        rw [hmp]
        by_cases h : q = pid
        · subst h; rw [Function.update_same]; exact ⟨rfl, rfl⟩
        · rw [Function.update_noteq h _ _]; exact ⟨rfl, rfl⟩
      have hmida : ∀ rid, (mid.requests rid).amount = (st.requests rid).amount := by
        intro rid
        rw [hmr]
        by_cases h : rid = rid'
        · subst h; rw [Function.update_same]
        · rw [Function.update_noteq h _ _]
      constructor
      · intro rid hrid
        congr 1
        · rw [grantSumR_congr (hfr.1.trans hmids.1)
            (fun q _ => by rw [hfr.2.2.1]; exact (hmidg q).1) rid]
        · rw [hfr.2.2.2.1, hmida rid]
      · intro q hq
        unfold grantSumP
        rw [hfr.2.2.1, (hmidg q).1, (hmidg q).2]
    · have hmemmap : (pid, sid) ∈ (st.requests rid').sub_requests := mem_of_lookupA hl
      have h := hs.mapSub rid' hrid' _ hmemmap
      rw [addProviderOp_eq_some hl h.2.2.2]
      have hfr := makeRequests_frame (addProviderMidOld st rid' pid tid sid) rid'
      have hmidp : (addProviderMidOld st rid' pid tid sid).providers = st.providers := by
        unfold addProviderMidOld; rfl
      have hmidr : (addProviderMidOld st rid' pid tid sid).requests = st.requests := by
        unfold addProviderMidOld; rfl
      have hmidi : (addProviderMidOld st rid' pid tid sid).providerIds = st.providerIds := by
        unfold addProviderMidOld; rfl
      constructor
      · intro rid hrid
        congr 1
        · rw [grantSumR_congr (hfr.1.trans hmidi)
            (fun q _ => by rw [hfr.2.2.1, hmidp]) rid]
        · rw [hfr.2.2.2.1, hmidr]
      · intro q hq
        unfold grantSumP
        rw [hfr.2.2.1, hmidp]
  | makeGrants pid =>
    simp only [validOpB] at hv
    exact makeGrants_cons hs hn (by simpa using hv)

theorem makeGrantsLoop_ids (pid : Nat) (snapshot : List Nat) :
    ∀ (l : List Nat) (st : AState),
      (makeGrantsLoop pid snapshot st l).providerIds = st.providerIds ∧
      (makeGrantsLoop pid snapshot st l).requestIds = st.requestIds := by
  intro l
  induction l with
  | nil => intro st; exact ⟨rfl, rfl⟩
  | cons sid rest ih =>
    intro st
    simp only [makeGrantsLoop]
    have hrec := ih (grant st sid (grantStepAmount st pid snapshot sid))
    exact ⟨hrec.1.trans (grant_providerIds _ _ _),
      hrec.2.trans (grant_requestIds _ _ _)⟩

/-- Every valid operation only appends to the id lists. -/
theorem applyOp_ids {st : AState} {op : Op} (hs : SInv st)
    (hv : validOpB st op = true) :
    st.providerIds ⊆ (applyOp st op).providerIds ∧
    st.requestIds ⊆ (applyOp st op).requestIds := by
  cases op with
  | newProvider pid a =>
    exact ⟨fun x hx => List.mem_append_left _ hx, fun x hx => hx⟩
  | newRequest rid a =>
    exact ⟨fun x hx => hx, fun x hx => List.mem_append_left _ hx⟩
  | addTarget rid tid m c =>
    exact ⟨fun x hx => hx, fun x hx => hx⟩
  | addProvider rid' pid tid =>
    simp only [validOpB, Bool.and_eq_true] at hv
    have hrid' : rid' ∈ st.requestIds := by simpa using hv.1.1
    have hpid : pid ∈ st.providerIds := by simpa using hv.1.2
    show st.providerIds ⊆ (addProviderOp st rid' pid tid).providerIds ∧
      st.requestIds ⊆ (addProviderOp st rid' pid tid).requestIds
    rcases hl : lookupA (st.requests rid').sub_requests pid with _ | sid
    · have hfresh : st.nextSub ∉ (st.providers pid).sub_requests :=
        fun hmem => Nat.lt_irrefl _ (hs.pendLt pid hpid _ hmem)
      rw [addProviderOp_eq_none hl hfresh]
      have hfr := makeRequests_frame (addProviderMidNew st rid' pid tid) rid'
      have h1 : (addProviderMidNew st rid' pid tid).providerIds = st.providerIds := by
        unfold addProviderMidNew; rfl
      have h2 : (addProviderMidNew st rid' pid tid).requestIds = st.requestIds := by
        unfold addProviderMidNew; rfl
      rw [hfr.1, hfr.2.1, h1, h2]
      exact ⟨fun x hx => hx, fun x hx => hx⟩
    · have hmemmap : (pid, sid) ∈ (st.requests rid').sub_requests := mem_of_lookupA hl
      have h := hs.mapSub rid' hrid' _ hmemmap
      rw [addProviderOp_eq_some hl h.2.2.2]
      have hfr := makeRequests_frame (addProviderMidOld st rid' pid tid sid) rid'
      have h1 : (addProviderMidOld st rid' pid tid sid).providerIds = st.providerIds := by
        unfold addProviderMidOld; rfl
      have h2 : (addProviderMidOld st rid' pid tid sid).requestIds = st.requestIds := by
        unfold addProviderMidOld; rfl
      rw [hfr.1, hfr.2.1, h1, h2]
      exact ⟨fun x hx => hx, fun x hx => hx⟩
  | makeGrants pid =>
    have h := makeGrantsLoop_ids pid (sortByPriority st ((st.providers pid).sub_requests))
      (sortByPriority st ((st.providers pid).sub_requests)) st
    show st.providerIds ⊆ (makeGrants st pid).providerIds ∧
      st.requestIds ⊆ (makeGrants st pid).requestIds
    unfold makeGrants
    rw [h.1, h.2]
    exact ⟨fun x hx => hx, fun x hx => hx⟩

theorem runFrom_append (st : AState) (l₁ l₂ : List Op) :
    runFrom st (l₁ ++ l₂) = runFrom (runFrom st l₁) l₂ :=
  List.foldl_append _ _ _ _

theorem validTraceB_append (l₁ : List Op) : ∀ (st : AState) (l₂ : List Op),
    validTraceB st (l₁ ++ l₂) =
      (validTraceB st l₁ && validTraceB (runFrom st l₁) l₂) := by
  induction l₁ with
  | nil => intro st l₂; simp [validTraceB, runFrom]
  | cons op t ih =>
    intro st l₂
    show (validOpB st op && validTraceB (applyOp st op) (t ++ l₂)) = _
    rw [ih (applyOp st op) l₂]
    show _ = ((validOpB st op && validTraceB (applyOp st op) t) && _)
    have : runFrom st (op :: t) = runFrom (applyOp st op) t := rfl
    rw [this, Bool.and_assoc]

/-- Conservation along any valid trace with natural inputs. -/
theorem runFrom_cons {st : AState} (hs : SInv st) (hn : NInv st) : ∀ (ops : List Op),
    validTraceB st ops = true → (∀ op ∈ ops, natOpB op = true) →
    (∀ rid ∈ st.requestIds,
      grantSumR (runFrom st ops) rid + ((runFrom st ops).requests rid).amount =
        grantSumR st rid + (st.requests rid).amount) ∧
    (∀ q ∈ st.providerIds,
      grantSumP (runFrom st ops) q + ((runFrom st ops).providers q).available =
        grantSumP st q + (st.providers q).available) := by
  intro ops
  induction ops generalizing st with
  | nil => intro _ _; exact ⟨fun _ _ => rfl, fun _ _ => rfl⟩
  | cons op t ih =>
    intro hv hnat
    simp only [validTraceB, Bool.and_eq_true] at hv
    have hstep := applyOp_cons hs hn hv.1 (hnat op (List.mem_cons_self _ _))
    have hmono := applyOp_ids hs hv.1
    have hrec := ih (SInv_applyOp hs hv.1)
      (NInv_applyOp hs hn hv.1 (hnat op (List.mem_cons_self _ _))) hv.2
      (fun o ho => hnat o (List.mem_cons_of_mem _ ho))
    have hr : runFrom st (op :: t) = runFrom (applyOp st op) t := rfl
    constructor
    · intro rid hrid
      rw [hr, hrec.1 rid (hmono.2 hrid), hstep.1 rid hrid]
    · intro q hq
      rw [hr, hrec.2 q (hmono.1 hq), hstep.2 q hq]

theorem grant_available_self (st : AState) (sid : Nat) (a : ℚ) :
    ((grant st sid a).providers ((st.subs sid).provider)).available =
      (st.providers ((st.subs sid).provider)).available - a := by
  rw [grant_providers, grantMid_providers_self]

theorem grant_available_ne (st : AState) (sid : Nat) (a : ℚ) {q : Nat}
    (hq : q ≠ (st.subs sid).provider) :
    ((grant st sid a).providers q).available = (st.providers q).available := by
  rw [grant_providers, grantMid_providers_ne st sid a hq]

theorem AvailNonneg_grant {st : AState} {sid : Nat} {a : ℚ}
    (ha : a ≤ (st.providers ((st.subs sid).provider)).available)
    (h : AvailNonneg st) : AvailNonneg (grant st sid a) := by
  intro q hq
  rw [grant_providerIds] at hq
  by_cases hqp : q = (st.subs sid).provider
  · subst hqp
    rw [grant_available_self]
    linarith
  · rw [grant_available_ne st sid a hqp]
    exact h q hq

theorem grantStepAmount_le_available (st : AState) (pid : Nat)
    (snapshot : List Nat) (sid : Nat) :
    grantStepAmount st pid snapshot sid ≤ (st.providers pid).available :=
  min_le_right _ _

theorem makeGrantsLoop_avail (pid : Nat) (snapshot : List Nat) :
    ∀ (l : List Nat) (st : AState), SInv st → pid ∈ st.providerIds →
      l.Nodup → (∀ s ∈ l, s ∈ (st.providers pid).sub_requests) →
      AvailNonneg st → AvailNonneg (makeGrantsLoop pid snapshot st l) := by
  intro l
  induction l with
  | nil => intro st _ _ _ _ h; exact h
  | cons sid rest ih =>
    intro st hs hpid hnd hsub h
    have hmem : sid ∈ (st.providers pid).sub_requests := hsub sid (List.mem_cons_self _ _)
    have hp : (st.subs sid).provider = pid := (hs.pendSub pid hpid sid hmem).1
    rw [List.nodup_cons] at hnd
    simp only [makeGrantsLoop]
    set a := grantStepAmount st pid snapshot sid with ha
    have hle : a ≤ (st.providers ((st.subs sid).provider)).available := by
      rw [hp]; exact grantStepAmount_le_available st pid snapshot sid
    have hs' : SInv (grant st sid a) := SInv_grant hs a (hp ▸ hpid) (by rw [hp]; exact hmem)
    apply ih (grant st sid a) hs'
    · rw [grant_providerIds]; exact hpid
    · exact hnd.2
    · intro s hsmem
      have hpend : ((grant st sid a).providers pid).sub_requests =
          ((st.providers pid).sub_requests).erase sid := by
        rw [← hp]
        exact grant_pending st sid a
      rw [hpend, (hs.pendNodup pid hpid).mem_erase_iff]
      exact ⟨fun he => hnd.1 (he ▸ hsmem), hsub s (List.mem_cons_of_mem _ hsmem)⟩
    · exact AvailNonneg_grant hle h

theorem AvailNonneg_applyOp {st : AState} {op : Op} (hs : SInv st)
    (hv : validOpB st op = true) (hnn : nonnegOpB op = true)
    (h : AvailNonneg st) : AvailNonneg (applyOp st op) := by
  cases op with
  | newProvider pid a =>
    simp only [nonnegOpB, decide_eq_true_eq] at hnn
    intro q hq
    show 0 ≤ ((Function.update st.providers pid ⟨a, [], []⟩) q).available
    by_cases hqp : q = pid
    · subst hqp; rw [Function.update_same]; exact hnn
    · rw [Function.update_noteq hqp _ _]
      have hq' : q ∈ st.providerIds := by
        rcases List.mem_append.mp hq with h1 | h1
        · exact h1
        · exact absurd (List.mem_singleton.mp h1) hqp
      exact h q hq'
  | newRequest rid a =>
    intro q hq
    exact h q hq
  | addTarget rid tid m c =>
    intro q hq
    exact h q hq
  | addProvider rid' pid tid =>
    simp only [validOpB, Bool.and_eq_true] at hv
    have hrid' : rid' ∈ st.requestIds := by simpa using hv.1.1
    have hpid : pid ∈ st.providerIds := by simpa using hv.1.2
    show AvailNonneg (addProviderOp st rid' pid tid)
    rcases hl : lookupA (st.requests rid').sub_requests pid with _ | sid
    · have hfresh : st.nextSub ∉ (st.providers pid).sub_requests :=
        fun hmem => Nat.lt_irrefl _ (hs.pendLt pid hpid _ hmem)
      rw [addProviderOp_eq_none hl hfresh]
      have hfr := makeRequests_frame (addProviderMidNew st rid' pid tid) rid'
      have hmp : (addProviderMidNew st rid' pid tid).providers = Function.update st.providers pid
          ({ st.providers pid with
             sub_requests := (st.providers pid).sub_requests ++ [st.nextSub] }) := by
        unfold addProviderMidNew; rfl
      have hmi : (addProviderMidNew st rid' pid tid).providerIds = st.providerIds := by
        unfold addProviderMidNew; rfl
      intro q hq
      rw [hfr.1, hmi] at hq
      rw [hfr.2.2.1, hmp]
      by_cases hqp : q = pid
      · subst hqp; rw [Function.update_same]; exact h q hq
      · rw [Function.update_noteq hqp _ _]; exact h q hq
    · have hmemmap : (pid, sid) ∈ (st.requests rid').sub_requests := mem_of_lookupA hl
      have h2 := hs.mapSub rid' hrid' _ hmemmap
      rw [addProviderOp_eq_some hl h2.2.2.2]
      have hfr := makeRequests_frame (addProviderMidOld st rid' pid tid sid) rid'
      have hmp : (addProviderMidOld st rid' pid tid sid).providers = st.providers := by
        unfold addProviderMidOld; rfl
      have hmi : (addProviderMidOld st rid' pid tid sid).providerIds = st.providerIds := by
        unfold addProviderMidOld; rfl
      intro q hq
      rw [hfr.1, hmi] at hq
      rw [hfr.2.2.1, hmp]
      exact h q hq
  | makeGrants pid =>
    simp only [validOpB] at hv
    have hpid : pid ∈ st.providerIds := by simpa using hv
    show AvailNonneg (makeGrants st pid)
    unfold makeGrants
    apply makeGrantsLoop_avail pid _ _ st hs hpid
    · exact (sortByPriority_perm st _).nodup_iff.mpr (hs.pendNodup pid hpid)
    · intro s hsmem
      exact (sortByPriority_perm st _).mem_iff.mp hsmem
    · exact h

theorem AvailNonneg_initState : AvailNonneg initState := by
  intro q hq
  simp [initState] at hq

theorem AvailNonneg_runFrom {st : AState} (hs : SInv st) (h : AvailNonneg st) :
    ∀ (ops : List Op), validTraceB st ops = true →
    (∀ op ∈ ops, nonnegOpB op = true) → AvailNonneg (runFrom st ops) := by
  intro ops
  induction ops generalizing st with
  | nil => intro _ _; exact h
  | cons op t ih =>
    intro hv hnn
    simp only [validTraceB, Bool.and_eq_true] at hv
    exact ih (SInv_applyOp hs hv.1)
      (AvailNonneg_applyOp hs hv.1 (hnn op (List.mem_cons_self _ _)) h) hv.2
      (fun o ho => hnn o (List.mem_cons_of_mem _ ho))

theorem runFrom_ids {st : AState} (hs : SInv st) : ∀ (ops : List Op),
    validTraceB st ops = true →
    st.providerIds ⊆ (runFrom st ops).providerIds ∧
    st.requestIds ⊆ (runFrom st ops).requestIds := by
  intro ops
  induction ops generalizing st with
  | nil => intro _; exact ⟨fun x hx => hx, fun x hx => hx⟩
  | cons op t ih =>
    intro hv
    simp only [validTraceB, Bool.and_eq_true] at hv
    have hstep := applyOp_ids hs hv.1
    have hrec := ih (SInv_applyOp hs hv.1) hv.2
    exact ⟨fun x hx => hrec.1 (hstep.1 hx), fun x hx => hrec.2 (hstep.2 hx)⟩

/-- C3 (amended).  (i) With non-negative capacity and amount inputs, every
provider's `available` stays non-negative at every reachable state;
(ii) finalizing a sub-request subtracts exactly the granted amount from
its provider's availability; (iii) with natural-number inputs the sum of
the amounts of a provider's finalized grants never exceeds its initial
`available`. -/
theorem C3_capacity_bound :
    (∀ ops : List Op, validTraceB initState ops = true →
      (∀ op ∈ ops, nonnegOpB op = true) →
      ∀ pid ∈ (runOps ops).providerIds, 0 ≤ ((runOps ops).providers pid).available) ∧
    (∀ (st : AState) (sid : Nat) (a : ℚ),
      ((grant st sid a).providers ((st.subs sid).provider)).available =
        (st.providers ((st.subs sid).provider)).available - a) ∧
    (∀ (ops₁ ops₂ : List Op) (pid : Nat) (c : ℚ),
      validTraceB initState (ops₁ ++ Op.newProvider pid c :: ops₂) = true →
      (∀ op ∈ ops₁ ++ Op.newProvider pid c :: ops₂, natOpB op = true) →
      grantSumP (runOps (ops₁ ++ Op.newProvider pid c :: ops₂)) pid ≤ c) := by
  refine ⟨?_, ?_, ?_⟩
  · intro ops hv hnn
    exact AvailNonneg_runFrom SInv_initState AvailNonneg_initState ops hv hnn
  · intro st sid a
    exact grant_available_self st sid a
  · intro ops₁ ops₂ pid c hv hnat
    set st₁ := runFrom initState ops₁ with hst₁
    rw [validTraceB_append] at hv
    simp only [Bool.and_eq_true] at hv
    have hv2 : (validOpB st₁ (Op.newProvider pid c) &&
        validTraceB (applyOp st₁ (Op.newProvider pid c)) ops₂) = true := hv.2
    simp only [Bool.and_eq_true] at hv2
    have hnat1 : ∀ op ∈ ops₁, natOpB op = true :=
      fun op ho => hnat op (List.mem_append_left _ ho)
    have hnat0 : natOpB (Op.newProvider pid c) = true :=
      hnat _ (List.mem_append_right _ (List.mem_cons_self _ _))
    have hnat2 : ∀ op ∈ ops₂, natOpB op = true :=
      fun op ho => hnat op (List.mem_append_right _ (List.mem_cons_of_mem _ ho))
    have hsn₁ := SNInv_runFrom SInv_initState NInv_initState ops₁ hv.1 hnat1
    have hs₂ : SInv (applyOp st₁ (Op.newProvider pid c)) := SInv_applyOp hsn₁.1 hv2.1
    have hn₂ : NInv (applyOp st₁ (Op.newProvider pid c)) :=
      NInv_applyOp hsn₁.1 hsn₁.2 hv2.1 hnat0
    have hmem₂ : pid ∈ (applyOp st₁ (Op.newProvider pid c)).providerIds := by
      show pid ∈ st₁.providerIds ++ [pid]
      exact List.mem_append_right _ (List.mem_singleton.mpr rfl)
    have hfin : runOps (ops₁ ++ Op.newProvider pid c :: ops₂) =
        runFrom (applyOp st₁ (Op.newProvider pid c)) ops₂ := by
      show runFrom initState (ops₁ ++ Op.newProvider pid c :: ops₂) = _
      rw [runFrom_append]
      rfl
    have hcons := (runFrom_cons hs₂ hn₂ ops₂ hv2.2 hnat2).2 pid hmem₂
    have h0 : (applyOp st₁ (Op.newProvider pid c)).providers pid =
        ⟨c, [], []⟩ := by
      show Function.update st₁.providers pid ⟨c, [], []⟩ pid = _
      exact Function.update_same _ _ _
    have hg0 : grantSumP (applyOp st₁ (Op.newProvider pid c)) pid = 0 := by
      unfold grantSumP
      rw [h0]
      rfl
    rw [hg0, h0] at hcons
    have hsnf := SNInv_runFrom hs₂ hn₂ ops₂ hv2.2 hnat2
    have hmemf : pid ∈ (runFrom (applyOp st₁ (Op.newProvider pid c)) ops₂).providerIds :=
      (runFrom_ids hs₂ ops₂ hv2.2).1 hmem₂
    have havf : 0 ≤ ((runFrom (applyOp st₁ (Op.newProvider pid c)) ops₂).providers pid).available :=
      (hsnf.2.availNat pid hmemf).nonneg
    rw [hfin]
    show grantSumP (runFrom (applyOp st₁ (Op.newProvider pid c)) ops₂) pid ≤ c
    have := hcons
    simp only at this
    linarith

/-- C3, counterexample to the frozen wording: along `cx3ops` every
capacity and request amount input is non-negative, yet the grants
appended to provider `2` (whose initial available is `1`, set by the
`newProvider 2 1` operation in the trace) sum to `4 > 1`. -/
theorem C3_counterexample :
    cx3ops = cx3ops.take 5 ++ Op.newProvider 2 1 :: cx3ops.drop 6 ∧
    validTraceB initState cx3ops = true ∧
    (∀ op ∈ cx3ops, nonnegOpB op = true) ∧
    ¬ grantSumP (runOps cx3ops) 2 ≤ 1 := by decide!

theorem C3_witness :
    (validTraceB initState (c3wops₁ ++ Op.newProvider 0 5 :: c3wops₂) = true ∧
     (∀ op ∈ c3wops₁ ++ Op.newProvider 0 5 :: c3wops₂, natOpB op = true) ∧
     (∀ op ∈ c3wops₁ ++ Op.newProvider 0 5 :: c3wops₂, nonnegOpB op = true)) ∧
    grantSumP (runOps (c3wops₁ ++ Op.newProvider 0 5 :: c3wops₂)) 0 ≤ 5 ∧
    (∀ pid ∈ (runOps (c3wops₁ ++ Op.newProvider 0 5 :: c3wops₂)).providerIds,
      0 ≤ ((runOps (c3wops₁ ++ Op.newProvider 0 5 :: c3wops₂)).providers pid).available) :=
  ⟨⟨by decide!, by decide!, by decide!⟩,
   C3_capacity_bound.2.2 c3wops₁ c3wops₂ 0 5 (by decide!) (by decide!),
   C3_capacity_bound.1 (c3wops₁ ++ Op.newProvider 0 5 :: c3wops₂)
     (by decide!) (by decide!)⟩

/-- C4 (amended).  The code computes `min(round(amount * ratio),
available)` with no lower clamp at `0`; on well-formed states with
natural-number availabilities and request amounts the computed grant is
non-negative anyway, so there the code agrees with the specification's
clamp to `[0, provider.available]`. -/
theorem C4_grant_step {st : AState} (hs : SInv st) (hn : NInv st)
    {pid sid : Nat} (snapshot : List Nat)
    (hpid : pid ∈ st.providerIds)
    (hmem : sid ∈ (st.providers pid).sub_requests)
    (hsnap : sid ∈ snapshot) :
    grantStepAmount st pid snapshot sid = grantStepAmountSpec st pid snapshot sid := by
  have hb := grantStepAmount_bounds hs hn snapshot hpid hmem hsnap
  show grantStepAmount st pid snapshot sid = max 0 (grantStepAmount st pid snapshot sid)
  exact (max_eq_right hb.1).symm

/-- C4, counterexample to the frozen wording: in the (valid,
non-negative-input) trace `cx4ops`, the grant finalized for sub-request
`1` on provider `2` is `-3`, which lies outside `[0, available]`; the
specification's clamped formula would give `0` instead. -/
theorem C4_counterexample :
    validTraceB initState cx4ops = true ∧
    (∀ op ∈ cx4ops, nonnegOpB op = true) ∧
    grantStepAmount (runOps (cx3ops.take 10)) 2
      (sortByPriority (runOps (cx3ops.take 10))
        (((runOps (cx3ops.take 10)).providers 2).sub_requests)) 1 = -3 ∧
    grantStepAmountSpec (runOps (cx3ops.take 10)) 2
      (sortByPriority (runOps (cx3ops.take 10))
        (((runOps (cx3ops.take 10)).providers 2).sub_requests)) 1 = 0 ∧
    ((runOps cx4ops).subs 1).amount = -3 := by decide!

theorem C4_witness :
    1 ∈ (runOps w4ops).providerIds ∧
    0 ∈ ((runOps w4ops).providers 1).sub_requests ∧
    grantStepAmount (runOps w4ops) 1 [0] 0 =
      grantStepAmountSpec (runOps w4ops) 1 [0] 0 :=
  ⟨by decide!, by decide!,
   C4_grant_step (SInv_runOps (by decide!))
     (NInv_runOps (by decide!) (by decide!)) [0]
     (by decide!) (by decide!) (by decide!)⟩

/-!
## Claim C6: proportional redistribution
-/

/-- C6.  On a well-formed state, `makeRequests` sets the amount of every
live sub-request of the request to the request's amount multiplied by
the ratio of its provider's current availability to the total
availability over all serving providers, the ratio being `0` (and hence
every amount `0`) when that total is `0`. -/
theorem C6_make_requests {st : AState} (hs : SInv st) {rid : Nat}
    (hrid : rid ∈ st.requestIds) :
    ∀ pr ∈ (st.requests rid).sub_requests,
      ((makeRequests st rid).subs pr.2).amount =
        (if totalAvailable st rid ≠ 0 then
          (st.providers pr.1).available / totalAvailable st rid else 0) *
          (st.requests rid).amount ∧
      (totalAvailable st rid = 0 → ((makeRequests st rid).subs pr.2).amount = 0) := by
  intro pr hpr
  have hprov : (st.subs pr.2).provider = pr.1 := (hs.mapSub rid hrid pr hpr).2.1
  have hmain := makeRequests_subs_amount (hs.valuesNodup hrid) hpr
  rw [hprov] at hmain
  refine ⟨hmain, fun hT => ?_⟩
  rw [hmain, if_neg (not_not_intro hT), zero_mul]

theorem DeadSid_grant {st : AState} {sid' : Nat} {a : ℚ} {sid : Nat}
    (hd : DeadSid st sid) : DeadSid (grant st sid' a) sid := by
  refine ⟨by rw [grant_nextSub]; exact hd.1, ?_, ?_⟩
  · intro pid hpid
    rw [grant_providerIds] at hpid
    rw [grant_providers]
    by_cases hq : pid = (st.subs sid').provider
    · rw [hq, grantMid_providers_self]
      intro hmem
      have hin : sid ∈ (st.providers pid).sub_requests := by
        rw [hq]
        exact List.mem_of_mem_erase hmem
      exact hd.2.1 pid hpid hin
    · rw [grantMid_providers_ne st sid' a hq]
      exact hd.2.1 pid hpid
  · intro r hr pr hpr
    rw [grant_requestIds] at hr
    rw [grant_requests] at hpr
    by_cases hq : r = (st.subs sid').request
    · rw [hq, grantMid_requests_self] at hpr
      have hin : pr ∈ (st.requests r).sub_requests := by
        rw [hq]
        exact (mem_eraseA.mp hpr).1
      exact hd.2.2 r hr pr hin
    · rw [grantMid_requests_ne st sid' a hq] at hpr
      exact hd.2.2 r hr pr hpr

theorem DeadSid_makeGrantsLoop (pid : Nat) (snapshot : List Nat) :
    ∀ (l : List Nat) (st : AState) (sid : Nat), DeadSid st sid →
      DeadSid (makeGrantsLoop pid snapshot st l) sid := by
  intro l
  induction l with
  | nil => intro st sid hd; exact hd
  | cons s rest ih =>
    intro st sid hd
    simp only [makeGrantsLoop]
    exact ih _ sid (DeadSid_grant hd)

theorem DeadSid_applyOp {st : AState} {op : Op} {sid : Nat} (hs : SInv st)
    (hv : validOpB st op = true) (hd : DeadSid st sid) :
    DeadSid (applyOp st op) sid := by
  cases op with
  | newProvider pid a =>
    refine ⟨hd.1, ?_, hd.2.2⟩
    intro q hq
    show sid ∉ ((Function.update st.providers pid ⟨a, [], []⟩) q).sub_requests
    by_cases hqp : q = pid
    · subst hqp; rw [Function.update_same]; simp
    · rw [Function.update_noteq hqp _ _]
      have hq' : q ∈ st.providerIds := by
        rcases List.mem_append.mp hq with h1 | h1
        · exact h1
        · exact absurd (List.mem_singleton.mp h1) hqp
      exact hd.2.1 q hq'
  | newRequest rid a =>
    refine ⟨hd.1, hd.2.1, ?_⟩
    intro r hr pr hpr
    have happ : applyOp st (Op.newRequest rid a) = newRequestOp st rid a := rfl
    rw [happ] at hr hpr
    by_cases hrr : r = rid
    · rw [show (newRequestOp st rid a).requests r = ⟨a, [], []⟩ from by
        rw [hrr]; exact Function.update_same _ _ _] at hpr
      simp at hpr
    · rw [show (newRequestOp st rid a).requests r = st.requests r from
        Function.update_noteq hrr _ _] at hpr
      have hr' : r ∈ st.requestIds := by
        rcases List.mem_append.mp hr with h1 | h1
        · exact h1
        · exact absurd (List.mem_singleton.mp h1) hrr
      exact hd.2.2 r hr' pr hpr
  | addTarget rid tid m c =>
    refine ⟨hd.1, hd.2.1, ?_⟩
    intro r hr pr hpr
    have happ : applyOp st (Op.addTarget rid tid m c) = addTargetOp st rid tid m c := rfl
    rw [happ] at hr hpr
    have hsub : ((addTargetOp st rid tid m c).requests r).sub_requests =
        (st.requests r).sub_requests := by
      show ((Function.update st.requests rid _ : Nat → AllocationRequest) r).sub_requests = _
      by_cases hrr : r = rid
      · rw [hrr, Function.update_same]
      · rw [Function.update_noteq hrr _ _]
    rw [hsub] at hpr
    exact hd.2.2 r hr pr hpr
  | addProvider rid' pid tid =>
    simp only [validOpB, Bool.and_eq_true] at hv
    have hrid' : rid' ∈ st.requestIds := by simpa using hv.1.1
    have hpid : pid ∈ st.providerIds := by simpa using hv.1.2
    show DeadSid (addProviderOp st rid' pid tid) sid
    rcases hl : lookupA (st.requests rid').sub_requests pid with _ | sid''
    · have hfresh : st.nextSub ∉ (st.providers pid).sub_requests :=
        fun hmem => Nat.lt_irrefl _ (hs.pendLt pid hpid _ hmem)
      rw [addProviderOp_eq_none hl hfresh]
      have hfr := makeRequests_frame (addProviderMidNew st rid' pid tid) rid'
      have hmp : (addProviderMidNew st rid' pid tid).providers = Function.update st.providers pid
          ({ st.providers pid with
             sub_requests := (st.providers pid).sub_requests ++ [st.nextSub] }) := by
        unfold addProviderMidNew; rfl
      have hmr : (addProviderMidNew st rid' pid tid).requests = Function.update st.requests rid'
          ({ st.requests rid' with
             sub_requests := (st.requests rid').sub_requests ++ [(pid, st.nextSub)] }) := by
        unfold addProviderMidNew; rfl
      have hmi : (addProviderMidNew st rid' pid tid).providerIds = st.providerIds := by
        unfold addProviderMidNew; rfl
      have hmri : (addProviderMidNew st rid' pid tid).requestIds = st.requestIds := by
        unfold addProviderMidNew; rfl
      have hmn : (addProviderMidNew st rid' pid tid).nextSub = st.nextSub + 1 := by
        unfold addProviderMidNew; rfl
      refine ⟨?_, ?_, ?_⟩
      · rw [hfr.2.2.2.2.2.2.1, hmn]
        exact Nat.lt_succ_of_lt hd.1
      · intro q hq
        rw [hfr.1, hmi] at hq
        rw [hfr.2.2.1, hmp]
        by_cases hqp : q = pid
        · subst hqp
          rw [Function.update_same]
          show sid ∉ (st.providers q).sub_requests ++ [st.nextSub]
          intro hmem
          rcases List.mem_append.mp hmem with h1 | h1
          · exact hd.2.1 q hq h1
          · exact Nat.lt_irrefl _ ((List.mem_singleton.mp h1) ▸ hd.1)
        · rw [Function.update_noteq hqp _ _]
          exact hd.2.1 q hq
      · intro r hr pr hpr
        rw [hfr.2.1, hmri] at hr
        rw [hfr.2.2.2.1, hmr] at hpr
        by_cases hrr : r = rid'
        · subst hrr
          rw [Function.update_same] at hpr
          rcases List.mem_append.mp hpr with h1 | h1
          · exact hd.2.2 r hr pr h1
          · intro he
            rw [List.mem_singleton.mp h1] at he
            exact Nat.lt_irrefl _ (he ▸ hd.1)
        · rw [Function.update_noteq hrr _ _] at hpr
          exact hd.2.2 r hr pr hpr
    · have hmemmap : (pid, sid'') ∈ (st.requests rid').sub_requests := mem_of_lookupA hl
      have h2 := hs.mapSub rid' hrid' _ hmemmap
      rw [addProviderOp_eq_some hl h2.2.2.2]
      have hfr := makeRequests_frame (addProviderMidOld st rid' pid tid sid'') rid'
      have hmp : (addProviderMidOld st rid' pid tid sid'').providers = st.providers := by
        unfold addProviderMidOld; rfl
      have hmr : (addProviderMidOld st rid' pid tid sid'').requests = st.requests := by
        unfold addProviderMidOld; rfl
      have hmi : (addProviderMidOld st rid' pid tid sid'').providerIds = st.providerIds := by
        unfold addProviderMidOld; rfl
      have hmri : (addProviderMidOld st rid' pid tid sid'').requestIds = st.requestIds := by
        unfold addProviderMidOld; rfl
      have hmn : (addProviderMidOld st rid' pid tid sid'').nextSub = st.nextSub := by
        unfold addProviderMidOld; rfl
      refine ⟨?_, ?_, ?_⟩
      · rw [hfr.2.2.2.2.2.2.1, hmn]; exact hd.1
      · intro q hq
        rw [hfr.1, hmi] at hq
        rw [hfr.2.2.1, hmp]
        exact hd.2.1 q hq
      · intro r hr pr hpr
        rw [hfr.2.1, hmri] at hr
        rw [hfr.2.2.2.1, hmr] at hpr
        exact hd.2.2 r hr pr hpr
  | makeGrants pid =>
    exact DeadSid_makeGrantsLoop pid _ _ st sid hd

theorem DeadSid_runFrom {st : AState} {sid : Nat} (hs : SInv st)
    (hd : DeadSid st sid) : ∀ (ops : List Op), validTraceB st ops = true →
    DeadSid (runFrom st ops) sid := by
  intro ops
  induction ops generalizing st with
  | nil => intro _; exact hd
  | cons op t ih =>
    intro hv
    simp only [validTraceB, Bool.and_eq_true] at hv
    exact ih (SInv_applyOp hs hv.1) (DeadSid_applyOp hs hv.1 hd) hv.2

theorem grant_DeadSid {st : AState} {sid : Nat} (a : ℚ) (hs : SInv st)
    (hpid : (st.subs sid).provider ∈ st.providerIds)
    (hmem : sid ∈ (st.providers ((st.subs sid).provider)).sub_requests) :
    DeadSid (grant st sid a) sid := by
  set spid := (st.subs sid).provider with hspid
  set srid := (st.subs sid).request with hsrid
  have hslt : sid < st.nextSub := hs.pendLt spid hpid sid hmem
  refine ⟨by rw [grant_nextSub]; exact hslt, ?_, ?_⟩
  · intro q hq
    rw [grant_providerIds] at hq
    rw [grant_providers]
    by_cases hqp : q = spid
    · subst hqp
      rw [grantMid_providers_self]
      intro hin
      have h3 := (hs.pendNodup spid hq).mem_erase_iff.mp hin
      exact h3.1 rfl
    · rw [grantMid_providers_ne st sid a hqp]
      intro hin
      exact hqp ((hs.pendSub q hq sid hin).1).symm
  · intro r hr pr hpr he
    rw [grant_requestIds] at hr
    rw [grant_requests] at hpr
    by_cases hrr : r = srid
    · subst hrr
      rw [grantMid_requests_self] at hpr
      have h1 := mem_eraseA.mp hpr
      have h2 := hs.mapSub srid hr pr h1.1
      rw [he] at h2
      exact h1.2 (h2.2.1.symm)
    · rw [grantMid_requests_ne st sid a hrr] at hpr
      have h2 := hs.mapSub r hr pr hpr
      rw [he] at h2
      exact hrr (h2.2.2.1.symm)

theorem C6_witness :
    0 ∈ (runOps w6ops).requestIds ∧
    (∀ pr ∈ ((runOps w6ops).requests 0).sub_requests,
      ((makeRequests (runOps w6ops) 0).subs pr.2).amount =
        (if totalAvailable (runOps w6ops) 0 ≠ 0 then
          ((runOps w6ops).providers pr.1).available / totalAvailable (runOps w6ops) 0 else 0) *
          ((runOps w6ops).requests 0).amount ∧
      (totalAvailable (runOps w6ops) 0 = 0 →
        ((makeRequests (runOps w6ops) 0).subs pr.2).amount = 0)) :=
  ⟨by decide!, C6_make_requests (SInv_runOps (by decide!)) (by decide!)⟩

/-- C7.  Finalizing a live sub-request with amount `a` removes it from
its provider's pending list and from its request's provider map, appends
a grant to the provider's grant list exactly when `a > 0`, decrements
the request's amount and the provider's availability by exactly `a`
(also when `a = 0`), re-runs the request's redistribution (and, for a
positive amount, the new grant's target distribution); and the
finalized sub-request id never reappears in either live collection in
any valid continuation. -/
theorem C7_grant_finalization {st : AState} (hs : SInv st) {sid : Nat} (a : ℚ)
    (hpid : (st.subs sid).provider ∈ st.providerIds)
    (hmem : sid ∈ (st.providers ((st.subs sid).provider)).sub_requests) :
    ((grant st sid a).providers ((st.subs sid).provider)).sub_requests =
      ((st.providers ((st.subs sid).provider)).sub_requests).erase sid ∧
    lookupA ((grant st sid a).requests ((st.subs sid).request)).sub_requests
      ((st.subs sid).provider) = none ∧
    ((grant st sid a).providers ((st.subs sid).provider)).grants =
      (st.providers ((st.subs sid).provider)).grants ++
        (if 0 < a then [⟨(st.subs sid).request, (st.subs sid).provider, a,
          (st.subs sid).targets⟩] else []) ∧
    ((grant st sid a).requests ((st.subs sid).request)).amount =
      (st.requests ((st.subs sid).request)).amount - a ∧
    ((grant st sid a).providers ((st.subs sid).provider)).available =
      (st.providers ((st.subs sid).provider)).available - a ∧
    grant st sid a =
      (if 0 < a then
        makeAllocationsOp (makeRequests (grantMid st sid a) ((st.subs sid).request))
          ⟨(st.subs sid).request, (st.subs sid).provider, a, (st.subs sid).targets⟩
       else makeRequests (grantMid st sid a) ((st.subs sid).request)) ∧
    (∀ ops : List Op, validTraceB (grant st sid a) ops = true →
      (∀ pid ∈ (runFrom (grant st sid a) ops).providerIds,
        sid ∉ ((runFrom (grant st sid a) ops).providers pid).sub_requests) ∧
      (∀ r ∈ (runFrom (grant st sid a) ops).requestIds,
        ∀ pr ∈ ((runFrom (grant st sid a) ops).requests r).sub_requests, pr.2 ≠ sid)) := by
  refine ⟨grant_pending st sid a, ?_, ?_, ?_, grant_available_self st sid a,
    grant_eq st sid a, ?_⟩
  · rw [grant_requests, grantMid_requests_self]
    exact lookupA_eraseA_self _ _
  · rw [grant_providers, grantMid_providers_self]
  · rw [grant_requests, grantMid_requests_self]
  · intro ops hv
    have hdead := DeadSid_runFrom (SInv_grant hs a hpid hmem)
      (grant_DeadSid a hs hpid hmem) ops hv
    exact ⟨hdead.2.1, hdead.2.2⟩

theorem C7_witness :
    (((runOps w4ops).subs 0).provider ∈ (runOps w4ops).providerIds ∧
     0 ∈ ((runOps w4ops).providers (((runOps w4ops).subs 0).provider)).sub_requests) ∧
    (((grant (runOps w4ops) 0 2).providers
        (((runOps w4ops).subs 0).provider)).sub_requests =
      (((runOps w4ops).providers
        (((runOps w4ops).subs 0).provider)).sub_requests).erase 0 ∧
    lookupA ((grant (runOps w4ops) 0 2).requests
        (((runOps w4ops).subs 0).request)).sub_requests
      (((runOps w4ops).subs 0).provider) = none ∧
    ((grant (runOps w4ops) 0 2).providers
        (((runOps w4ops).subs 0).provider)).grants =
      ((runOps w4ops).providers (((runOps w4ops).subs 0).provider)).grants ++
        (if 0 < (2 : ℚ) then [⟨((runOps w4ops).subs 0).request,
          ((runOps w4ops).subs 0).provider, 2, ((runOps w4ops).subs 0).targets⟩]
         else []) ∧
    ((grant (runOps w4ops) 0 2).requests
        (((runOps w4ops).subs 0).request)).amount =
      ((runOps w4ops).requests (((runOps w4ops).subs 0).request)).amount - 2 ∧
    ((grant (runOps w4ops) 0 2).providers
        (((runOps w4ops).subs 0).provider)).available =
      ((runOps w4ops).providers (((runOps w4ops).subs 0).provider)).available - 2 ∧
    grant (runOps w4ops) 0 2 =
      (if 0 < (2 : ℚ) then
        makeAllocationsOp
          (makeRequests (grantMid (runOps w4ops) 0 2) (((runOps w4ops).subs 0).request))
          ⟨((runOps w4ops).subs 0).request, ((runOps w4ops).subs 0).provider, 2,
            ((runOps w4ops).subs 0).targets⟩
       else makeRequests (grantMid (runOps w4ops) 0 2) (((runOps w4ops).subs 0).request)) ∧
    (∀ ops : List Op, validTraceB (grant (runOps w4ops) 0 2) ops = true →
      (∀ pid ∈ (runFrom (grant (runOps w4ops) 0 2) ops).providerIds,
        0 ∉ ((runFrom (grant (runOps w4ops) 0 2) ops).providers pid).sub_requests) ∧
      (∀ r ∈ (runFrom (grant (runOps w4ops) 0 2) ops).requestIds,
        ∀ pr ∈ ((runFrom (grant (runOps w4ops) 0 2) ops).requests r).sub_requests,
          pr.2 ≠ 0))) :=
  ⟨⟨by decide!, by decide!⟩,
   C7_grant_finalization (SInv_runOps (by decide!)) 2 (by decide!) (by decide!)⟩

/-!
## Claim C10: one `makeGrants` call drains the pending list
-/

theorem makeGrantsLoop_drains (pid : Nat) (snapshot : List Nat) :
    ∀ (l : List Nat) (st : AState), SInv st → pid ∈ st.providerIds →
      List.Perm ((st.providers pid).sub_requests) l →
      ((makeGrantsLoop pid snapshot st l).providers pid).sub_requests = [] := by
  intro l
  induction l with
  | nil => intro st _ _ hperm; exact List.Perm.eq_nil hperm
  | cons sid rest ih =>
    intro st hs hpid hperm
    have hmem : sid ∈ (st.providers pid).sub_requests :=
      hperm.mem_iff.mpr (List.mem_cons_self _ _)
    have hp : (st.subs sid).provider = pid := (hs.pendSub pid hpid sid hmem).1
    simp only [makeGrantsLoop]
    set a := grantStepAmount st pid snapshot sid with ha
    have hs' : SInv (grant st sid a) :=
      SInv_grant hs a (hp ▸ hpid) (by rw [hp]; exact hmem)
    apply ih (grant st sid a) hs' (by rw [grant_providerIds]; exact hpid)
    have hpend : ((grant st sid a).providers pid).sub_requests =
        ((st.providers pid).sub_requests).erase sid := by
      rw [← hp]
      exact grant_pending st sid a
    rw [hpend]
    have h2 := hperm.erase sid
    rwa [List.erase_cons_head] at h2

theorem makeGrantsLoop_dead (pid : Nat) (snapshot : List Nat) :
    ∀ (l : List Nat) (st : AState), SInv st → pid ∈ st.providerIds →
      l.Nodup → (∀ s ∈ l, s ∈ (st.providers pid).sub_requests) →
      ∀ sid ∈ l, DeadSid (makeGrantsLoop pid snapshot st l) sid := by
  intro l
  induction l with
  | nil => intro st _ _ _ _ sid hsid; exact absurd hsid (List.not_mem_nil _)
  | cons s rest ih =>
    intro st hs hpid hnd hsub sid hsid
    have hmem : s ∈ (st.providers pid).sub_requests := hsub s (List.mem_cons_self _ _)
    have hp : (st.subs s).provider = pid := (hs.pendSub pid hpid s hmem).1
    rw [List.nodup_cons] at hnd
    simp only [makeGrantsLoop]
    set a := grantStepAmount st pid snapshot s with ha
    have hs' : SInv (grant st s a) :=
      SInv_grant hs a (hp ▸ hpid) (by rw [hp]; exact hmem)
    have hpend : ((grant st s a).providers pid).sub_requests =
        ((st.providers pid).sub_requests).erase s := by
      rw [← hp]
      exact grant_pending st s a
    rcases List.mem_cons.mp hsid with rfl | hsid'
    · exact DeadSid_makeGrantsLoop pid snapshot rest _ sid
        (grant_DeadSid a hs (hp ▸ hpid) (by rw [hp]; exact hmem))
    · apply ih (grant st s a) hs' (by rw [grant_providerIds]; exact hpid) hnd.2
      · intro x hx
        rw [hpend, (hs.pendNodup pid hpid).mem_erase_iff]
        exact ⟨fun he => hnd.1 (he ▸ hx), hsub x (List.mem_cons_of_mem _ hx)⟩
      · exact hsid'

/-- C10.  A single `makeGrants` call finalizes every sub-request pending
on the provider at the start of the call, whatever the available
capacity: afterwards the provider's pending list is empty and every one
of those sub-requests is gone from every provider's pending list and
from every request's provider map. -/
theorem C10_make_grants_drains {st : AState} (hs : SInv st) {pid : Nat}
    (hpid : pid ∈ st.providerIds) :
    ((makeGrants st pid).providers pid).sub_requests = [] ∧
    (∀ sid ∈ (st.providers pid).sub_requests,
      (∀ q ∈ (makeGrants st pid).providerIds,
        sid ∉ ((makeGrants st pid).providers q).sub_requests) ∧
      (∀ r ∈ (makeGrants st pid).requestIds,
        ∀ pr ∈ ((makeGrants st pid).requests r).sub_requests, pr.2 ≠ sid)) := by
  constructor
  · unfold makeGrants
    exact makeGrantsLoop_drains pid _ _ st hs hpid (sortByPriority_perm st _).symm
  · intro sid hsid
    have hdead : DeadSid (makeGrants st pid) sid := by
      unfold makeGrants
      apply makeGrantsLoop_dead pid _ _ st hs hpid
      · exact (sortByPriority_perm st _).nodup_iff.mpr (hs.pendNodup pid hpid)
      · intro s hsmem
        exact (sortByPriority_perm st _).mem_iff.mp hsmem
      · exact (sortByPriority_perm st _).mem_iff.mpr hsid
    exact ⟨hdead.2.1, hdead.2.2⟩

theorem C10_witness :
    (1 ∈ (runOps w6ops).providerIds ∧
     0 ∈ ((runOps w6ops).providers 1).sub_requests) ∧
    ((makeGrants (runOps w6ops) 1).providers 1).sub_requests = [] ∧
    (∀ sid ∈ ((runOps w6ops).providers 1).sub_requests,
      (∀ q ∈ (makeGrants (runOps w6ops) 1).providerIds,
        sid ∉ ((makeGrants (runOps w6ops) 1).providers q).sub_requests) ∧
      (∀ r ∈ (makeGrants (runOps w6ops) 1).requestIds,
        ∀ pr ∈ ((makeGrants (runOps w6ops) 1).requests r).sub_requests, pr.2 ≠ sid)) :=
  ⟨⟨by decide!, by decide!⟩,
   C10_make_grants_drains (SInv_runOps (by decide!)) (by decide!)⟩

/-!
## Claim C5: priorities and processing order
-/

/-- C5.  The priority of a live sub-request equals the number of
providers currently holding a live sub-request of its parent request;
`makeGrants` processes the snapshot of the provider's pending
sub-requests as a permutation sorted ascending by the priorities read at
the start of the call. -/
theorem C5_priority_sorted {st : AState} (hs : SInv st) {sid pid : Nat}
    (hpid : pid ∈ st.providerIds) (hmem : sid ∈ (st.providers pid).sub_requests) :
    getPriority st sid =
      (st.providerIds.filter (fun p =>
        ((st.providers p).sub_requests).any
          (fun s => (st.subs s).request == (st.subs sid).request))).length ∧
    List.Perm (sortByPriority st ((st.providers pid).sub_requests))
      ((st.providers pid).sub_requests) ∧
    (sortByPriority st ((st.providers pid).sub_requests)).Pairwise
      (fun a b => getPriority st a ≤ getPriority st b) ∧
    makeGrants st pid =
      makeGrantsLoop pid (sortByPriority st ((st.providers pid).sub_requests)) st
        (sortByPriority st ((st.providers pid).sub_requests)) := by
  refine ⟨?_, sortByPriority_perm st _, sortByPriority_pairwise st _, rfl⟩
  set rid := (st.subs sid).request with hrid_def
  have hslt : sid < st.nextSub := hs.pendLt pid hpid sid hmem
  have hrid : rid ∈ st.requestIds := (hs.subIds sid hslt).1
  have hkeys : (((st.requests rid).sub_requests).map Prod.fst).Nodup :=
    hs.keysNodup rid hrid
  have hfil : (st.providerIds.filter (fun p =>
      ((st.providers p).sub_requests).any
        (fun s => (st.subs s).request == rid))).Nodup :=
    hs.pNodup.filter _
  have hiff : ∀ p : Nat,
      p ∈ ((st.requests rid).sub_requests).map Prod.fst ↔
      p ∈ st.providerIds.filter (fun p =>
        ((st.providers p).sub_requests).any
          (fun s => (st.subs s).request == rid)) := by
    intro p
    constructor
    · intro hp
      obtain ⟨pr, hpr, rfl⟩ := List.mem_map.mp hp
      have hm := hs.mapSub rid hrid pr hpr
      rw [List.mem_filter]
      refine ⟨hm.1, ?_⟩
      rw [List.any_eq_true]
      exact ⟨pr.2, hm.2.2.2, by simpa using hm.2.2.1⟩
    · intro hp
      rw [List.mem_filter] at hp
      rw [List.any_eq_true] at hp
      obtain ⟨s, hsp, hsr⟩ := hp.2
      have hsr' : (st.subs s).request = rid := by simpa using hsr
      have hlk := (hs.pendSub p hp.1 s hsp).2
      rw [hsr'] at hlk
      have hpm : (p, s) ∈ (st.requests rid).sub_requests := mem_of_lookupA hlk
      exact List.mem_map.mpr ⟨(p, s), hpm, rfl⟩
  have hperm : List.Perm (((st.requests rid).sub_requests).map Prod.fst)
      (st.providerIds.filter (fun p =>
        ((st.providers p).sub_requests).any
          (fun s => (st.subs s).request == rid))) :=
    (List.perm_ext_iff_of_nodup hkeys hfil).mpr hiff
  have hlen := hperm.length_eq
  rw [List.length_map] at hlen
  exact hlen

theorem C5_witness :
    (1 ∈ (runOps w6ops).providerIds ∧
     0 ∈ ((runOps w6ops).providers 1).sub_requests) ∧
    getPriority (runOps w6ops) 0 =
      ((runOps w6ops).providerIds.filter (fun p =>
        (((runOps w6ops).providers p).sub_requests).any
          (fun s => ((runOps w6ops).subs s).request ==
            ((runOps w6ops).subs 0).request))).length ∧
    List.Perm (sortByPriority (runOps w6ops) (((runOps w6ops).providers 1).sub_requests))
      (((runOps w6ops).providers 1).sub_requests) ∧
    (sortByPriority (runOps w6ops)
        (((runOps w6ops).providers 1).sub_requests)).Pairwise
      (fun a b => getPriority (runOps w6ops) a ≤ getPriority (runOps w6ops) b) ∧
    makeGrants (runOps w6ops) 1 =
      makeGrantsLoop 1
        (sortByPriority (runOps w6ops) (((runOps w6ops).providers 1).sub_requests))
        (runOps w6ops)
        (sortByPriority (runOps w6ops) (((runOps w6ops).providers 1).sub_requests)) :=
  ⟨⟨by decide!, by decide!⟩,
   C5_priority_sorted (SInv_runOps (by decide!)) (by decide!) (by decide!)⟩

/-!
## Claim C2: request conservation
-/

theorem sum_map_congr2 {α : Type} {l : List α} {f f' : α → ℚ}
    (h : ∀ x ∈ l, f' x = f x) : (l.map f').sum = (l.map f).sum := by
  induction l with
  | nil => rfl
  | cons x xs ih =>
    simp only [List.map_cons, List.sum_cons]
    rw [h x (List.mem_cons_self _ _), ih (fun y hy => h y (List.mem_cons_of_mem _ hy))]

theorem eraseA_of_not_mem_keys {l : List (Nat × Nat)} {k : Nat}
    (h : k ∉ l.map Prod.fst) : eraseA l k = l := by
  induction l with
  | nil => rfl
  | cons p t ih =>
    simp only [List.map_cons, List.mem_cons] at h
    push_neg at h
    show (if p.1 = k then eraseA t k else (p.1, p.2) :: eraseA t k) = _
    rw [if_neg (Ne.symm h.1), ih h.2]

theorem sum_map_eraseA {l : List (Nat × Nat)}
    (hnd : (l.map Prod.fst).Nodup) {pr : Nat × Nat} (hpr : pr ∈ l)
    (f : Nat × Nat → ℚ) :
    (l.map f).sum = f pr + ((eraseA l pr.1).map f).sum := by
  induction l with
  | nil => simp at hpr
  | cons p t ih =>
    simp only [List.map_cons, List.nodup_cons] at hnd
    rcases List.mem_cons.mp hpr with rfl | hprt
    · have he : eraseA (pr :: t) pr.1 = t := by
        show (if pr.1 = pr.1 then eraseA t pr.1 else _) = _
        rw [if_pos rfl, eraseA_of_not_mem_keys hnd.1]
      rw [he]
      simp
    · have hne : p.1 ≠ pr.1 := by
        intro he
        exact hnd.1 (he ▸ List.mem_map.mpr ⟨pr, hprt, rfl⟩)
      have he : eraseA (p :: t) pr.1 = p :: eraseA t pr.1 := by
        show (if p.1 = pr.1 then _ else (p.1, p.2) :: eraseA t pr.1) = _
        rw [if_neg hne]
      rw [he]
      simp only [List.map_cons, List.sum_cons]
      rw [ih hnd.2 hprt]
      ring

theorem totalAvailable_eq_served {st : AState} (hs : SInv st) {rid : Nat}
    (hrid : rid ∈ st.requestIds) :
    totalAvailable st rid = servedAvailSum st rid := by
  unfold totalAvailable servedAvailSum
  apply sum_map_congr2
  intro pr hpr
  rw [(hs.mapSub rid hrid pr hpr).2.1]

theorem sortByPriority_singleton (st : AState) (s : Nat) :
    sortByPriority st [s] = [s] := rfl

theorem grantStepAmount_singleton (st : AState) (q s : Nat) :
    grantStepAmount st q [s] s =
      min ((pyround ((st.subs s).amount) : ℚ)) (st.providers q).available := by
  have hfil : ([s].filter (fun r => getPriority st r == getPriority st s)) = [s] := by
    simp [List.filter_cons]
  have key : ∀ l : List Nat, l = [s] →
      min ((pyround ((st.subs s).amount *
        (if ((l.map (fun r => (st.subs r).amount)).sum) ≠ 0 then
          (st.subs s).amount / ((l.map (fun r => (st.subs r).amount)).sum)
         else 0)) : ℚ)) (st.providers q).available =
      min ((pyround ((st.subs s).amount) : ℚ)) (st.providers q).available := by
    intro l hl
    subst hl
    simp only [List.map_cons, List.map_nil, List.sum_cons, List.sum_nil, add_zero]
    by_cases h : (st.subs s).amount = 0
    · rw [if_neg (not_not_intro h), h, mul_zero]
    · rw [if_pos h, div_self h, mul_one]
  exact key _ hfil

theorem makeGrants_singleton {st : AState} {q s : Nat}
    (h : (st.providers q).sub_requests = [s]) :
    makeGrants st q =
      grant st s (min ((pyround ((st.subs s).amount) : ℚ))
        (st.providers q).available) := by
  unfold makeGrants
  rw [h, sortByPriority_singleton]
  simp only [makeGrantsLoop]
  rw [grantStepAmount_singleton]

theorem makeGrants_ids (st : AState) (pid : Nat) :
    (makeGrants st pid).providerIds = st.providerIds ∧
    (makeGrants st pid).requestIds = st.requestIds := by
  unfold makeGrants
  exact makeGrantsLoop_ids _ _ _ _

theorem foldl_makeGrants_cons : ∀ (qs : List Nat) (st : AState), SInv st → NInv st →
    (∀ q ∈ qs, q ∈ st.providerIds) → ∀ rid ∈ st.requestIds,
    grantSumR (qs.foldl makeGrants st) rid +
      ((qs.foldl makeGrants st).requests rid).amount =
    grantSumR st rid + (st.requests rid).amount := by
  intro qs
  induction qs with
  | nil => intro st _ _ _ rid _; rfl
  | cons q t ih =>
    intro st hs hn hq rid hrid
    have hqid : q ∈ st.providerIds := hq q (List.mem_cons_self _ _)
    have hstep := (makeGrants_cons hs hn hqid).1 rid hrid
    have hids := makeGrants_ids st q
    have hrec := ih (makeGrants st q) (SInv_makeGrants hs hqid) (NInv_makeGrants hs hn hqid)
      (fun p hp => by rw [hids.1]; exact hq p (List.mem_cons_of_mem _ hp))
      rid (by rw [hids.2]; exact hrid)
    show grantSumR (t.foldl makeGrants (makeGrants st q)) rid +
        ((t.foldl makeGrants (makeGrants st q)).requests rid).amount =
      grantSumR st rid + (st.requests rid).amount
    exact hrec.trans hstep

/-- The exclusivity scenario: each provider serving the request has the
request's sub-request as its only pending one, amounts are balanced, and
the aggregate capacity suffices; then invoking `makeGrants` on every
serving provider (in any order) drives the request's amount to `0`. -/
theorem scenario_drain : ∀ (qs : List Nat) (st : AState) (rid : Nat),
    SInv st → NInv st → rid ∈ st.requestIds →
    (∀ pr ∈ (st.requests rid).sub_requests,
      (st.providers pr.1).sub_requests = [pr.2]) →
    (∀ pr ∈ (st.requests rid).sub_requests,
      (st.subs pr.2).amount =
        (if totalAvailable st rid ≠ 0 then
          (st.providers pr.1).available / totalAvailable st rid else 0) *
          (st.requests rid).amount) →
    (st.requests rid).amount ≤ totalAvailable st rid →
    List.Perm qs (((st.requests rid).sub_requests).map Prod.fst) →
    ((qs.foldl makeGrants st).requests rid).amount = 0 := by
  intro qs
  induction qs with
  | nil =>
    intro st rid hs hn hrid hexcl hbal hcap hperm
    have hkeys : ((st.requests rid).sub_requests).map Prod.fst = [] :=
      List.Perm.eq_nil hperm.symm
    have hmap : (st.requests rid).sub_requests = [] := List.map_eq_nil.mp hkeys
    have hT : totalAvailable st rid = 0 := by
      unfold totalAvailable
      rw [hmap]
      rfl
    have hA0 : 0 ≤ (st.requests rid).amount := (hn.amtNat rid hrid).nonneg
    show (st.requests rid).amount = 0
    rw [hT] at hcap
    linarith
  | cons q qs' ih =>
    intro st rid hs hn hrid hexcl hbal hcap hperm
    have hqk : q ∈ ((st.requests rid).sub_requests).map Prod.fst :=
      hperm.mem_iff.mp (List.mem_cons_self _ _)
    obtain ⟨pp, hpp0, hppq⟩ := List.mem_map.mp hqk
    obtain ⟨q0, s⟩ := pp
    have hq0 : q0 = q := hppq
    rw [hq0] at hpp0
    have hpp : (q, s) ∈ (st.requests rid).sub_requests := hpp0
    have hm := hs.mapSub rid hrid (q, s) hpp
    have hprov : (st.subs s).provider = q := hm.2.1
    have hreqf : (st.subs s).request = rid := hm.2.2.1
    have hqid : q ∈ st.providerIds := hm.1
    have hpend : (st.providers q).sub_requests = [s] := hexcl (q, s) hpp
    set a := min ((pyround ((st.subs s).amount) : ℚ)) ((st.providers q).available) with ha
    have hgr : makeGrants st q = grant st s a := by
      rw [ha]
      exact makeGrants_singleton hpend
    -- the mid-state record at the request
    have hmidreq : (grantMid st s a).requests rid =
        { amount := (st.requests rid).amount - a,
          sub_requests := eraseA ((st.requests rid).sub_requests) q,
          request_targets := (st.requests rid).request_targets } := by
      have h1 := grantMid_requests_self st s a
      rw [hreqf, hprov] at h1
      exact h1
    have hreq' : (makeGrants st q).requests rid = (grantMid st s a).requests rid := by
      rw [hgr, grant_requests]
    have hA' : ((makeGrants st q).requests rid).amount = (st.requests rid).amount - a := by
      rw [hreq', hmidreq]
    have hmap' : ((makeGrants st q).requests rid).sub_requests =
        eraseA ((st.requests rid).sub_requests) q := by
      rw [hreq', hmidreq]
    have hprovs' : (makeGrants st q).providers = (grantMid st s a).providers := by
      rw [hgr, grant_providers]
    have hprov_ne : ∀ p, p ≠ q → (makeGrants st q).providers p = st.providers p := by
      intro p hp
      rw [hprovs']
      exact grantMid_providers_ne st s a (fun he => hp (he.trans hprov))
    have hids := makeGrants_ids st q
    have hs' := SInv_makeGrants hs hqid
    have hn' := NInv_makeGrants hs hn hqid
    have hrid' : rid ∈ (makeGrants st q).requestIds := by rw [hids.2]; exact hrid
    -- the remaining providers' availability sum
    set S : ℚ := ((eraseA ((st.requests rid).sub_requests) q).map
      (fun pr => (st.providers pr.1).available)).sum with hSdef
    have hTsplit : totalAvailable st rid = (st.providers q).available + S := by
      rw [totalAvailable_eq_served hs hrid]
      unfold servedAvailSum
      have h3 := sum_map_eraseA (hs.keysNodup rid hrid) hpp
        (fun pr => (st.providers pr.1).available)
      dsimp only at h3
      rw [← hSdef] at h3
      exact h3
    have hw0 : 0 ≤ (st.providers q).available := (hn.availNat q hqid).nonneg
    have hSnat : IsNatQ S := by
      rw [hSdef]
      apply isNatQ_listSum
      intro x hx
      simp only [List.mem_map] at hx
      obtain ⟨pr, hpr, rfl⟩ := hx
      exact hn.availNat pr.1 (hs.mapSub rid hrid pr (mem_eraseA.mp hpr).1).1
    have hS0 : 0 ≤ S := hSnat.nonneg
    have hAnat : IsNatQ (st.requests rid).amount := hn.amtNat rid hrid
    have hA0 : 0 ≤ (st.requests rid).amount := hAnat.nonneg
    have hA'nat : IsNatQ ((st.requests rid).amount - a) := by
      have h4 := hn'.amtNat rid hrid'
      rwa [hA'] at h4
    have hamt := hbal (q, s) hpp
    dsimp only at hamt
    -- the remaining sub-requests keep their provider and lose nothing
    have hps_ne : ∀ pr ∈ eraseA ((st.requests rid).sub_requests) q, pr.2 ≠ s := by
      intro pr hpr he
      have h2 := mem_eraseA.mp hpr
      have h5 := (hs.mapSub rid hrid pr h2.1).2.1
      rw [he] at h5
      exact h2.2 (h5.symm.trans hprov)
    have hsubprov : ∀ pr ∈ eraseA ((st.requests rid).sub_requests) q,
        ((makeGrants st q).subs pr.2).provider = pr.1 := by
      intro pr hpr
      have h2 := mem_eraseA.mp hpr
      have h6 : (makeGrants st q).subs =
          (makeRequests (grantMid st s a) ((st.subs s).request)).subs := by
        rw [hgr]
        exact grant_subs st s a
      rw [h6, (makeRequests_subs_fields _ _ _).2.1,
        grantMid_subs_ne st s a (hps_ne pr hpr)]
      exact (hs.mapSub rid hrid pr h2.1).2.1
    have hT' : totalAvailable (makeGrants st q) rid = S := by
      unfold totalAvailable
      rw [hmap', hSdef]
      apply sum_map_congr2
      intro pr hpr
      rw [hsubprov pr hpr, hprov_ne pr.1 (mem_eraseA.mp hpr).2]
    -- capacity is preserved
    have hcap' : ((makeGrants st q).requests rid).amount ≤
        totalAvailable (makeGrants st q) rid := by
      rw [hA', hT']
      by_cases hT0 : totalAvailable st rid = 0
      · have hw : (st.providers q).available = 0 := by
          rw [hT0] at hTsplit
          linarith
        have hA00 : (st.requests rid).amount = 0 := by
          rw [hT0] at hcap
          linarith
        have hamt0 : (st.subs s).amount = 0 := by
          rw [hamt, if_neg (not_not_intro hT0), zero_mul]
        have hpy0 : ((pyround ((st.subs s).amount)) : ℚ) = 0 := by
          rw [hamt0]
          exact IsNatQ.zero.pyround_eq
        have ha0 : a = 0 := by
          rw [ha, hpy0, hw]
          exact min_self 0
        rw [hA00, ha0]
        linarith
      · have hTpos : 0 < totalAvailable st rid :=
          lt_of_le_of_ne (totalAvailable_nonneg hs hrid hn.availNat) (Ne.symm hT0)
        have hamt_eq : (st.subs s).amount =
            (st.providers q).available * (st.requests rid).amount /
              totalAvailable st rid := by
          rw [hamt, if_pos hT0, div_mul_eq_mul_div]
        have hamt0 : 0 ≤ (st.subs s).amount := hn.subNonneg s
        rcases le_total ((pyround ((st.subs s).amount) : ℚ))
            ((st.providers q).available) with hle | hle
        · have ha_eq : a = (pyround ((st.subs s).amount) : ℚ) := by
            rw [ha]
            exact min_eq_left hle
          have hkey : (st.providers q).available + (st.requests rid).amount -
              totalAvailable st rid ≤ (st.subs s).amount := by
            rw [hamt_eq, le_div_iff hTpos]
            have hk : 0 ≤ (totalAvailable st rid - (st.providers q).available) *
                (totalAvailable st rid - (st.requests rid).amount) :=
              mul_nonneg (by linarith) (by linarith)
            nlinarith [hk]
          have hhalf : (st.subs s).amount - 1/2 < ((pyround ((st.subs s).amount)) : ℚ) :=
            lt_pyround_of_nonneg hamt0
          have hle2 : (st.requests rid).amount - a ≤ S + 1/2 := by
            rw [ha_eq]
            linarith
          exact le_of_le_add_half hA'nat hSnat hle2
        · have ha_eq : a = (st.providers q).available := by
            rw [ha]
            exact min_eq_right hle
          rw [ha_eq]
          linarith
    -- exclusivity is preserved
    have hexcl' : ∀ pr ∈ ((makeGrants st q).requests rid).sub_requests,
        ((makeGrants st q).providers pr.1).sub_requests = [pr.2] := by
      intro pr hpr
      rw [hmap'] at hpr
      have h2 := mem_eraseA.mp hpr
      rw [hprov_ne pr.1 h2.2]
      exact hexcl pr h2.1
    -- balance is re-established by the redistribution inside `grant`
    have hmid_s : SInv (grantMid st s a) := by
      apply SInv_grantMid hs a
      · rw [hprov]; exact hqid
      · rw [hprov, hpend]; exact List.mem_singleton.mpr rfl
    have hmid_rid : rid ∈ (grantMid st s a).requestIds := by
      rw [(grantMid_frame st s a).2.1]
      exact hrid
    have hTmid : totalAvailable (grantMid st s a) rid = S := by
      unfold totalAvailable
      rw [hmidreq, hSdef]
      apply sum_map_congr2
      intro pr hpr
      rw [grantMid_subs_ne st s a (hps_ne pr hpr),
        (hs.mapSub rid hrid pr (mem_eraseA.mp hpr).1).2.1,
        grantMid_providers_ne st s a
          (fun he => (mem_eraseA.mp hpr).2 (he.trans hprov))]
    have hbal' : ∀ pr ∈ ((makeGrants st q).requests rid).sub_requests,
        ((makeGrants st q).subs pr.2).amount =
          (if totalAvailable (makeGrants st q) rid ≠ 0 then
            ((makeGrants st q).providers pr.1).available /
              totalAvailable (makeGrants st q) rid else 0) *
            ((makeGrants st q).requests rid).amount := by
      intro pr hpr
      rw [hmap'] at hpr
      have h2 := mem_eraseA.mp hpr
      have hnd_mid : ((((grantMid st s a).requests rid).sub_requests).map Prod.snd).Nodup :=
        hmid_s.valuesNodup hmid_rid
      have hpr_mid : pr ∈ ((grantMid st s a).requests rid).sub_requests := by
        rw [hmidreq]
        exact hpr
      have hMR := makeRequests_subs_amount hnd_mid hpr_mid
      rw [hTmid, grantMid_subs_ne st s a (hps_ne pr hpr),
        (hs.mapSub rid hrid pr h2.1).2.1,
        grantMid_providers_ne st s a (fun he => h2.2 (he.trans hprov)),
        hmidreq] at hMR
      dsimp only at hMR
      have hLHS : (makeGrants st q).subs pr.2 =
          (makeRequests (grantMid st s a) rid).subs pr.2 := by
        rw [hgr, grant_subs st s a, hreqf]
      rw [hLHS, hT', hA', hprov_ne pr.1 h2.2]
      exact hMR
    -- the permutation of the remaining keys
    have hqnd : (q :: qs').Nodup := hperm.nodup_iff.mpr (hs.keysNodup rid hrid)
    rw [List.nodup_cons] at hqnd
    have hknd' : ((((makeGrants st q).requests rid).sub_requests).map Prod.fst).Nodup :=
      hs'.keysNodup rid hrid'
    have hperm' : List.Perm qs'
        ((((makeGrants st q).requests rid).sub_requests).map Prod.fst) := by
      apply (List.perm_ext_iff_of_nodup hqnd.2 hknd').mpr
      intro x
      rw [hmap', keys_eraseA, List.mem_filter]
      simp only [decide_eq_true_eq]
      constructor
      · intro hx
        exact ⟨hperm.mem_iff.mp (List.mem_cons_of_mem _ hx),
          fun he => hqnd.1 (he ▸ hx)⟩
      · rintro ⟨hx1, hx2⟩
        rcases List.mem_cons.mp (hperm.mem_iff.mpr hx1) with rfl | hx4
        · exact absurd rfl hx2
        · exact hx4
    exact ih (makeGrants st q) rid hs' hn' hrid' hexcl' hbal' hcap' hperm'

/-- C2 (amended).  (i) With natural-number inputs, the grants filed
against a request never sum to more than its originally registered
amount.  (ii) When every provider serving the request serves nothing
else, amounts are balanced and the aggregate capacity suffices,
invoking `makeGrants` on every serving provider (in any order) reduces
the request's amount to `0` and makes the filed grants sum to exactly
the amount the request held at the start. -/
theorem C2_request_conservation :
    (∀ (ops₁ ops₂ : List Op) (rid : Nat) (A : ℚ),
      validTraceB initState (ops₁ ++ Op.newRequest rid A :: ops₂) = true →
      (∀ op ∈ ops₁ ++ Op.newRequest rid A :: ops₂, natOpB op = true) →
      grantSumR (runOps (ops₁ ++ Op.newRequest rid A :: ops₂)) rid ≤ A) ∧
    (∀ (st : AState) (rid : Nat) (qs : List Nat),
      SInv st → NInv st → rid ∈ st.requestIds →
      (∀ pr ∈ (st.requests rid).sub_requests,
        (st.providers pr.1).sub_requests = [pr.2]) →
      (∀ pr ∈ (st.requests rid).sub_requests,
        (st.subs pr.2).amount =
          (if totalAvailable st rid ≠ 0 then
            (st.providers pr.1).available / totalAvailable st rid else 0) *
            (st.requests rid).amount) →
      (st.requests rid).amount ≤ totalAvailable st rid →
      List.Perm qs (((st.requests rid).sub_requests).map Prod.fst) →
      ((qs.foldl makeGrants st).requests rid).amount = 0 ∧
      grantSumR (qs.foldl makeGrants st) rid =
        grantSumR st rid + (st.requests rid).amount) := by
  constructor
  · intro ops₁ ops₂ rid A hv hnat
    set st₁ := runFrom initState ops₁ with hst₁
    rw [validTraceB_append] at hv
    simp only [Bool.and_eq_true] at hv
    have hv2 : (validOpB st₁ (Op.newRequest rid A) &&
        validTraceB (applyOp st₁ (Op.newRequest rid A)) ops₂) = true := hv.2
    simp only [Bool.and_eq_true] at hv2
    have hnat1 : ∀ op ∈ ops₁, natOpB op = true :=
      fun op ho => hnat op (List.mem_append_left _ ho)
    have hnat0 : natOpB (Op.newRequest rid A) = true :=
      hnat _ (List.mem_append_right _ (List.mem_cons_self _ _))
    have hnat2 : ∀ op ∈ ops₂, natOpB op = true :=
      fun op ho => hnat op (List.mem_append_right _ (List.mem_cons_of_mem _ ho))
    have hsn₁ := SNInv_runFrom SInv_initState NInv_initState ops₁ hv.1 hnat1
    have hs₂ : SInv (applyOp st₁ (Op.newRequest rid A)) := SInv_applyOp hsn₁.1 hv2.1
    have hn₂ : NInv (applyOp st₁ (Op.newRequest rid A)) :=
      NInv_applyOp hsn₁.1 hsn₁.2 hv2.1 hnat0
    have hfresh : rid ∉ st₁.requestIds := by
      have := hv2.1
      simp only [validOpB, Bool.not_eq_true'] at this
      simpa using this
    have hmem₂ : rid ∈ (applyOp st₁ (Op.newRequest rid A)).requestIds := by
      show rid ∈ st₁.requestIds ++ [rid]
      exact List.mem_append_right _ (List.mem_singleton.mpr rfl)
    have hfin : runOps (ops₁ ++ Op.newRequest rid A :: ops₂) =
        runFrom (applyOp st₁ (Op.newRequest rid A)) ops₂ := by
      show runFrom initState (ops₁ ++ Op.newRequest rid A :: ops₂) = _
      rw [runFrom_append]
      rfl
    have hcons := (runFrom_cons hs₂ hn₂ ops₂ hv2.2 hnat2).1 rid hmem₂
    have hg1 : grantSumR (applyOp st₁ (Op.newRequest rid A)) rid = 0 := by
      have h5 : grantSumR (applyOp st₁ (Op.newRequest rid A)) rid = grantSumR st₁ rid :=
        grantSumR_congr rfl (fun p _ => rfl) rid
      rw [h5]
      exact grantSumR_eq_zero hsn₁.1 hfresh
    have ha2 : ((applyOp st₁ (Op.newRequest rid A)).requests rid).amount = A := by
      show ((Function.update st₁.requests rid ⟨A, [], []⟩ : Nat → AllocationRequest)
        rid).amount = A
      rw [Function.update_same]
    rw [hg1, ha2] at hcons
    have hsnf := SNInv_runFrom hs₂ hn₂ ops₂ hv2.2 hnat2
    have hmemf : rid ∈ (runFrom (applyOp st₁ (Op.newRequest rid A)) ops₂).requestIds :=
      (runFrom_ids hs₂ ops₂ hv2.2).2 hmem₂
    have hamf : 0 ≤
        ((runFrom (applyOp st₁ (Op.newRequest rid A)) ops₂).requests rid).amount :=
      (hsnf.2.amtNat rid hmemf).nonneg
    rw [hfin]
    linarith
  · intro st rid qs hs hn hrid hexcl hbal hcap hperm
    have hq : ∀ q ∈ qs, q ∈ st.providerIds := by
      intro q hq0
      have hk := hperm.mem_iff.mp hq0
      obtain ⟨pr, hpr, hprq⟩ := List.mem_map.mp hk
      have := (hs.mapSub rid hrid pr hpr).1
      rw [hprq] at this
      exact this
    have hdrain := scenario_drain qs st rid hs hn hrid hexcl hbal hcap hperm
    have hcons := foldl_makeGrants_cons qs st hs hn hq rid hrid
    rw [hdrain, add_zero] at hcons
    exact ⟨hdrain, hcons⟩

/-- C2, counterexample to the frozen wording: with the non-negative
request amount `5/2`, `cx2ops` files grants totalling `3 > 5/2`; and in
the natural-number trace `cx2bops`, request `0`'s only serving provider
(provider `2`, with capacity `10 ≥ 5`) has `makeGrants` invoked, yet the
grants against request `0` total `3 ≠ 5`. -/
theorem C2_counterexample :
    (validTraceB initState cx2ops = true ∧
     (∀ op ∈ cx2ops, nonnegOpB op = true) ∧
     ¬ grantSumR (runOps cx2ops) 0 ≤ 5/2) ∧
    (validTraceB initState cx2bops = true ∧
     (∀ op ∈ cx2bops, natOpB op = true) ∧
     (((runOps (cx2bops.take 7)).requests 0).sub_requests).map Prod.fst = [2] ∧
     ((runOps (cx2bops.take 7)).requests 0).amount = 5 ∧
     totalAvailable (runOps (cx2bops.take 7)) 0 = 10 ∧
     grantSumR (runOps cx2bops) 0 = 3) := by decide!

theorem C2_witness :
    ((validTraceB initState (w2aops₁ ++ Op.newRequest 1 3 :: w2aops₂) = true ∧
      (∀ op ∈ w2aops₁ ++ Op.newRequest 1 3 :: w2aops₂, natOpB op = true)) ∧
     grantSumR (runOps (w2aops₁ ++ Op.newRequest 1 3 :: w2aops₂)) 1 ≤ 3) ∧
    ((0 ∈ (runOps w2ops).requestIds ∧
      (∀ pr ∈ ((runOps w2ops).requests 0).sub_requests,
        ((runOps w2ops).providers pr.1).sub_requests = [pr.2]) ∧
      ((runOps w2ops).requests 0).amount ≤ totalAvailable (runOps w2ops) 0 ∧
      List.Perm [1, 2] ((((runOps w2ops).requests 0).sub_requests).map Prod.fst)) ∧
     (([1, 2].foldl makeGrants (runOps w2ops)).requests 0).amount = 0 ∧
     grantSumR ([1, 2].foldl makeGrants (runOps w2ops)) 0 =
       grantSumR (runOps w2ops) 0 + ((runOps w2ops).requests 0).amount) :=
  ⟨⟨⟨by decide!, by decide!⟩,
    C2_request_conservation.1 w2aops₁ w2aops₂ 1 3 (by decide!) (by decide!)⟩,
   ⟨⟨by decide!, by decide!, by decide!, by decide!⟩,
    C2_request_conservation.2 (runOps w2ops) 0 [1, 2]
      (SInv_runOps (by decide!)) (NInv_runOps (by decide!) (by decide!))
      (by decide!) (by decide!) (by decide!) (by decide!) (by decide!)⟩⟩
